import Mathlib

/-!
# SSV operator node: event handling and consensus message validation

A shallow embedding of the registry event handlers
(`eth/eventdatahandler/handlers.go`), of the consensus message validator
(`message/validation/consensus_validation.go`, `message_counts.go`), of the
execution client (`eth/executionclient/execution_client.go`), of the head slot
of the duty scheduler (`operator/duties/scheduler.go`) and of the batch
verifier of BLS signatures (`protocol/v2/types/crypto.go`).

Conventions of the embedding
* byte strings are lists of naturals, addresses and hashes are naturals;
* a Go `error` is a value of `GoError`, `nil` is `none`;
* a call that can panic returns a `Res`, whose third alternative is the panic;
* mutable receivers are passed and returned explicitly;
* external libraries (BLS, RSA, the beacon node, the QBFT library) and the
  storage failures are fields of an environment record.
-/

namespace Ssv

/-! ## Basic data -/

abbrev Bytes := List Nat
abbrev Address := Nat
abbrev TxHash := Nat
abbrev OpId := Nat
abbrev Nonce := Nat

/-- Go error values. `malformed` is `&abiparser.MalformedEventError{Err: inner}`,
`wrap` is `fmt.Errorf("msg: %w", inner)`, `join` is `errors.Join(a, b)` and
`plain` is `errors.New` or a `fmt.Errorf` without `%w`. -/
inductive GoError where
  | plain (msg : String)
  | malformed (inner : GoError)
  | wrap (msg : String) (inner : GoError)
  | join (a b : GoError)
deriving DecidableEq, Repr

/-- The test `errors.As(err, &malformedEventErr)`: it walks the `Unwrap` chain,
including both branches of a joined error. -/
def GoError.isMalformed : GoError → Bool
  | .plain _ => false
  | .malformed _ => true
  | .wrap _ inner => inner.isMalformed
  | .join a b => a.isMalformed || b.isMalformed

/-- The test `errors.As` on a possibly nil error. -/
def errorsAsMalformed : Option GoError → Bool
  | none => false
  | some e => e.isMalformed

/-- Result of a computation that may return a value, return an error or panic. -/
inductive Res (α : Type) where
  | ok (a : α)
  | err (e : GoError)
  | panic
deriving DecidableEq, Repr

/-- What a handler call produced: it returned (an error or nil) or it panicked. -/
inductive Outcome where
  | returned (err : Option GoError)
  | panicked
deriving DecidableEq, Repr

structure Operator where
  OperatorID : OpId
  PubKey : Bytes
deriving DecidableEq, Repr

structure OperatorData where
  PublicKey : Bytes
  OwnerAddress : Address
  ID : OpId
deriving DecidableEq, Repr

structure SSVShare where
  ValidatorPubKey : Bytes
  OwnerAddress : Address
  OperatorID : OpId
  SharePubKey : Bytes
  Committee : List Operator
  Quorum : Nat
  PartialQuorum : Nat
  DomainType : Nat
  Graffiti : Bytes
  Liquidated : Bool
  BeaconMetadata : Option Nat
deriving DecidableEq, Repr

/-- The zero value `ssvtypes.SSVShare{}`. -/
def SSVShare.zero : SSVShare :=
  { ValidatorPubKey := [], OwnerAddress := 0, OperatorID := 0, SharePubKey := [],
    Committee := [], Quorum := 0, PartialQuorum := 0, DomainType := 0, Graffiti := [],
    Liquidated := false, BeaconMetadata := none }

/-- Modelled from the spec: `SSVShare.BelongsToOperator` is not among the sources.
The share belongs to the operator whose id it records as this operator's id;
the zero id stands for "no local operator". -/
def SSVShare.BelongsToOperator (s : SSVShare) (operatorID : OpId) : Bool :=
  operatorID != 0 && s.OperatorID == operatorID

/-! ## Contract events -/

structure ContractValidatorAdded where
  Owner : Address
  OperatorIds : List OpId
  PublicKey : Bytes
  Shares : Bytes
  TxHash : TxHash
deriving DecidableEq, Repr

structure ContractValidatorRemoved where
  Owner : Address
  OperatorIds : List OpId
  PublicKey : Bytes
deriving DecidableEq, Repr

/-! ## Registry transaction (`eventdb.RW`) and in-memory collections -/

/-- Which storage and key-manager calls fail. A failing call returns an error
and leaves the store as it was. -/
structure Faults where
  getEventData : Bool
  getNextNonce : Bool
  saveEventData : Bool
  bumpNonce : Bool
  saveShares : Bool
  deleteShare : Bool
  addShare : Bool
  cleanAllInstances : Bool
  saveOperatorData : Bool := false
deriving DecidableEq, Repr

/-- No call fails. -/
def Faults.none : Faults :=
  { getEventData := false, getNextNonce := false, saveEventData := false,
    bumpNonce := false, saveShares := false, deleteShare := false,
    addShare := false, cleanAllInstances := false }

/-- Modelled from the spec: the registry transaction `eventdb.RW` is not among
the sources. Its persisted layout is `events/<tx_hash>` (presence means
processed), `nonces/<owner>`, `shares/<validator_pub_key>`, `operators/<id>`
and `recipients/<owner>`. -/
structure Txn where
  events : List TxHash
  nonces : List (Address × Nonce)
  shares : List SSVShare
  operators : List OperatorData
  recipients : List (Address × Address)
deriving DecidableEq, Repr

/-- Modelled from the spec: `GetEventData` of `eventdb.RW`; the event data of a
transaction hash is present exactly when the hash was marked processed. -/
def Txn.GetEventData (f : Faults) (t : Txn) (h : TxHash) : Except GoError (Option Unit) :=
  if f.getEventData then .error (.plain "get event data")
  else .ok (if h ∈ t.events then some () else none)

/-- Modelled from the spec: `SaveEventData` of `eventdb.RW` marks the hash processed. -/
def Txn.SaveEventData (f : Faults) (t : Txn) (h : TxHash) : Txn × Option GoError :=
  if f.saveEventData then (t, some (.plain "save event data"))
  else ({ t with events := h :: t.events }, none)

/-- Modelled from the spec: the per-owner nonce `nonces/<owner>`, zero when
the owner has none. -/
def nonceOf : List (Address × Nonce) → Address → Nonce
  | [], _ => 0
  | (a, n) :: rest, owner => if a = owner then n else nonceOf rest owner

/-- Modelled from the spec: bumping advances the nonce of an owner by one and
leaves the other owners untouched. -/
def bumpNonceOf : List (Address × Nonce) → Address → List (Address × Nonce)
  | [], owner => [(owner, 1)]
  | (a, n) :: rest, owner =>
    if a = owner then (a, n + 1) :: rest else (a, n) :: bumpNonceOf rest owner

/-- Modelled from the spec: `GetNextNonce` of `eventdb.RW` reads the per-owner nonce. -/
def Txn.GetNextNonce (f : Faults) (t : Txn) (owner : Address) : Except GoError Nonce :=
  if f.getNextNonce then .error (.plain "get next nonce")
  else .ok (nonceOf t.nonces owner)

/-- Modelled from the spec: `BumpNonce` of `eventdb.RW` advances the owner's nonce. -/
def Txn.BumpNonce (f : Faults) (t : Txn) (owner : Address) : Txn × Option GoError :=
  if f.bumpNonce then (t, some (.plain "bump nonce"))
  else ({ t with nonces := bumpNonceOf t.nonces owner }, none)

/-- Modelled from the spec: the share collection (`edh.shares` in memory,
`shares/<validator_pub_key>` in the registry) is not among the sources; `Get`
looks a share up by validator public key. -/
def sharesGet : List SSVShare → Bytes → Option SSVShare
  | [], _ => none
  | s :: rest, pk => if s.ValidatorPubKey = pk then some s else sharesGet rest pk

/-- Modelled from the spec: `Save` of the share collection inserts a share,
replacing the one stored under the same validator public key. -/
def sharesSave : List SSVShare → SSVShare → List SSVShare
  | [], s => [s]
  | x :: rest, s =>
    if x.ValidatorPubKey = s.ValidatorPubKey then s :: rest else x :: sharesSave rest s

/-- Modelled from the spec: `Delete` of the share collection removes the share
stored under a validator public key. -/
def sharesDelete (l : List SSVShare) (pk : Bytes) : List SSVShare :=
  l.filter (fun s => s.ValidatorPubKey != pk)

/-- Modelled from the spec: `SaveShares` of `eventdb.RW` persists `shares/<pub_key>`. -/
def Txn.SaveShares (f : Faults) (t : Txn) (s : SSVShare) : Txn × Option GoError :=
  if f.saveShares then (t, some (.plain "save shares"))
  else ({ t with shares := sharesSave t.shares s }, none)

/-- Modelled from the spec: `DeleteShare` of `eventdb.RW` removes `shares/<pub_key>`. -/
def Txn.DeleteShare (f : Faults) (t : Txn) (pk : Bytes) : Txn × Option GoError :=
  if f.deleteShare then (t, some (.plain "delete share"))
  else ({ t with shares := sharesDelete t.shares pk }, none)

/-! ## Event data handler -/

abbrev SecretKey := Nat
abbrev PrivateKey := Nat
abbrev BlsPublicKey := Bytes
abbrev BlsSign := Nat

inductive BeaconRole where
  | BNRoleAttester
  | BNRoleAggregator
  | BNRoleProposer
  | BNRoleSyncCommittee
  | BNRoleSyncCommitteeContribution
  | BNRoleValidatorRegistration
  | BNRoleUnknown
deriving DecidableEq, Repr

structure MessageID where
  Domain : Nat
  PubKey : Bytes
  Role : BeaconRole
deriving DecidableEq, Repr

/-- The libraries and collaborators the handlers call: BLS, RSA, Keccak, the
beacon node, the operator key provider, and the storage failures.
`SignatureLength` is the library constant `phase0.SignatureLength`. -/
structure HandlerEnv where
  faults : Faults
  SignatureLength : Nat
  ownerNonceData : Address → Nonce → Bytes
  Keccak256 : Bytes → Bytes
  signDeserialize : Bytes → Option BlsSign
  pkDeserialize : Bytes → Option BlsPublicKey
  VerifyByte : BlsSign → BlsPublicKey → Bytes → Bool
  DeserializeBLSPublicKey : Bytes → Option BlsPublicKey
  pkSerialize : BlsPublicKey → Bytes
  shareEncryptionKeyProvider : Except GoError (Option PrivateKey)
  DecodeKey : PrivateKey → Bytes → Option Bytes
  SetHexString : Bytes → Option SecretKey
  GetPublicKey : SecretKey → Bytes
  FetchValidatorsMetadata : Bytes → Except GoError (Option Nat)
  ComputeQuorumAndPartialQuorum : Nat → Nat × Nat
  GetDefaultDomain : Nat

/-- Decided-message store of one role: the stored instances with their message id. -/
abbrev QBFTStore := List (MessageID × Nat)

structure EventDataHandler where
  operatorData : OperatorData
  shares : List SSVShare
  keyManager : List SecretKey
  storageMap : List (BeaconRole × QBFTStore)
  fullNode : Bool
deriving DecidableEq, Repr

structure HandlerResult where
  edh : EventDataHandler
  txn : Txn
  out : Outcome
deriving DecidableEq, Repr

def encryptedKeyLength : Nat := 256
def PublicKeyLength : Nat := 48

/-- The loop of `splitBytes`: while `len(buf) >= lim` cut a chunk of `lim` bytes
off the front, then append what is left when it is not empty. The fuel is the
length of the buffer, which bounds the number of iterations when `lim > 0`. -/
def splitBytesLoop (lim : Nat) : Nat → Bytes → List Bytes → List Bytes
  | 0, buf, chunks => if 0 < buf.length then chunks ++ [buf] else chunks
  | fuel + 1, buf, chunks =>
    if lim ≤ buf.length then
      splitBytesLoop lim fuel (buf.drop lim) (chunks ++ [buf.take lim])
    else if 0 < buf.length then chunks ++ [buf] else chunks

/-- The function `splitBytes`; the capacity `len(buf)/lim+1` divides by `lim`,
which panics when `lim` is zero: `none` is that panic. -/
def splitBytes (buf : Bytes) (lim : Nat) : Option (List Bytes) :=
  if lim = 0 then none else some (splitBytesLoop lim buf.length buf [])

/-- The function `verifySignature` of the ValidatorAdded shares data. -/
def verifySignature (env : HandlerEnv) (sig : Bytes) (owner : Address) (pubKey : Bytes)
    (nonce : Nonce) : Option GoError :=
  let data := env.ownerNonceData owner nonce
  let hash := env.Keccak256 data
  match env.signDeserialize sig with
  | none => some (.wrap "failed to deserialize signature" (.plain "bls"))
  | some sign =>
    match env.pkDeserialize pubKey with
    | none => some (.wrap "failed to deserialize public key" (.plain "bls"))
    | some pk =>
      if !env.VerifyByte sign pk hash then some (.plain "failed to verify signature")
      else none

/-- The share under construction in `validatorAddedEventToShare` together with
the decoded share secret (`nil` is `none`). -/
structure ShareBuild where
  share : SSVShare
  committee : List Operator
  shareSecret : Option SecretKey
deriving DecidableEq, Repr

/-- The loop `for i := range event.OperatorIds` of `validatorAddedEventToShare`,
from index `i` on; `ids` are the operator ids not yet visited. -/
def eventToShareLoop (env : HandlerEnv) (operatorData : OperatorData)
    (sharePublicKeys encryptedKeys : List Bytes) :
    List OpId → Nat → ShareBuild → Res ShareBuild
  | [], _, st => .ok st
  | operatorID :: rest, i, st =>
    match sharePublicKeys[i]? with
    | none => .panic
    | some pk =>
      let st1 : ShareBuild := { st with committee := st.committee ++ [⟨operatorID, pk⟩] }
      if operatorID = operatorData.ID then
        let st2 : ShareBuild :=
          { st1 with share := { st1.share with OperatorID := operatorID, SharePubKey := pk } }
        match env.shareEncryptionKeyProvider with
        | .error e => .err (.wrap "could not get operator private key" e)
        | .ok none => .err (.plain "could not find operator private key")
        | .ok (some operatorPrivateKey) =>
          match encryptedKeys[i]? with
          | none => .panic
          | some ek =>
            match env.DecodeKey operatorPrivateKey ek with
            | none => .err (.malformed (.wrap "could not decrypt share private key" (.plain "rsa")))
            | some decrypted =>
              match env.SetHexString decrypted with
              | none =>
                .err (.malformed (.wrap "could not set decrypted share private key" (.plain "bls")))
              | some secret =>
                if env.GetPublicKey secret ≠ pk then
                  .err (.malformed (.plain "share private key does not match public key"))
                else
                  eventToShareLoop env operatorData sharePublicKeys encryptedKeys rest (i + 1)
                    { st2 with shareSecret := some secret }
      else
        eventToShareLoop env operatorData sharePublicKeys encryptedKeys rest (i + 1) st1

/-- The last assignments of `validatorAddedEventToShare`, after its loop:
quorum and partial quorum from the committee size, the default domain, the
committee and the graffiti `ssv.network`. -/
def finishShare (env : HandlerEnv) (st : ShareBuild) : SSVShare :=
  let q := env.ComputeQuorumAndPartialQuorum st.committee.length
  { st.share with
    Quorum := q.1, PartialQuorum := q.2, DomainType := env.GetDefaultDomain,
    Committee := st.committee,
    Graffiti := [115, 115, 118, 46, 110, 101, 116, 119, 111, 114, 107] }

/-- The function `validatorAddedEventToShare`. -/
def validatorAddedEventToShare (env : HandlerEnv) (event : ContractValidatorAdded)
    (operatorData : OperatorData) (sharePublicKeys encryptedKeys : List Bytes) :
    Res (SSVShare × Option SecretKey) :=
  match env.DeserializeBLSPublicKey event.PublicKey with
  | none =>
    .err (.malformed (.wrap "failed to deserialize validator public key" (.plain "bls")))
  | some publicKey =>
    let validatorShare : SSVShare :=
      { SSVShare.zero with
        ValidatorPubKey := env.pkSerialize publicKey, OwnerAddress := event.Owner }
    match eventToShareLoop env operatorData sharePublicKeys encryptedKeys event.OperatorIds 0
        ⟨validatorShare, [], none⟩ with
    | .panic => .panic
    | .err e => .err e
    | .ok st => .ok (finishShare env st, st.shareSecret)

/-- The function `updateShareMetadata`; its error is only logged by the caller. -/
def updateShareMetadata (env : HandlerEnv) (share : SSVShare) : SSVShare :=
  match env.FetchValidatorsMetadata share.ValidatorPubKey with
  | .error _ => share
  | .ok none => share
  | .ok (some meta) => { share with BeaconMetadata := some meta }

/-- The tail of `handleShareCreation`: `edh.shares.Save(share)` and then
`txn.SaveShares(share)`. -/
def saveCreatedShare (env : HandlerEnv) (edh : EventDataHandler) (txn : Txn)
    (share : SSVShare) : EventDataHandler × Txn × Res SSVShare :=
  let edh1 : EventDataHandler := { edh with shares := sharesSave edh.shares share }
  match txn.SaveShares env.faults share with
  | (txn1, some e) => (edh1, txn1, .err (.wrap "could not save validator share" e))
  | (txn1, none) => (edh1, txn1, .ok share)

/-- The method `handleShareCreation`. -/
def handleShareCreation (env : HandlerEnv) (edh : EventDataHandler) (txn : Txn)
    (validatorEvent : ContractValidatorAdded) (sharePublicKeys encryptedKeys : List Bytes) :
    EventDataHandler × Txn × Res SSVShare :=
  match validatorAddedEventToShare env validatorEvent edh.operatorData sharePublicKeys
      encryptedKeys with
  | .panic => (edh, txn, .panic)
  | .err e => (edh, txn, .err (.wrap "could not extract validator share from event" e))
  | .ok (share, shareSecret) =>
    if share.BelongsToOperator edh.operatorData.ID then
      match shareSecret with
      | none => (edh, txn, .err (.plain "could not decode shareSecret"))
      | some secret =>
        let share1 := updateShareMetadata env share
        if env.faults.addShare then
          (edh, txn,
            .err (.wrap "could not add share secret to key manager" (.plain "key manager")))
        else
          saveCreatedShare env { edh with keyManager := edh.keyManager ++ [secret] } txn share1
    else
      saveCreatedShare env edh txn share

/-- State and values at the point where the body of `handleValidatorAdded`
stops: the flag `valid` and the named result `err` are what the deferred call
reads. -/
structure BodyResult where
  edh : EventDataHandler
  txn : Txn
  valid : Bool
  out : Outcome
deriving DecidableEq, Repr

/-- The last part of the body of `handleValidatorAdded`, from
`edh.shares.Get(event.PublicKey)` to the final `return err`: create the share
when the key is new, reject the event when the key belongs to another owner. -/
def registerValidatorShare (env : HandlerEnv) (edh : EventDataHandler) (txn : Txn)
    (event : ContractValidatorAdded) (sharePublicKeys encryptedKeys : List Bytes) :
    BodyResult :=
  match sharesGet edh.shares event.PublicKey with
  | none =>
    match handleShareCreation env edh txn event sharePublicKeys encryptedKeys with
    | (edh1, txn1, .panic) => ⟨edh1, txn1, false, .panicked⟩
    | (edh1, txn1, .err e) => ⟨edh1, txn1, false, .returned (some e)⟩
    | (edh1, txn1, .ok _) => ⟨edh1, txn1, true, .returned none⟩
  | some validatorShare =>
    if event.Owner ≠ validatorShare.OwnerAddress then
      ⟨edh, txn, false,
        .returned (some (.malformed
          (.plain "validator share already exists with different owner address")))⟩
    else ⟨edh, txn, false, .returned none⟩

/-- The body of `handleValidatorAdded`, up to its `return`, without the
deferred call. -/
def handleValidatorAddedBody (env : HandlerEnv) (edh : EventDataHandler) (txn : Txn)
    (event : ContractValidatorAdded) : BodyResult :=
  match txn.GetEventData env.faults event.TxHash with
  | .error eventErr =>
    ⟨edh, txn, false, .returned (some (.wrap "failed to get event data" eventErr))⟩
  | .ok (some _) => ⟨edh, txn, false, .returned none⟩
  | .ok none =>
    match txn.GetNextNonce env.faults event.Owner with
    | .error nonceErr =>
      ⟨edh, txn, false, .returned (some (.wrap "failed to get next nonce" nonceErr))⟩
    | .ok nonce =>
      let operatorCount := event.OperatorIds.length
      let signatureOffset := env.SignatureLength
      let pubKeysOffset := PublicKeyLength * operatorCount + signatureOffset
      let sharesExpectedLength := encryptedKeyLength * operatorCount + pubKeysOffset
      if sharesExpectedLength ≠ event.Shares.length then
        ⟨edh, txn, false,
          .returned (some (.malformed (.plain "event shares length is not correct")))⟩
      else
        let signature := event.Shares.take signatureOffset
        match splitBytes ((event.Shares.drop signatureOffset).take
            (pubKeysOffset - signatureOffset)) PublicKeyLength with
        | none => ⟨edh, txn, false, .panicked⟩
        | some sharePublicKeys =>
          if operatorCount = 0 then ⟨edh, txn, false, .panicked⟩
          else
            match splitBytes (event.Shares.drop pubKeysOffset)
                ((event.Shares.drop pubKeysOffset).length / operatorCount) with
            | none => ⟨edh, txn, false, .panicked⟩
            | some encryptedKeys =>
              match verifySignature env signature event.Owner event.PublicKey nonce with
              | some e =>
                ⟨edh, txn, false,
                  .returned (some (.malformed (.wrap "failed to verify signature" e)))⟩
              | none => registerValidatorShare env edh txn event sharePublicKeys encryptedKeys

/-- The method `validatorAddedDefer`. -/
def validatorAddedDefer (env : HandlerEnv) (valid : Bool) (err : Option GoError)
    (event : ContractValidatorAdded) (txn : Txn) : Txn × Option GoError :=
  if valid || errorsAsMalformed err then
    match txn.SaveEventData env.faults event.TxHash with
    | (txn1, some saveErr) =>
      let wrappedErr := GoError.wrap "could not save event data" saveErr
      match err with
      | none => (txn1, some wrappedErr)
      | some e => (txn1, some (.join wrappedErr e))
    | (txn1, none) =>
      match txn1.BumpNonce env.faults event.Owner with
      | (txn2, some bumpErr) =>
        let wrappedErr := GoError.wrap "failed to bump the nonce" bumpErr
        match err with
        | none => (txn2, some wrappedErr)
        | some e => (txn2, some (.join wrappedErr e))
      | (txn2, none) => (txn2, err)
  else (txn, err)

/-- The method `handleValidatorAdded`: the body followed by the deferred
`validatorAddedDefer`, whose result replaces the returned error. When the body
panics the deferred call still runs, with the `valid` and `err` of that moment
(false and nil at every panic site), and the panic goes on. -/
def handleValidatorAdded (env : HandlerEnv) (edh : EventDataHandler) (txn : Txn)
    (event : ContractValidatorAdded) : HandlerResult :=
  let b := handleValidatorAddedBody env edh txn event
  match b.out with
  | .returned err =>
    let d := validatorAddedDefer env b.valid err event b.txn
    ⟨b.edh, d.1, .returned d.2⟩
  | .panicked =>
    let d := validatorAddedDefer env b.valid none event b.txn
    ⟨b.edh, d.1, .panicked⟩

structure ContractOperatorAdded where
  OperatorId : OpId
  Owner : Address
  PublicKey : Bytes
deriving DecidableEq, Repr

/-- Modelled from the spec: the operator rows `operators/<id>` of the registry
are not among the sources; a row is looked up by operator id. -/
def operatorsGet : List OperatorData → OpId → Option OperatorData
  | [], _ => none
  | od :: rest, id => if od.ID = id then some od else operatorsGet rest id

/-- Modelled from the spec: `SaveOperatorData` of `eventdb.RW` persists
`(id, pub_key, owner)` under `operators/<id>` if absent and reports whether
a row for the id existed already. -/
def Txn.SaveOperatorData (f : Faults) (t : Txn) (od : OperatorData) :
    Txn × Except GoError Bool :=
  if f.saveOperatorData then (t, .error (.plain "save operator data"))
  else
    match operatorsGet t.operators od.ID with
    | some _ => (t, .ok true)
    | none => ({ t with operators := t.operators ++ [od] }, .ok false)

/-- The method `handleOperatorAdded`. -/
def handleOperatorAdded (env : HandlerEnv) (edh : EventDataHandler) (txn : Txn)
    (event : ContractOperatorAdded) : HandlerResult :=
  let od : OperatorData :=
    { PublicKey := event.PublicKey, OwnerAddress := event.Owner, ID := event.OperatorId }
  if edh.operatorData.ID ≠ 0 ∧ edh.operatorData.PublicKey = event.PublicKey ∧
      edh.operatorData.ID ≠ event.OperatorId then
    ⟨edh, txn, .returned (some (.malformed
      (.plain "operator registered with the same operator public key")))⟩
  else
    match txn.SaveOperatorData env.faults od with
    | (txn1, .error e) => ⟨edh, txn1, .returned (some (.wrap "save operator data" e))⟩
    | (txn1, .ok true) => ⟨edh, txn1, .returned none⟩
    | (txn1, .ok false) =>
      if event.PublicKey = edh.operatorData.PublicKey then
        ⟨{ edh with operatorData := od }, txn1, .returned none⟩
      else ⟨edh, txn1, .returned none⟩

/-- The call `NewMsgID(domain, pubKey, role)`. -/
def NewMsgID (domain : Nat) (pk : Bytes) (role : BeaconRole) : MessageID := ⟨domain, pk, role⟩

/-- Modelled from the spec: `edh.storageMap.Get(role)` is not among the
sources; it is the decided-message store of a role, if there is one. -/
def storageMapGet : List (BeaconRole × QBFTStore) → BeaconRole → Option QBFTStore
  | [], _ => none
  | (r, st) :: rest, role => if r = role then some st else storageMapGet rest role

/-- Replace the store of a role. -/
def storageMapSet : List (BeaconRole × QBFTStore) → BeaconRole → QBFTStore →
    List (BeaconRole × QBFTStore)
  | [], _, _ => []
  | (r, st) :: rest, role, new =>
    if r = role then (r, new) :: rest else (r, st) :: storageMapSet rest role new

/-- Modelled from the spec: `CleanAllInstances` of the decided-message store is
not among the sources; it deletes the decided-message storage of a message id. -/
def CleanAllInstances (f : Faults) (store : QBFTStore) (id : MessageID) :
    QBFTStore × Option GoError :=
  if f.cleanAllInstances then (store, some (.plain "clean all instances"))
  else (store.filter (fun e => e.1 != id), none)

/-- The method `handleValidatorRemoved`. -/
def handleValidatorRemoved (env : HandlerEnv) (edh : EventDataHandler) (txn : Txn)
    (event : ContractValidatorRemoved) : HandlerResult :=
  match sharesGet edh.shares event.PublicKey with
  | none => ⟨edh, txn, .returned (some (.malformed (.plain "could not find validator share")))⟩
  | some share =>
    if event.Owner ≠ share.OwnerAddress then
      ⟨edh, txn, .returned (some (.malformed
        (.plain "validator share already exists with different owner address")))⟩
    else
      let messageID := NewMsgID env.GetDefaultDomain share.ValidatorPubKey .BNRoleAttester
      let cleaned : EventDataHandler × Option GoError :=
        match storageMapGet edh.storageMap messageID.Role with
        | none => (edh, none)
        | some store =>
          let c := CleanAllInstances env.faults store messageID
          ({ edh with storageMap := storageMapSet edh.storageMap messageID.Role c.1 }, c.2)
      match cleaned with
      | (edh1, some e) =>
        ⟨edh1, txn, .returned (some (.wrap "could not clean all decided messages" e))⟩
      | (edh1, none) =>
        let edh2 : EventDataHandler :=
          { edh1 with shares := sharesDelete edh1.shares share.ValidatorPubKey }
        match txn.DeleteShare env.faults share.ValidatorPubKey with
        | (txn1, some e) =>
          ⟨edh2, txn1, .returned (some (.wrap "could not remove validator share" e))⟩
        | (txn1, none) => ⟨edh2, txn1, .returned none⟩

/-! ## Consensus messages and per-signer message counts -/

inductive MessageType where
  | ProposalMsgType
  | PrepareMsgType
  | CommitMsgType
  | RoundChangeMsgType
  | UnknownMsgType
deriving DecidableEq, Repr

/-- The QBFT message `specqbft.Message`; `Height` and `Round` are unsigned
64-bit integers. -/
structure Message where
  MsgType : MessageType
  Height : Nat
  Round : Nat
  Root : Bytes
deriving DecidableEq, Repr

/-- The signed message `specqbft.SignedMessage`; a nil `FullData` slice is `none`. -/
structure SignedMessage where
  Signature : Bytes
  Signers : List OpId
  Message : Message
  FullData : Option Bytes
deriving DecidableEq, Repr

inductive PartialSigMsgType where
  | PostConsensusPartialSig
  | RandaoPartialSig
  | SelectionProofPartialSig
  | ContributionProofs
  | ValidatorRegistrationPartialSig
  | UnknownPartialSig
deriving DecidableEq, Repr

structure SignedPartialSignatureMessage where
  PartialSigType : PartialSigMsgType
  Signer : OpId
deriving DecidableEq, Repr

/-- The dynamic type of `msg.Body`. -/
inductive MessageBody where
  | signedMessage (m : SignedMessage)
  | partialSignatureMessage (m : SignedPartialSignatureMessage)
  | other
deriving DecidableEq, Repr

structure DecodedSSVMessage where
  MsgID : MessageID
  Data : Bytes
  Body : MessageBody
deriving DecidableEq, Repr

structure MessageCounts where
  PreConsensus : Nat
  Proposal : Nat
  Prepare : Nat
  Commit : Nat
  Decided : Nat
  RoundChange : Nat
  PostConsensus : Nat
deriving DecidableEq, Repr

/-- The zero value `MessageCounts{}`. -/
def MessageCounts.zero : MessageCounts := ⟨0, 0, 0, 0, 0, 0, 0⟩

/-- The function `maxMessageCounts`. -/
def maxMessageCounts (committeeSize : Nat) : MessageCounts :=
  { PreConsensus := 1, Proposal := 1, Prepare := 1, Commit := 1,
    Decided := committeeSize + 1, RoundChange := 1, PostConsensus := 1 }

/-- The method `MessageCounts.Validate`. -/
def MessageCounts.Validate (c : MessageCounts) (msg : DecodedSSVMessage) : Option GoError :=
  match msg.Body with
  | .signedMessage m =>
    match m.Message.MsgType with
    | .ProposalMsgType =>
      if c.Proposal > 0 ∨ c.Commit > 0 ∨ c.Decided > 0 ∨ c.PostConsensus > 0 then
        some (.plain "proposal is not expected")
      else none
    | .PrepareMsgType =>
      if c.Prepare > 0 ∨ c.Commit > 0 ∨ c.Decided > 0 ∨ c.PostConsensus > 0 then
        some (.plain "prepare is not expected")
      else none
    | .CommitMsgType =>
      if c.Commit > 0 ∨ c.Decided > 0 ∨ c.PostConsensus > 0 then
        some (.plain "commit is not expected")
      else none
    | .RoundChangeMsgType =>
      if c.RoundChange > 0 then some (.plain "round change is not expected") else none
    | .UnknownMsgType => none
  | .partialSignatureMessage m =>
    match m.PartialSigType with
    | .RandaoPartialSig | .SelectionProofPartialSig | .ContributionProofs
    | .ValidatorRegistrationPartialSig =>
      if c.PreConsensus > 0 then some (.plain "pre-consensus is not expected") else none
    | .PostConsensusPartialSig =>
      if c.PostConsensus > 0 then some (.plain "post-consensus is not expected") else none
    | .UnknownPartialSig => none
  | .other => some (.plain "unexpected message type")

/-- The method `MessageCounts.Record`; `none` is its panic on an unexpected
message type. -/
def MessageCounts.Record (c : MessageCounts) (msg : DecodedSSVMessage) : Option MessageCounts :=
  match msg.Body with
  | .signedMessage m =>
    match m.Message.MsgType with
    | .ProposalMsgType => some { c with Proposal := c.Proposal + 1 }
    | .PrepareMsgType => some { c with Prepare := c.Prepare + 1 }
    | .CommitMsgType =>
      if m.Signers.length = 1 then some { c with Commit := c.Commit + 1 }
      else if m.Signers.length > 1 then some { c with Decided := c.Decided + 1 }
      else some c
    | .RoundChangeMsgType => some { c with RoundChange := c.RoundChange + 1 }
    | .UnknownMsgType => some c
  | .partialSignatureMessage m =>
    match m.PartialSigType with
    | .RandaoPartialSig | .SelectionProofPartialSig | .ContributionProofs
    | .ValidatorRegistrationPartialSig => some { c with PreConsensus := c.PreConsensus + 1 }
    | .PostConsensusPartialSig => some { c with PostConsensus := c.PostConsensus + 1 }
    | .UnknownPartialSig => some c
  | .other => none

/-- The method `MessageCounts.Exceeds`. -/
def MessageCounts.Exceeds (c limits : MessageCounts) : Bool :=
  decide (c.PreConsensus > limits.PreConsensus) ||
  decide (c.Proposal > limits.Proposal) ||
  decide (c.Prepare > limits.Prepare) ||
  decide (c.Commit > limits.Commit) ||
  decide (c.Decided > limits.Decided) ||
  decide (c.RoundChange > limits.RoundChange) ||
  decide (c.PostConsensus > limits.PostConsensus)

/-- Modelled from the spec: `MessageCounts.ReachedLimits` is not among the
sources; it tests exceedance of the counts against the given limits, which
is the comparison of `Exceeds`. -/
def MessageCounts.ReachedLimits (c limits : MessageCounts) : Bool := c.Exceeds limits

/-- Feed a sequence of messages to the counters the way the validator does:
a message is passed to `Record` only when `Validate` on the current counts
returned nil, and a message that is rejected leaves the counts alone. -/
def recordValidated : MessageCounts → List DecodedSSVMessage → MessageCounts
  | c, [] => c
  | c, msg :: rest =>
    match c.Validate msg with
    | some _ => recordValidated c rest
    | none =>
      match c.Record msg with
      | some c1 => recordValidated c1 rest
      | none => c

/-! ## Consensus message validation -/

/-- The per-signer state `SignerState`: last-seen slot and round, the running
message counts, the last proposal full data (a nil slice is `none`) and the
last decided quorum size. -/
structure SignerState where
  Slot : Nat
  Round : Nat
  MessageCounts : MessageCounts
  ProposalData : Option Bytes
  LastDecidedQuorumSize : Nat
deriving DecidableEq, Repr

/-- The zero value of a signer state, which `ConsensusState.SignerState` creates
for a signer seen for the first time. -/
def SignerState.zero : SignerState := ⟨0, 0, MessageCounts.zero, none, 0⟩

/-- The state of one (validator public key, role) pair: signer id to signer state. -/
abbrev ConsensusState := List (OpId × SignerState)

/-- The method `ConsensusState.SignerState`: the state of a signer, the zero
state when the signer has none yet. -/
def ConsensusState.SignerState : ConsensusState → OpId → SignerState
  | [], _ => SignerState.zero
  | (id, st) :: rest, signer =>
    if id = signer then st else ConsensusState.SignerState rest signer

/-- Write back the state of a signer, which the source mutates through a pointer. -/
def ConsensusState.set : ConsensusState → OpId → Ssv.SignerState → ConsensusState
  | [], signer, st => [(signer, st)]
  | (id, old) :: rest, signer, st =>
    if id = signer then (id, st) :: rest else (id, old) :: ConsensusState.set rest signer st

/-- The constants, libraries and methods of the message validator that are
not among the sources: the size limit, the allowed round distances, the round
timer constants, the beacon network clock, signature format and signer
checks, the slot-time check, the slot-and-round check of the signer state,
hashing, justification decoding and the BLS verification of the committee. -/
structure ValidationEnv where
  maxConsensusMsgSize : Nat
  allowedRoundsInFuture : Nat
  allowedRoundsInPast : Nat
  QuickTimeoutThreshold : Nat
  QuickTimeout : Int
  SlowTimeout : Int
  GetSlotStartTime : Nat → Int
  SlotDurationSec : Int
  validateSignatureFormat : Bytes → Option GoError
  commonSignerValidation : OpId → SSVShare → Option GoError
  RoundRobinProposer : Nat → SSVShare → Nat → OpId
  validateSlotTime : Nat → BeaconRole → Int → Option GoError
  validateSlotAndRoundState : SignerState → Nat → Nat → SignerState × Option GoError
  HashDataRoot : Option Bytes → Except GoError Bytes
  GetPrepareJustifications : Message → Option GoError
  GetRoundChangeJustifications : Message → Option GoError
  VerifyByOperators : Bytes → SignedMessage → List Operator → Option GoError

def ErrNoSigners : GoError := .plain "no signers"
def ErrSignerNotLeader : GoError := .plain "signer is not leader"
def ErrSignersNotSorted : GoError := .plain "signers are not sorted"
def ErrDuplicatedSigner : GoError := .plain "signer is duplicated"
def ErrTooManyMessagesPerRound : GoError := .plain "too many messages per round"
def ErrSlotAlreadyAdvanced : GoError := .plain "signer has already advanced to a later slot"
def ErrRoundAlreadyAdvanced : GoError := .plain "signer has already advanced to a later round"

/-- The method `isDecidedMessage`. -/
def isDecidedMessage (signedMsg : SignedMessage) : Bool :=
  signedMsg.Message.MsgType == .CommitMsgType && decide (signedMsg.Signers.length > 1)

/-- The method `hasFullData`. -/
def hasFullData (signedMsg : SignedMessage) : Bool :=
  signedMsg.Message.MsgType == .ProposalMsgType ||
  signedMsg.Message.MsgType == .RoundChangeMsgType ||
  isDecidedMessage signedMsg

/-- The call `bytes.Equal`, for which a nil slice equals an empty one. -/
def bytesEqual (a b : Option Bytes) : Bool := a.getD [] == b.getD []

/-- The method `maxRound`; `none` is the panic on an unknown role. -/
def maxRound : BeaconRole → Option Nat
  | .BNRoleAttester | .BNRoleAggregator => some 12
  | .BNRoleProposer | .BNRoleSyncCommittee | .BNRoleSyncCommitteeContribution => some 6
  | .BNRoleValidatorRegistration => some 0
  | .BNRoleUnknown => none

/-- A signed integer wrapped into the range of `int64`. -/
def wrapInt64 (x : Int) : Int := (x + 2 ^ 63) % 2 ^ 64 - 2 ^ 63

/-- The call `t.Sub(u)` of `time.Time`: the difference in nanoseconds, saturated
to the range of `time.Duration`. -/
def timeSub (t u : Int) : Int := max (-(2 ^ 63)) (min (2 ^ 63 - 1) (t - u))

/-- The conversion `specqbft.Round(d)` of a duration to an unsigned 64-bit round. -/
def toRound (d : Int) : Nat := (d % 2 ^ 64).toNat

/-- The method `waitAfterSlotStart`; `none` is the panic on an unknown role. -/
def waitAfterSlotStart (env : ValidationEnv) : BeaconRole → Option Int
  | .BNRoleAttester | .BNRoleSyncCommittee => some (Int.tdiv env.SlotDurationSec 3)
  | .BNRoleAggregator | .BNRoleSyncCommitteeContribution =>
    some (wrapInt64 (Int.tdiv env.SlotDurationSec 3 * 2))
  | .BNRoleProposer | .BNRoleValidatorRegistration => some 0
  | .BNRoleUnknown => none

/-- The method `currentEstimatedRound`, in unsigned 64-bit rounds; `none` is the
panic of `waitAfterSlotStart`. Durations are signed 64-bit nanoseconds and
their division truncates; the two timeouts are non-zero constants. -/
def currentEstimatedRound (env : ValidationEnv) (role : BeaconRole) (slot : Nat)
    (receivedAt : Int) : Option Nat :=
  match waitAfterSlotStart env role with
  | none => none
  | some wait =>
    let slotStartTime := env.GetSlotStartTime slot
    let firstRoundStart := slotStartTime + wait
    let sinceFirstRound := timeSub receivedAt firstRoundStart
    let currentQuickRound := (1 + toRound (Int.tdiv sinceFirstRound env.QuickTimeout)) % 2 ^ 64
    if currentQuickRound ≤ env.QuickTimeoutThreshold then some currentQuickRound
    else
      let sinceFirstSlowRound := timeSub receivedAt
        (firstRoundStart + wrapInt64 (wrapInt64 (env.QuickTimeoutThreshold) * env.QuickTimeout))
      some ((env.QuickTimeoutThreshold + 1 +
        toRound (Int.tdiv sinceFirstSlowRound env.SlowTimeout)) % 2 ^ 64)

/-- Subtraction of unsigned 64-bit integers, which wraps around. -/
def subUint64 (a b : Nat) : Nat := (a % 2 ^ 64 + (2 ^ 64 - b % 2 ^ 64)) % 2 ^ 64

/-- The condition of the round-estimation check of `validateConsensusMessage`:
`estimatedRound-msgRound > allowedRoundsInFuture ||
msgRound-estimatedRound > allowedRoundsInPast`, on unsigned 64-bit rounds. -/
def roundTooFarFromEstimated (env : ValidationEnv) (estimatedRound msgRound : Nat) : Bool :=
  decide (subUint64 estimatedRound msgRound > env.allowedRoundsInFuture) ||
  decide (subUint64 msgRound estimatedRound > env.allowedRoundsInPast)

/-- The library function `slices.IsSorted`: no element is smaller than the one
before it. -/
def IsSorted : List OpId → Bool
  | [] => true
  | [_] => true
  | a :: b :: rest => if b < a then false else IsSorted (b :: rest)

/-- The loop over the signers at the end of `validConsensusSigners`, with the
set `seen` of the signers visited so far. -/
def signersLoop (env : ValidationEnv) (share : SSVShare) :
    List OpId → List OpId → Option GoError
  | [], _ => none
  | signer :: rest, seen =>
    match env.commonSignerValidation signer share with
    | some e => some e
    | none =>
      if signer ∈ seen then some ErrDuplicatedSigner
      else signersLoop env share rest (signer :: seen)

/-- The method `validConsensusSigners`. -/
def validConsensusSigners (env : ValidationEnv) (share : SSVShare) (m : SignedMessage) :
    Option GoError :=
  if m.Signers.length = 0 then some ErrNoSigners
  else
    let sizeErr : Option GoError :=
      if m.Signers.length = 1 then
        if m.Message.MsgType = .ProposalMsgType then
          let leader := env.RoundRobinProposer m.Message.Height share m.Message.Round
          if m.Signers.head? ≠ some leader then some ErrSignerNotLeader else none
        else none
      else if m.Message.MsgType ≠ .CommitMsgType then
        some (.plain "non-decided with multiple signers")
      else if m.Signers.length < share.Quorum ∨ m.Signers.length > share.Committee.length then
        some (.plain "decided signers size is not between partial quorum and quorum size")
      else none
    match sizeErr with
    | some e => some e
    | none =>
      if !IsSorted m.Signers then some ErrSignersNotSorted
      else signersLoop env share m.Signers []

/-- The method `validateSignerBehavior`, returning the updated consensus state
with the error. -/
def validateSignerBehavior (env : ValidationEnv) (state : ConsensusState) (signer : OpId)
    (msg : DecodedSSVMessage) : ConsensusState × Option GoError :=
  match msg.Body with
  | .signedMessage signedMsg =>
    let signerState := state.SignerState signer
    match env.validateSlotAndRoundState signerState signedMsg.Message.Height
        signedMsg.Message.Round with
    | (s1, some e) => (state.set signer s1, some e)
    | (s1, none) =>
      let dataCheck : SignerState × Option GoError :=
        if hasFullData signedMsg then
          if s1.ProposalData = none then
            ({ s1 with ProposalData := signedMsg.FullData }, none)
          else if !bytesEqual s1.ProposalData signedMsg.FullData then
            (s1, some (.plain "duplicated proposal with different data"))
          else (s1, none)
        else (s1, none)
      match dataCheck with
      | (s2, some e) => (state.set signer s2, some e)
      | (s2, none) =>
        if isDecidedMessage signedMsg &&
            decide (signedMsg.Signers.length ≤ s2.LastDecidedQuorumSize) then
          (state.set signer s2,
            some (.plain "decided must have more signers than previous decided"))
        else
          let s3 : SignerState := { s2 with LastDecidedQuorumSize := signedMsg.Signers.length }
          match s3.MessageCounts.Validate msg with
          | some e => (state.set signer s3, some e)
          | none =>
            if s3.MessageCounts.ReachedLimits (maxMessageCounts signedMsg.Signers.length) then
              (state.set signer s3, some ErrTooManyMessagesPerRound)
            else (state.set signer s3, none)
  | _ => (state, some (.plain "not supported yet"))

/-- The loop `for _, signer := range signedMsg.Signers` of
`validateConsensusMessage` that validates each signer's behaviour. -/
def validateSigners (env : ValidationEnv) (msg : DecodedSSVMessage) :
    ConsensusState → List OpId → ConsensusState × Option GoError
  | state, [] => (state, none)
  | state, signer :: rest =>
    match validateSignerBehavior env state signer msg with
    | (st1, some e) => (st1, some (.wrap "bad signer behavior" e))
    | (st1, none) => validateSigners env msg st1 rest

/-- The final loop of `validateConsensusMessage`, which records the message in
the counts of every signer; `none` is the panic of `Record`. -/
def recordSigners (msg : DecodedSSVMessage) :
    ConsensusState → List OpId → Option ConsensusState
  | state, [] => some state
  | state, signer :: rest =>
    let st := state.SignerState signer
    match st.MessageCounts.Record msg with
    | none => none
    | some c => recordSigners msg (state.set signer { st with MessageCounts := c }) rest

/-- The method `validateConsensusMessage`; `state` is the consensus state of
the message's validator public key and role. -/
def validateConsensusMessage (env : ValidationEnv) (state : ConsensusState)
    (share : SSVShare) (msg : DecodedSSVMessage) (receivedAt : Int) :
    ConsensusState × Outcome :=
  match msg.Body with
  | .signedMessage signedMsg =>
    if msg.Data.length > env.maxConsensusMsgSize then
      (state, .returned (some (.plain "size exceeded")))
    else
    match env.validateSignatureFormat signedMsg.Signature with
    | some e => (state, .returned (some e))
    | none =>
    match validConsensusSigners env share signedMsg with
    | some e => (state, .returned (some e))
    | none =>
    let messageSlot := signedMsg.Message.Height
    let role := msg.MsgID.Role
    match env.validateSlotTime messageSlot role receivedAt with
    | some e => (state, .returned (some e))
    | none =>
    match maxRound role with
    | none => (state, .panicked)
    | some maxRound =>
    if signedMsg.Message.Round > maxRound then
      (state, .returned (some (.plain "round too high")))
    else
    match currentEstimatedRound env role messageSlot receivedAt with
    | none => (state, .panicked)
    | some estimatedRound =>
    if estimatedRound > maxRound then
      (state, .returned (some (.plain "estimated round too high")))
    else if roundTooFarFromEstimated env estimatedRound signedMsg.Message.Round then
      (state, .returned (some (.plain "message round is too far from estimated")))
    else
    let hashErr : Option GoError :=
      if hasFullData signedMsg then
        match env.HashDataRoot signedMsg.FullData with
        | .error e => some (.wrap "hash data root" e)
        | .ok hashedFullData =>
          if hashedFullData ≠ signedMsg.Message.Root then
            some (.plain "root doesn't match full data hash")
          else none
      else none
    match hashErr with
    | some e => (state, .returned (some e))
    | none =>
    match env.GetPrepareJustifications signedMsg.Message with
    | some e => (state, .returned (some (.wrap "malfrormed prepare justifications" e)))
    | none =>
    match env.GetRoundChangeJustifications signedMsg.Message with
    | some e => (state, .returned (some (.wrap "malfrormed round change justifications" e)))
    | none =>
    match validateSigners env msg state signedMsg.Signers with
    | (st1, some e) => (st1, .returned (some e))
    | (st1, none) =>
    match env.VerifyByOperators signedMsg.Signature signedMsg share.Committee with
    | some e => (st1, .returned (some (.wrap "invalid signature" e)))
    | none =>
    match recordSigners msg st1 signedMsg.Signers with
    | none => (st1, .panicked)
    | some st2 => (st2, .returned none)
  | _ => (state, .returned (some (.plain "expected consensus message")))

/-! ## Vocabulary of the statements -/

/-- The bounds kept by recording only validated messages; every counter, that of
decided messages included, stays at most one. -/
def MessageCounts.Bounded (c : MessageCounts) : Prop :=
  c.Proposal ≤ 1 ∧ c.Prepare ≤ 1 ∧ c.Commit ≤ 1 ∧ c.RoundChange ≤ 1 ∧
  c.PreConsensus ≤ 1 ∧ c.PostConsensus ≤ 1 ∧ c.Decided ≤ 1



/-- The `i`-th share public key of the shares blob of an event: the 48 bytes at
offset `SignatureLength + 48 * i`. -/
def sharePublicKeyAt (env : HandlerEnv) (event : ContractValidatorAdded) (i : Nat) : Bytes :=
  (event.Shares.drop (env.SignatureLength + PublicKeyLength * i)).take PublicKeyLength

/-- The `i`-th encrypted key of the shares blob of an event: the 256 bytes at
offset `SignatureLength + 48 * N + 256 * i`, for `N` operator ids. -/
def encryptedKeyAt (env : HandlerEnv) (event : ContractValidatorAdded) (i : Nat) : Bytes :=
  (event.Shares.drop (env.SignatureLength + PublicKeyLength * event.OperatorIds.length +
    encryptedKeyLength * i)).take encryptedKeyLength

/-- The operator private key is found, the encrypted key `ek` decrypts under it
to a BLS secret, and the public key of that secret is `pk`. -/
def localShareDecrypts (env : HandlerEnv) (pk ek : Bytes) : Prop :=
  ∃ sk dec secret, env.shareEncryptionKeyProvider = .ok (some sk) ∧
    env.DecodeKey sk ek = some dec ∧ env.SetHexString dec = some secret ∧
    env.GetPublicKey secret = pk

/-! ## Sample data -/

/-- A toy instance of the libraries: a signature verifies when its bytes sum to
the sum of the key bytes, the owner and the nonce; an encrypted key decrypts
under the private key equal to the sum of its bytes. -/
def sampleEnv : HandlerEnv :=
  { faults := Faults.none
    SignatureLength := 96
    ownerNonceData := fun owner nonce => [owner, nonce]
    Keccak256 := fun b => b
    signDeserialize := fun b => some b.sum
    pkDeserialize := fun b => some b
    VerifyByte := fun sign pk hash => sign == pk.sum + hash.sum
    DeserializeBLSPublicKey := fun b => if b.length = 48 then some b else none
    pkSerialize := fun k => k
    shareEncryptionKeyProvider := .ok (some 5)
    DecodeKey := fun sk ek => if ek.sum = sk then some [sk] else none
    SetHexString := fun b => b.head?
    GetPublicKey := fun secret => List.replicate 48 secret
    FetchValidatorsMetadata := fun _ => .ok none
    ComputeQuorumAndPartialQuorum := fun n => (2 * ((n - 1) / 3) + 1, (n - 1) / 3 + 1)
    GetDefaultDomain := 0 }

/-- The sample libraries with chosen storage failures. -/
def sampleEnvWith (f : Faults) : HandlerEnv := { sampleEnv with faults := f }

def sampleOperator : OperatorData := { PublicKey := [9], OwnerAddress := 3, ID := 2 }

def sampleHandler : EventDataHandler :=
  { operatorData := sampleOperator, shares := [], keyManager := [], storageMap := [],
    fullNode := false }

def sampleTxn : Txn :=
  { events := [], nonces := [], shares := [], operators := [], recipients := [] }

def sampleValidatorKey : Bytes := List.replicate 48 1

/-- A well-formed event of owner 7 for the committee of operators 1 and 2: the
signature bytes sum to 48 + 7 + 0, the second encrypted key decrypts to the
secret 5 whose public key is the second share key. -/
def sampleAdded : ContractValidatorAdded :=
  { Owner := 7
    OperatorIds := [1, 2]
    PublicKey := sampleValidatorKey
    Shares := (55 :: List.replicate 95 0) ++ List.replicate 48 4 ++ List.replicate 48 5 ++
      List.replicate 256 0 ++ (5 :: List.replicate 255 0)
    TxHash := 100 }

/-- The sample event with a shares blob one byte short. -/
def sampleAddedShort : ContractValidatorAdded := { sampleAdded with Shares := sampleAdded.Shares.tail }

/-- A share of owner 7 already stored under the sample validator key. -/
def sampleStoredShare : SSVShare :=
  { SSVShare.zero with ValidatorPubKey := sampleValidatorKey, OwnerAddress := 7,
                       Committee := [⟨8, []⟩, ⟨9, []⟩] }

def sampleHandlerWithShare : EventDataHandler := { sampleHandler with shares := [sampleStoredShare] }

/-- A removal of the sample validator requested by owner 8, who does not own it. -/
def sampleRemovedByOther : ContractValidatorRemoved :=
  { Owner := 8, OperatorIds := [1, 2], PublicKey := sampleValidatorKey }

/-- Modelled from the spec: `validateSlotAndRoundState` is not among the
sources. It enforces slot and round monotonicity of a signer: a lower slot is
rejected, a lower round in the same slot is rejected; a later slot or round
becomes the last seen one, with fresh counts and proposal data. -/
def slotAndRoundMonotone (s : SignerState) (slot round : Nat) : SignerState × Option GoError :=
  if s.Slot > slot then (s, some ErrSlotAlreadyAdvanced)
  else if s.Slot = slot ∧ s.Round > round then (s, some ErrRoundAlreadyAdvanced)
  else if s.Slot < slot ∨ s.Round < round then
    ({ s with Slot := slot, Round := round, MessageCounts := MessageCounts.zero,
              ProposalData := none }, none)
  else (s, none)

/-- Modelled from the spec: `validateSlotTime` is not among the sources; the
time of receipt must lie in a window around the slot of the message. Here
the window runs from the start of the slot to the end of the next slot. -/
def slotTimeWindow (slotDuration : Int) (slot : Nat) (receivedAt : Int) : Option GoError :=
  if receivedAt < slot * slotDuration then some (.plain "early message")
  else if receivedAt > (slot + 2) * slotDuration then some (.plain "late message")
  else none

/-- A sample validator configuration: slots of 12 seconds, quick rounds of 2
seconds up to round 8, slow rounds of 2 minutes, one round allowed in the
future and two in the past; the leader of a round from 1 on is the committee
member at index (height mod n + round - 1) mod n, the round-robin rule of the
consensus library; hashing and BLS verification are toys. -/
def sampleValidationEnv : ValidationEnv :=
  { maxConsensusMsgSize := 1000
    allowedRoundsInFuture := 1
    allowedRoundsInPast := 2
    QuickTimeoutThreshold := 8
    QuickTimeout := 2000000000
    SlowTimeout := 120000000000
    GetSlotStartTime := fun slot => slot * 12000000000
    SlotDurationSec := 12000000000
    validateSignatureFormat := fun sig =>
      if sig.length = 96 then none else some (.plain "wrong signature size")
    commonSignerValidation := fun signer share =>
      if signer = 0 then some (.plain "zero signer")
      else if share.Committee.any (fun o => o.OperatorID == signer) then none
      else some (.plain "signer is not in committee")
    RoundRobinProposer := fun height share round =>
      ((share.Committee.map (·.OperatorID)).getD
        ((height % share.Committee.length + round - 1) % share.Committee.length) 0)
    validateSlotTime := fun slot _ receivedAt => slotTimeWindow 12000000000 slot receivedAt
    validateSlotAndRoundState := slotAndRoundMonotone
    HashDataRoot := fun d => .ok (d.getD [])
    GetPrepareJustifications := fun _ => none
    GetRoundChangeJustifications := fun _ => none
    VerifyByOperators := fun _ _ _ => none }

/-- A share with the committee of operators 1 to 4 and quorum 3. -/
def sampleCommitteeShare : SSVShare :=
  { SSVShare.zero with
    ValidatorPubKey := sampleValidatorKey
    Committee := [⟨1, []⟩, ⟨2, []⟩, ⟨3, []⟩, ⟨4, []⟩]
    Quorum := 3, PartialQuorum := 2 }

/-- A consensus message of the sample validator at slot 5. -/
def sampleMessage (role : BeaconRole) (msgType : MessageType) (round : Nat)
    (signers : List OpId) (fullData : Option Bytes) : DecodedSSVMessage :=
  { MsgID := ⟨0, sampleValidatorKey, role⟩
    Data := []
    Body := .signedMessage
      { Signature := List.replicate 96 0
        Signers := signers
        Message := { MsgType := msgType, Height := 5, Round := round, Root := fullData.getD [] }
        FullData := fullData } }

/-- A decided message of the sample validator at slot 5, round 1: a Commit
signed by the given operators. -/
def sampleDecided (signers : List OpId) : DecodedSSVMessage :=
  sampleMessage .BNRoleAttester .CommitMsgType 1 signers (some [7])

/-- The sample event with a shares blob of 64 + 48 * 2 + 256 * 2 bytes: the
first 32 bytes of the sample blob are cut off. -/
def sampleAdded64 : ContractValidatorAdded :=
  { sampleAdded with Shares := sampleAdded.Shares.drop 32 }

/-- A node whose own operator key is `[9]` and whose operator id is not known yet. -/
def sampleFreshHandler : EventDataHandler :=
  { sampleHandler with operatorData := { PublicKey := [9], OwnerAddress := 0, ID := 0 } }

/-- The event `OperatorAdded(id, pk)` of owner 3. -/
def sampleOperatorAdded (id : OpId) (pk : Bytes) : ContractOperatorAdded :=
  { OperatorId := id, Owner := 3, PublicKey := pk }

/-! ## Execution client -/

/-- A contract log, identified by its block number and its index in the block. -/
structure Log where
  BlockNumber : Nat
  Index : Nat
deriving DecidableEq, Repr

/-- The block range of an `ethereum.FilterQuery` for the contract address. -/
structure FilterQuery where
  FromBlock : Nat
  ToBlock : Nat
deriving DecidableEq, Repr

/-- The execution node as seen through `ethclient.Client`: its current block
number and its answer to a log query. -/
structure EthClient where
  BlockNumber : Except GoError Nat
  FilterLogs : FilterQuery → Except GoError (List Log)

structure ExecutionClient where
  finalizationOffset : Nat
  client : EthClient

/-- The query built by `FetchHistoricalLogs`: `ToBlock` is
`currentBlock - ec.finalizationOffset`, a subtraction of unsigned 64-bit
integers. -/
def historicalQuery (ec : ExecutionClient) (currentBlock fromBlock : Nat) : FilterQuery :=
  { FromBlock := fromBlock, ToBlock := subUint64 currentBlock ec.finalizationOffset }

/-- The method `FetchHistoricalLogs`: the logs and the last block, or the error. -/
def FetchHistoricalLogs (ec : ExecutionClient) (fromBlock : Nat) :
    Except GoError (List Log × Nat) :=
  match ec.client.BlockNumber with
  | .error e => .error (.wrap "get current block" e)
  | .ok currentBlock =>
    let query := historicalQuery ec currentBlock fromBlock
    match ec.client.FilterLogs query with
    | .error e => .error (.wrap "fetch logs" e)
    | .ok logs => .ok (logs, query.ToBlock % 2 ^ 64)

/-- What the `select` of `streamLogsToChan` receives: an error of the head
subscription or a new head with its block number. -/
inductive StreamEvent where
  | subscriptionErr (e : GoError)
  | head (number : Nat)
deriving DecidableEq, Repr

/-- The variables of `streamLogsToChan` while it runs, with the queries issued
and the logs sent to the channel so far. -/
structure StreamState where
  fromBlock : Nat
  queries : List FilterQuery
  forwarded : List Log
deriving DecidableEq, Repr

/-- The loop of `streamLogsToChan` over the events its `select` receives, in
order. It returns only with an error, as `(lastBlock, err)`; `none` means that
the events are used up and the loop is still waiting. -/
def streamLoop (ec : ExecutionClient) :
    List StreamEvent → StreamState → StreamState × Option (Nat × GoError)
  | [], st => (st, none)
  | .subscriptionErr e :: _, st => (st, some (st.fromBlock, .wrap "subscription" e))
  | .head number :: rest, st =>
    let query : FilterQuery := { FromBlock := st.fromBlock, ToBlock := number }
    match ec.client.FilterLogs query with
    | .error e =>
      ({ st with queries := st.queries ++ [query] }, some (st.fromBlock, .wrap "fetch logs" e))
    | .ok newLogs =>
      streamLoop ec rest
        { fromBlock := query.ToBlock % 2 ^ 64
          queries := st.queries ++ [query]
          forwarded := st.forwarded ++ newLogs }

/-- The method `streamLogsToChan`: `subscribeErr` is the result of
`SubscribeNewHead`, `events` is what the subscription delivers afterwards. -/
def streamLogsToChan (ec : ExecutionClient) (subscribeErr : Option GoError)
    (events : List StreamEvent) (st : StreamState) : StreamState × Option (Nat × GoError) :=
  match subscribeErr with
  | some e => (st, some (st.fromBlock, .wrap "subscribe heads" e))
  | none => streamLoop ec events st

/-- One pass of the loop of `StreamLogs`: the subscription result and events of
one call of `streamLogsToChan`, and whether the `reconnect` after its error
returns (it panics when the reconnection limit is reached). -/
structure StreamAttempt where
  subscribeErr : Option GoError
  events : List StreamEvent
  reconnected : Bool
deriving DecidableEq, Repr

/-- The run of `StreamLogs` so far: the from-block each attempt started with,
the state of the stream, and whether `reconnect` panicked. -/
structure StreamTrace where
  starts : List Nat
  state : StreamState
  panicked : Bool
deriving DecidableEq, Repr

/-- The goroutine of `StreamLogs` over a sequence of attempts: each attempt
calls `streamLogsToChan` with the current `fromBlock`; after its error the
client reconnects and `fromBlock` becomes `lastBlock + 1`. The run stops when
an attempt is still waiting for events. -/
def StreamLogsLoop (ec : ExecutionClient) : List StreamAttempt → StreamTrace → StreamTrace
  | [], tr => tr
  | a :: rest, tr =>
    let tr1 : StreamTrace := { tr with starts := tr.starts ++ [tr.state.fromBlock] }
    match streamLogsToChan ec a.subscribeErr a.events tr.state with
    | (st, none) => { tr1 with state := st }
    | (st, some (lastBlock, _)) =>
      if a.reconnected then
        StreamLogsLoop ec rest
          { tr1 with state := { st with fromBlock := (lastBlock + 1) % 2 ^ 64 } }
      else { tr1 with state := st, panicked := true }

/-- The method `StreamLogs` from `fromBlock`. -/
def StreamLogs (ec : ExecutionClient) (fromBlock : Nat) (attempts : List StreamAttempt) :
    StreamTrace :=
  StreamLogsLoop ec attempts
    { starts := [], state := { fromBlock := fromBlock, queries := [], forwarded := [] },
      panicked := false }

/-- A sample chain with one contract log in each of the blocks 5, 10 and 12. -/
def sampleChainLogs : List Log := [⟨5, 0⟩, ⟨10, 0⟩, ⟨12, 0⟩]

/-- A sample execution node at the given head that answers every query with
the logs of the sample chain in the queried range. -/
def sampleExecutionClient (currentBlock finalizationOffset : Nat) : ExecutionClient :=
  { finalizationOffset := finalizationOffset
    client :=
      { BlockNumber := .ok currentBlock
        FilterLogs := fun q => .ok (sampleChainLogs.filter
          (fun l => decide (q.FromBlock ≤ l.BlockNumber) && decide (l.BlockNumber ≤ q.ToBlock))) } }

/-! ## Duty scheduler: head events -/

/-- A beacon block root `phase0.Root`, 32 bytes. -/
abbrev Root := Bytes

/-- The zero value `var zeroRoot phase0.Root`. -/
def zeroRoot : Root := List.replicate 32 0

/-- The data of a head event, `eth2apiv1.HeadEvent`. -/
structure HeadEvent where
  Slot : Nat
  PreviousDutyDependentRoot : Root
  CurrentDutyDependentRoot : Root
deriving DecidableEq, Repr

structure ReorgEvent where
  Slot : Nat
  Previous : Bool
  Current : Bool
deriving DecidableEq, Repr

/-- The variables of the `Scheduler` that head events read and write. -/
structure Scheduler where
  headSlot : Nat
  lastBlockEpoch : Nat
  currentDutyDependentRoot : Root
  previousDutyDependentRoot : Root
deriving DecidableEq, Repr

/-- The beacon network configuration `s.network` and the wall clock at the
moment a head event is handled; times and durations are in nanoseconds. -/
structure BeaconNetwork where
  EstimatedCurrentSlot : Nat
  EstimatedEpochAtSlot : Nat → Nat
  GetSlotStartTime : Nat → Int
  SlotDurationSec : Int
  IntervalsPerSlot : Int
  now : Int

/-- The reorg check of `HandleHeadEvent`: the events sent to `s.reorg`, in order. -/
def reorgEvents (s : Scheduler) (epoch : Nat) (data : HeadEvent) : List ReorgEvent :=
  if s.lastBlockEpoch ≠ 0 then
    if epoch > s.lastBlockEpoch then
      if s.previousDutyDependentRoot ≠ zeroRoot ∧
          s.currentDutyDependentRoot ≠ data.PreviousDutyDependentRoot then
        [{ Slot := data.Slot, Previous := true, Current := false }]
      else []
    else
      (if s.previousDutyDependentRoot ≠ zeroRoot ∧
          s.previousDutyDependentRoot ≠ data.PreviousDutyDependentRoot then
        [{ Slot := data.Slot, Previous := true, Current := false }]
      else []) ++
      (if s.currentDutyDependentRoot ≠ zeroRoot ∧
          s.currentDutyDependentRoot ≠ data.CurrentDutyDependentRoot then
        [{ Slot := data.Slot, Previous := false, Current := true }]
      else [])
  else []

/-- The handler returned by `HandleHeadEvent`, applied to one event; a nil
`event.Data` is `none`. It returns the scheduler after the event and the reorg
events sent. -/
def HandleHeadEvent (net : BeaconNetwork) (s : Scheduler) (event : Option HeadEvent) :
    Scheduler × List ReorgEvent :=
  match event with
  | none => (s, [])
  | some data =>
    if data.Slot ≠ net.EstimatedCurrentSlot then (s, [])
    else
      let epoch := net.EstimatedEpochAtSlot data.Slot
      let sent := reorgEvents s epoch data
      let s1 : Scheduler :=
        { s with lastBlockEpoch := epoch,
                 previousDutyDependentRoot := data.PreviousDutyDependentRoot,
                 currentDutyDependentRoot := data.CurrentDutyDependentRoot }
      let currentTime := net.now
      let delay := Int.tdiv net.SlotDurationSec net.IntervalsPerSlot
      let slotStartTimeWithDelay := net.GetSlotStartTime data.Slot + delay
      if currentTime < slotStartTimeWithDelay then ({ s1 with headSlot := data.Slot }, sent)
      else (s1, sent)

/-- A sample network: slots of 12 seconds, epochs of 32 slots, the current slot
is 128 and the clock stands 5 seconds into it. -/
def sampleNetwork : BeaconNetwork :=
  { EstimatedCurrentSlot := 128
    EstimatedEpochAtSlot := fun slot => slot / 32
    GetSlotStartTime := fun slot => slot * 12000000000
    SlotDurationSec := 12000000000
    IntervalsPerSlot := 3
    now := 128 * 12000000000 + 5000000000 }

/-- A non-zero root whose first byte is `b`. -/
def sampleRoot (b : Nat) : Root := b :: List.replicate 31 0

/-- A scheduler whose last head was in epoch 3, with the given stored roots. -/
def sampleScheduler (previous current : Root) : Scheduler :=
  { headSlot := 127, lastBlockEpoch := 3,
    currentDutyDependentRoot := current, previousDutyDependentRoot := previous }

/-! ## Sample data: storage failures and signature checks -/

/-- Storage in which marking a transaction hash as processed fails. -/
def faultsSaveEventData : Faults := { Faults.none with saveEventData := true }

/-- Storage in which bumping the nonce of an owner fails. -/
def faultsBumpNonce : Faults := { Faults.none with bumpNonce := true }

/-- The sample event with no operator ids and a shares blob that holds the
signature only. -/
def sampleAddedNoOperators : ContractValidatorAdded :=
  { sampleAdded with OperatorIds := [], Shares := List.replicate 96 0 }

/-- The sample validator configuration with a BLS check that fails on every
signature whose first byte is 1 and passes on the others. -/
def sampleCheckingEnv : ValidationEnv :=
  { sampleValidationEnv with
    VerifyByOperators := fun sig _ _ =>
      if sig.head? = some 1 then some (.plain "failed to verify signature") else none }

/-- A proposer-duty message of the sample validator at slot 5, round 2, signed
by operator 3, the leader of that round, with a signature starting with the
given byte. -/
def sampleSigned (firstByte : Nat) (msgType : MessageType) (fullData : Option Bytes) :
    DecodedSSVMessage :=
  { MsgID := ⟨0, sampleValidatorKey, .BNRoleProposer⟩
    Data := []
    Body := .signedMessage
      { Signature := firstByte :: List.replicate 95 0
        Signers := [3]
        Message := { MsgType := msgType, Height := 5, Round := 2, Root := fullData.getD [] }
        FullData := fullData } }

/-- The state in which signer 3, at slot 5 and round 2, has one commit counted
and no proposal data. -/
def sampleStateAfterCommit : ConsensusState :=
  [(3, { Slot := 5, Round := 2,
         MessageCounts := { MessageCounts.zero with Commit := 1 },
         ProposalData := none, LastDecidedQuorumSize := 1 })]

/-- The state in which signer 3, at slot 5 and round 2, has nothing counted and
the proposal data `[9]`. -/
def sampleStateProposalNine : ConsensusState :=
  [(3, { Slot := 5, Round := 2, MessageCounts := MessageCounts.zero,
         ProposalData := some [9], LastDecidedQuorumSize := 1 })]

/-! ## Duty scheduler: slot ticks and the head slot -/

structure ContractClusterLiquidated where
  Owner : Address
  OperatorIds : List OpId
deriving DecidableEq, Repr

structure ContractClusterReactivated where
  Owner : Address
  OperatorIds : List OpId
deriving DecidableEq, Repr

/-- What the cluster handlers call outside the sources: the storage failures
and the library function `ssvtypes.ComputeClusterIDHash`, the hash of an owner
address and a list of operator ids. -/
structure ClusterEnv where
  faults : Faults
  ComputeClusterIDHash : Address → List OpId → Except GoError Bytes

/-- Modelled from the spec: the filter `registrystorage.ByClusterID` is not
among the sources. A share matches a cluster id when the hash of its owner and
of the operator ids of its committee equals that id; a hash that fails counts
as the nil byte string. -/
def ByClusterID (env : ClusterEnv) (clusterID : Bytes) (share : SSVShare) : Bool :=
  match env.ComputeClusterIDHash share.OwnerAddress (share.Committee.map (·.OperatorID)) with
  | .ok id => id == clusterID
  | .error _ => ([] : Bytes) == clusterID

/-- Modelled from the spec: the variadic `Save(shares...)` of the share
collection stores the shares one after the other. -/
def sharesSaveAll (l : List SSVShare) (shares : List SSVShare) : List SSVShare :=
  shares.foldl sharesSave l

/-- Modelled from the spec: the variadic `SaveShares(shares...)` of `eventdb.RW`
persists `shares/<pub_key>` for each of the shares. -/
def Txn.SaveShareList (f : Faults) (t : Txn) (shares : List SSVShare) : Txn × Option GoError :=
  if f.saveShares then (t, some (.plain "save shares"))
  else ({ t with shares := sharesSaveAll t.shares shares }, none)

/-- The loop `for _, share := range shares` of `processClusterEvent`, with the
lists `toUpdate` and `updatedPubKeys` built so far; a public key stands for its
hex encoding. -/
def clusterLoop (operatorID : OpId) (fullNode toLiquidate : Bool) :
    List SSVShare → List SSVShare → List Bytes → List SSVShare × List Bytes
  | [], toUpdate, updatedPubKeys => (toUpdate, updatedPubKeys)
  | share :: rest, toUpdate, updatedPubKeys =>
    let isOperatorShare := share.BelongsToOperator operatorID
    let updatedPubKeys1 :=
      if isOperatorShare || fullNode then updatedPubKeys ++ [share.ValidatorPubKey]
      else updatedPubKeys
    if isOperatorShare then
      clusterLoop operatorID fullNode toLiquidate rest
        (toUpdate ++ [{ share with Liquidated := toLiquidate }]) updatedPubKeys1
    else clusterLoop operatorID fullNode toLiquidate rest toUpdate updatedPubKeys1

/-- Handler and transaction after `processClusterEvent`, with its results: the
updated shares and their public keys, or the error. -/
structure ClusterResult where
  edh : EventDataHandler
  txn : Txn
  out : Except GoError (List SSVShare × List Bytes)

/-- The method `processClusterEvent`. -/
def processClusterEvent (env : ClusterEnv) (edh : EventDataHandler) (txn : Txn)
    (owner : Address) (operatorIDs : List OpId) (toLiquidate : Bool) : ClusterResult :=
  match env.ComputeClusterIDHash owner operatorIDs with
  | .error err => ⟨edh, txn, .error (.wrap "could not compute share cluster id" err)⟩
  | .ok clusterID =>
    let shares := edh.shares.filter (ByClusterID env clusterID)
    let r := clusterLoop edh.operatorData.ID edh.fullNode toLiquidate shares [] []
    if r.1.length > 0 then
      let edh1 : EventDataHandler := { edh with shares := sharesSaveAll edh.shares r.1 }
      match txn.SaveShareList env.faults r.1 with
      | (txn1, some err) =>
        ⟨edh1, txn1, .error (.wrap "could not save validator shares" err)⟩
      | (txn1, none) => ⟨edh1, txn1, .ok r⟩
    else ⟨edh, txn, .ok r⟩

/-- Handler and transaction after a cluster handler, with the shares it
returns or its error. -/
structure ClusterHandlerResult where
  edh : EventDataHandler
  txn : Txn
  out : Except GoError (List SSVShare)

/-- The method `handleClusterLiquidated`. -/
def handleClusterLiquidated (env : ClusterEnv) (edh : EventDataHandler) (txn : Txn)
    (event : ContractClusterLiquidated) : ClusterHandlerResult :=
  let r := processClusterEvent env edh txn event.Owner event.OperatorIds true
  match r.out with
  | .error err => ⟨r.edh, r.txn, .error (.wrap "could not process cluster event" err)⟩
  | .ok (toLiquidate, _) => ⟨r.edh, r.txn, .ok toLiquidate⟩

/-- The method `handleClusterReactivated`. -/
def handleClusterReactivated (env : ClusterEnv) (edh : EventDataHandler) (txn : Txn)
    (event : ContractClusterReactivated) : ClusterHandlerResult :=
  let r := processClusterEvent env edh txn event.Owner event.OperatorIds false
  match r.out with
  | .error err => ⟨r.edh, r.txn, .error (.wrap "could not process cluster event" err)⟩
  | .ok (toEnable, _) => ⟨r.edh, r.txn, .ok toEnable⟩

/-- The share is in the cluster of the owner and operator ids whose hash is
`clusterID` and belongs to the operator `operatorID`. -/
def inLocalCluster (env : ClusterEnv) (clusterID : Bytes) (operatorID : OpId)
    (share : SSVShare) : Bool :=
  share.BelongsToOperator operatorID && ByClusterID env clusterID share

/-- The share with its `Liquidated` flag set to `b`. -/
def withLiquidated (b : Bool) (share : SSVShare) : SSVShare := { share with Liquidated := b }

/-- A toy cluster hash: the owner followed by the sorted operator ids. -/
def sampleClusterEnv : ClusterEnv :=
  { faults := Faults.none
    ComputeClusterIDHash := fun owner ids => .ok (owner :: ids.insertionSort (· ≤ ·)) }

/-- A share of the given owner and committee, stored under the key `[key]`, in
which the operator `holder` holds a share. -/
def sampleClusterShare (key : Nat) (owner : Address) (committee : List OpId) (holder : OpId) :
    SSVShare :=
  { SSVShare.zero with
    ValidatorPubKey := [key], OwnerAddress := owner, OperatorID := holder
    Committee := committee.map (fun id => ⟨id, []⟩) }

/-- The node of operator 2 with four shares: one of owner 7 and committee
1 to 4 held by operator 2, one of the same cluster not held by operator 2, one
of owner 8, and one of owner 7 with another committee. -/
def sampleClusterHandler : EventDataHandler :=
  { sampleHandler with
    shares := [sampleClusterShare 1 7 [1, 2, 3, 4] 2, sampleClusterShare 2 7 [1, 2, 3, 4] 0,
      sampleClusterShare 3 8 [1, 2, 3, 4] 2, sampleClusterShare 4 7 [1, 2, 3, 5] 2] }

/-- The shares a cluster event updates: the shares of the collection that are
in the cluster and belong to the local operator, with the flag set to `b`. -/
def clusterShares (env : ClusterEnv) (clusterID : Bytes) (edh : EventDataHandler) (b : Bool) :
    List SSVShare :=
  (edh.shares.filter (inLocalCluster env clusterID edh.operatorData.ID)).map (withLiquidated b)

/-- The share with its flag set to `b` when it is in the cluster and belongs to
the operator, and the share itself otherwise. -/
def withClusterFlag (env : ClusterEnv) (clusterID : Bytes) (operatorID : OpId) (b : Bool)
    (share : SSVShare) : SSVShare :=
  if inLocalCluster env clusterID operatorID share then withLiquidated b share else share

/-! ## Batch verifier (`protocol/v2/types/crypto.go`) -/

/-- The BLS library `bls-eth-go-binary`: verification of an aggregate
signature of one message, verification of an aggregate signature of several
messages without the duplicate check, and the addition of signatures and of
public keys. -/
structure BlsLib where
  FastAggregateVerify : BlsSign → List BlsPublicKey → Bytes → Bool
  AggregateVerifyNoCheck : BlsSign → List BlsPublicKey → Bytes → Bool
  SignAdd : BlsSign → BlsSign → BlsSign
  PublicKeyAdd : BlsPublicKey → BlsPublicKey → BlsPublicKey

/-- A request `SignatureRequest`; its `Result` channel is the position of the
request in the list of verdicts that `verify` delivers. `Message` is the
32-byte digest. -/
structure SignatureRequest where
  Signature : BlsSign
  PubKeys : List BlsPublicKey
  Message : Bytes
deriving DecidableEq, Repr

/-- The state of a `BatchVerifier`. The map `pending` is the list of its
values in the order of insertion, `batches` is the content of the channel,
`timer` is the duration the timer is armed with (`none` when stopped),
`started` is `none` for the zero time. Times are in nanoseconds. -/
structure BatchVerifier where
  concurrency : Int
  batchSize : Int
  timeout : Int
  timer : Option Int
  started : Option Int
  pending : List SignatureRequest
  batches : List (List SignatureRequest)
  busyWorkers : Int
deriving DecidableEq, Repr

/-- The function `NewBatchVerifier`; the timer it creates has expired. -/
def NewBatchVerifier (concurrency batchSize timeout : Int) : BatchVerifier :=
  { concurrency := concurrency, batchSize := batchSize, timeout := timeout,
    timer := none, started := none, pending := [], batches := [], busyWorkers := 0 }

/-- What the statements assume of the rounding of a rational number to a
`float64`: it is monotone and it leaves the integers up to `2 ^ 53` in
absolute value as they are. -/
def Float64Rounding (round : ℚ → ℚ) : Prop :=
  (∀ a b : ℚ, a ≤ b → round a ≤ round b) ∧ ∀ n : Int, |n| ≤ 2 ^ 53 → round (n : ℚ) = (n : ℚ)

/-- The conversion of a `float64` to an integer type, which truncates toward
zero. -/
def truncate (q : ℚ) : Int :=
  if 0 ≤ q then q.num / (q.den : Int) else -((-q).num / ((-q).den : Int))

/-- The sum `int(b.busyWorkers.Load()) + len(b.batches) +
int(float64(pending)/float64(b.batchSize))` of `adaptiveTimeout`, capped at
`b.concurrency`. -/
def workload (round : ℚ → ℚ) (b : BatchVerifier) (pending : Int) : Int :=
  let workload : Int := b.busyWorkers + b.batches.length +
    truncate (round (round (pending : ℚ) / round (b.batchSize : ℚ)))
  if workload > b.concurrency then b.concurrency else workload

/-- The value `busyness` of `adaptiveTimeout`:
`float64(workload+1) / float64(b.concurrency) * 2`, capped at 1. -/
def busyness (round : ℚ → ℚ) (concurrency workload : Int) : ℚ :=
  let busyness : ℚ :=
    round (round (round ((workload + 1 : Int) : ℚ) / round (concurrency : ℚ)) * 2)
  if busyness > 1 then 1 else busyness

/-- The method `adaptiveTimeout`, with the clock reading `now`; it returns the
verifier, whose `started` it may set, and the timeout. A `float64` is a
rational number and every operation rounds its exact result with `round`. A
division by a zero batch size or concurrency, which yields an infinity or a
NaN in the source, is not represented: the statements assume both positive. -/
def adaptiveTimeout (round : ℚ → ℚ) (now : Int) (b : BatchVerifier) (pending : Int) :
    BatchVerifier × Int :=
  let started := b.started.getD now
  let b1 : BatchVerifier := { b with started := some started }
  let workload := workload round b pending
  let busyness := busyness round b.concurrency workload
  let timeLeft := wrapInt64 (b.timeout - timeSub now started)
  if timeLeft ≤ 0 then (b1, 0)
  else (b1, truncate (round (busyness * round (timeLeft : ℚ))))

/-- What a call of `AggregateVerify` does: it returns a verdict at once, or it
has queued its request and waits on the `Result` channel of the request. -/
inductive VerifyCall where
  | verdict (v : Bool)
  | waiting (sr : SignatureRequest)
deriving DecidableEq, Repr

/-- The test `_, exists := b.pending[message]`. -/
def pendingExists (pending : List SignatureRequest) (message : Bytes) : Bool :=
  pending.any (fun r => r.Message == message)

/-- The method `AggregateVerify` up to the point where it returns or starts
to wait for its result, with the clock reading `now`. -/
def AggregateVerify (lib : BlsLib) (round : ℚ → ℚ) (now : Int) (b : BatchVerifier)
    (signature : BlsSign) (pks : List BlsPublicKey) (message : Bytes) :
    BatchVerifier × VerifyCall :=
  let sr : SignatureRequest := { Signature := signature, PubKeys := pks, Message := message }
  if pendingExists b.pending message then
    (b, .verdict (lib.FastAggregateVerify signature pks message))
  else
    let b1 : BatchVerifier := { b with pending := b.pending ++ [sr] }
    if (b1.pending.length : Int) = b1.batchSize then
      let batch := b1.pending
      ({ b1 with timer := none, started := none, pending := [],
                 batches := b1.batches ++ [batch] }, .waiting sr)
    else
      let r := adaptiveTimeout round now { b1 with timer := none } b1.pending.length
      ({ r.1 with timer := some r.2, started := some now }, .waiting sr)

/-- The ticker branch of `worker`: the pending requests are taken out of the
verifier and returned as the batch to verify, if there are any. -/
def workerTick (b : BatchVerifier) : BatchVerifier × Option (List SignatureRequest) :=
  let batch := b.pending
  ({ b with pending := [] }, if batch.length > 0 then some batch else none)

/-- The batches branch of `worker`: the first batch of the channel, if any. -/
def workerReceive (b : BatchVerifier) : BatchVerifier × Option (List SignatureRequest) :=
  match b.batches with
  | [] => (b, none)
  | batch :: rest => ({ b with batches := rest }, some batch)

/-- The method `verifySingle`: the verdict it sends to the `Result` channel of
the request. -/
def verifySingle (lib : BlsLib) (req : SignatureRequest) : Bool :=
  lib.FastAggregateVerify req.Signature req.PubKeys req.Message

/-- The statements `pk := req.PubKeys[0]` and `pk.Add(&req.PubKeys[j])` for
`j` from 1 on, in `verify`; `none` is the panic of the index expression on an
empty list. -/
def sumPubKeys (lib : BlsLib) (req : SignatureRequest) : Option BlsPublicKey :=
  match req.PubKeys with
  | [] => none
  | pk :: rest => some (rest.foldl lib.PublicKeyAdd pk)

/-- The loop `for i, req := range batch` of `verify`, from index `i` on, with
the signature, the public keys and the messages built so far; `none` is a
panic. The digests have 32 bytes each, so that copying the `i`-th digest to
the offset `32 * i` appends it. -/
def verifyLoop (lib : BlsLib) :
    List SignatureRequest → Nat → BlsSign → List BlsPublicKey → Bytes →
    Option (BlsSign × List BlsPublicKey × Bytes)
  | [], _, sig, pks, msgs => some (sig, pks, msgs)
  | req :: rest, i, sig, pks, msgs =>
    let sig1 := if i > 0 then lib.SignAdd sig req.Signature else sig
    match sumPubKeys lib req with
    | none => none
    | some pk => verifyLoop lib rest (i + 1) sig1 (pks ++ [pk]) (msgs ++ req.Message)

/-- The method `verify`: the verdicts it sends to the `Result` channels of the
requests of the batch, in the order of the batch; `none` is a panic, before
which no verdict is sent. The counter of busy workers, raised on entry and
lowered on exit, and the debug fields are left out. -/
def verify (lib : BlsLib) (batch : List SignatureRequest) : Option (List Bool) :=
  match batch with
  | [] => none
  | [req] => some [verifySingle lib req]
  | first :: _ =>
    match verifyLoop lib batch 0 first.Signature [] [] with
    | none => none
    | some (sig, pks, msgs) =>
      if lib.AggregateVerifyNoCheck sig pks msgs then some (batch.map (fun _ => true))
      else some (batch.map (verifySingle lib))

/-- The inner loop `for _, n := range operators` of `VerifyByOperators` for the
signer `id`, with the public keys collected so far and the flag `found`. -/
def findOperatorKeys (deserialize : Bytes → Option BlsPublicKey) (id : OpId) :
    List Operator → List BlsPublicKey → Bool → Except GoError (List BlsPublicKey × Bool)
  | [], pks, found => .ok (pks, found)
  | n :: rest, pks, found =>
    if id = n.OperatorID then
      match deserialize n.PubKey with
      | none => .error (.wrap "failed to deserialize public key" (.plain "bls"))
      | some pk => findOperatorKeys deserialize id rest (pks ++ [pk]) true
    else findOperatorKeys deserialize id rest pks found

/-- The loop `for _, id := range data.GetSigners()` of `VerifyByOperators`, which
collects the public keys of the signers among the operators. -/
def signerPublicKeys (deserialize : Bytes → Option BlsPublicKey) (operators : List Operator) :
    List OpId → List BlsPublicKey → Except GoError (List BlsPublicKey)
  | [], pks => .ok pks
  | id :: rest, pks =>
    match findOperatorKeys deserialize id operators pks false with
    | .error e => .error e
    | .ok (pks1, found) =>
      if !found then .error (.plain "unknown signer")
      else signerPublicKeys deserialize operators rest pks1

/-- The libraries that `VerifyByOperators` and `VerifyReconstructedSignature`
call before they call the verifier. -/
structure VerifyEnv where
  signDeserialize : Bytes → Option BlsSign
  DeserializeBLSPublicKey : Bytes → Option BlsPublicKey
  ComputeSigningRoot : SignedMessage → Except GoError Bytes

/-- The function `VerifyByOperators` up to its call of
`Verifier.AggregateVerify`: the signature, the public keys and the root that it
passes to the call, or the error that it returns before the call. -/
def VerifyByOperatorsCall (venv : VerifyEnv) (s : Bytes) (data : SignedMessage)
    (operators : List Operator) : Except GoError (BlsSign × List BlsPublicKey × Bytes) :=
  match venv.signDeserialize s with
  | none => .error (.wrap "failed to deserialize signature" (.plain "bls"))
  | some sign =>
    match signerPublicKeys venv.DeserializeBLSPublicKey operators data.Signers [] with
    | .error e => .error e
    | .ok pks =>
      match venv.ComputeSigningRoot data with
      | .error e => .error (.wrap "could not compute signing root" e)
      | .ok computedRoot => .ok (sign, pks, computedRoot)

/-- The function `VerifyReconstructedSignature` up to its call of
`Verifier.AggregateVerify`: the signature, the one public key and the root that
it passes to the call, or the error that it returns before the call. -/
def VerifyReconstructedSignatureCall (venv : VerifyEnv) (sig : BlsSign)
    (validatorPubKey : Bytes) (root : Bytes) :
    Except GoError (BlsSign × List BlsPublicKey × Bytes) :=
  match venv.DeserializeBLSPublicKey validatorPubKey with
  | none => .error (.wrap "could not deserialize validator pk" (.plain "bls"))
  | some pk => .ok (sig, [pk], root)

/-- A toy BLS library: a public key is the list holding its secret number, the
signature of a digest under a key is the product of the secret and the first
byte of the digest, and signatures and keys add up. -/
def sampleBls : BlsLib :=
  { FastAggregateVerify := fun sig pks msg =>
      sig == (pks.map List.sum).sum * msg.headD 0
    AggregateVerifyNoCheck := fun sig pks msgs =>
      sig == ((List.range pks.length).map
        (fun i => (pks.getD i []).sum * msgs.getD (32 * i) 0)).sum
    SignAdd := fun a b => a + b
    PublicKeyAdd := fun a b => [a.sum + b.sum] }

/-- The 32-byte digest whose first byte is `m`. -/
def sampleDigest (m : Nat) : Bytes := m :: List.replicate 31 0

/-- The request for the digest `m` signed with the secrets `keys`; the
signature is correct when `offset` is zero. -/
def sampleRequest (m : Nat) (keys : List Nat) (offset : Nat) : SignatureRequest :=
  { Signature := keys.sum * m + offset, PubKeys := keys.map (fun k => [k]),
    Message := sampleDigest m }

/-- No two pending requests have the same digest, and no two requests of a
queued batch have. -/
def BatchVerifier.Distinct (b : BatchVerifier) : Prop :=
  (b.pending.map (fun r => r.Message)).Nodup ∧
  ∀ batch ∈ b.batches, (batch.map (fun r => r.Message)).Nodup

/-- What happens to a verifier: a call of `AggregateVerify` at some clock
reading, a tick of the ticker in a worker, or a worker receiving a batch. -/
inductive VerifierStep where
  | call (now : Int) (signature : BlsSign) (pks : List BlsPublicKey) (message : Bytes)
  | tick
  | receive

/-- The verifier after a step, with the batch that the step hands to `verify`,
if any. -/
def verifierStep (lib : BlsLib) (round : ℚ → ℚ) (b : BatchVerifier) :
    VerifierStep → BatchVerifier × Option (List SignatureRequest)
  | .call now signature pks message =>
    ((AggregateVerify lib round now b signature pks message).1, none)
  | .tick => workerTick b
  | .receive => workerReceive b

/-- The verifier after a sequence of steps, with the batches handed to
`verify` on the way, in order. -/
def verifierRun (lib : BlsLib) (round : ℚ → ℚ) :
    BatchVerifier → List VerifierStep → BatchVerifier × List (List SignatureRequest)
  | b, [] => (b, [])
  | b, step :: rest =>
    let r := verifierStep lib round b step
    let rr := verifierRun lib round r.1 rest
    (rr.1, r.2.toList ++ rr.2)

/-- A verifier of four workers and batches of three requests in which the
correctly signed request for the digest 3 is pending. -/
def samplePendingVerifier : BatchVerifier :=
  { NewBatchVerifier 4 3 50000000 with
    pending := [sampleRequest 3 [5] 0], started := some 0, timer := some 25000000 }

/-- A verifier of eight workers and batches of fourteen requests with a timeout
of 50 ms, no queued batch and the given number of busy workers. -/
def sampleBusyVerifier (busy : Int) : BatchVerifier :=
  { NewBatchVerifier 8 14 50000000 with busyWorkers := busy }

/-- The summed signature, the summed public keys and the messages that `verify`
passes to `AggregateVerifyNoCheck` for a batch; `none` when the loop that
builds them panics. -/
def aggregateOf (lib : BlsLib) (batch : List SignatureRequest) :
    Option (BlsSign × List BlsPublicKey × Bytes) :=
  match batch with
  | [] => none
  | first :: _ => verifyLoop lib batch 0 first.Signature [] []

/-- The batch of the correctly signed requests for the digests 3 and 6. -/
def sampleBatch : List SignatureRequest := [sampleRequest 3 [5] 0, sampleRequest 6 [1, 2] 0]

/-- Libraries of `VerifyByOperators` in which every key and signature
deserialises and the signing root of a message is its root. -/
def sampleVerifyEnv : VerifyEnv :=
  { signDeserialize := fun b => some b.sum
    DeserializeBLSPublicKey := fun b => some b
    ComputeSigningRoot := fun m => .ok m.Message.Root }

/-! ## The limits of the message counts -/

/-- The counts of every signer of the consensus state are bounded. -/
def ConsensusState.Bounded (state : ConsensusState) : Prop :=
  ∀ signer, (state.SignerState signer).MessageCounts.Bounded

theorem nonceOf_bumpNonceOf_self (l : List (Address × Nonce)) (owner : Address) :
    nonceOf (bumpNonceOf l owner) owner = nonceOf l owner + 1 := by
  induction l with
  | nil => simp [bumpNonceOf, nonceOf]
  | cons x rest ih =>
    obtain ⟨a, n⟩ := x
    by_cases h : a = owner
    · simp [bumpNonceOf, nonceOf, h]
    · simp [bumpNonceOf, nonceOf, h, ih]

theorem nonceOf_bumpNonceOf_other (l : List (Address × Nonce)) (owner other : Address)
    (h : other ≠ owner) : nonceOf (bumpNonceOf l owner) other = nonceOf l other := by
  induction l with
  | nil => simp [bumpNonceOf, nonceOf, Ne.symm h]
  | cons x rest ih =>
    obtain ⟨a, n⟩ := x
    by_cases ha : a = owner
    · subst ha
      simp [bumpNonceOf, nonceOf, Ne.symm h]
    · by_cases hb : a = other
      · subst hb
        simp [bumpNonceOf, nonceOf, ha]
      · simp [bumpNonceOf, nonceOf, ha, hb, ih]

theorem saveCreatedShare_events_nonces (env : HandlerEnv) (edh : EventDataHandler) (txn : Txn)
    (share : SSVShare) :
    (saveCreatedShare env edh txn share).2.1.events = txn.events ∧
    (saveCreatedShare env edh txn share).2.1.nonces = txn.nonces := by
  unfold saveCreatedShare Txn.SaveShares
  by_cases h : env.faults.saveShares = true <;> simp [h]

theorem handleShareCreation_events_nonces (env : HandlerEnv) (edh : EventDataHandler)
    (txn : Txn) (event : ContractValidatorAdded) (pks eks : List Bytes) :
    (handleShareCreation env edh txn event pks eks).2.1.events = txn.events ∧
    (handleShareCreation env edh txn event pks eks).2.1.nonces = txn.nonces := by
  unfold handleShareCreation
  split
  · simp
  · simp
  · split
    · split
      · simp
      · split
        · simp
        · exact saveCreatedShare_events_nonces _ _ _ _
    · exact saveCreatedShare_events_nonces _ _ _ _

theorem registerValidatorShare_events_nonces (env : HandlerEnv) (edh : EventDataHandler)
    (txn : Txn) (event : ContractValidatorAdded) (pks eks : List Bytes) :
    (registerValidatorShare env edh txn event pks eks).txn.events = txn.events ∧
    (registerValidatorShare env edh txn event pks eks).txn.nonces = txn.nonces := by
  have hsc := handleShareCreation_events_nonces env edh txn event pks eks
  unfold registerValidatorShare
  split
  · split <;> rename_i heq <;> rw [heq] at hsc <;> exact hsc
  · split <;> exact ⟨rfl, rfl⟩

theorem registerValidatorShare_valid (env : HandlerEnv) (edh : EventDataHandler)
    (txn : Txn) (event : ContractValidatorAdded) (pks eks : List Bytes)
    (h : (registerValidatorShare env edh txn event pks eks).valid = true) :
    (registerValidatorShare env edh txn event pks eks).out = .returned none := by
  revert h
  unfold registerValidatorShare
  split
  · split <;> simp
  · split <;> simp

/-- The body of `handleValidatorAdded` either stops early, leaving handler and
transaction as they were with `valid` unset, or ends in `registerValidatorShare`. -/
theorem handleValidatorAddedBody_shape (env : HandlerEnv) (edh : EventDataHandler)
    (txn : Txn) (event : ContractValidatorAdded) :
    ((handleValidatorAddedBody env edh txn event).edh = edh ∧
      (handleValidatorAddedBody env edh txn event).txn = txn ∧
      (handleValidatorAddedBody env edh txn event).valid = false) ∨
    ∃ pks eks, handleValidatorAddedBody env edh txn event =
      registerValidatorShare env edh txn event pks eks := by
  unfold handleValidatorAddedBody
  repeat' (first | split | dsimp only)
  all_goals first
    | exact Or.inl ⟨rfl, rfl, rfl⟩
    | exact Or.inr ⟨_, _, rfl⟩

/-- The body of `handleValidatorAdded` never touches the processed set or the nonces. -/
theorem handleValidatorAddedBody_events_nonces (env : HandlerEnv) (edh : EventDataHandler)
    (txn : Txn) (event : ContractValidatorAdded) :
    (handleValidatorAddedBody env edh txn event).txn.events = txn.events ∧
    (handleValidatorAddedBody env edh txn event).txn.nonces = txn.nonces := by
  rcases handleValidatorAddedBody_shape env edh txn event with ⟨_, h, _⟩ | ⟨pks, eks, h⟩
  · rw [h]; exact ⟨rfl, rfl⟩
  · rw [h]; exact registerValidatorShare_events_nonces _ _ _ _ _ _

/-- The flag `valid` is set only on the path that returns nil. -/
theorem handleValidatorAddedBody_valid (env : HandlerEnv) (edh : EventDataHandler)
    (txn : Txn) (event : ContractValidatorAdded)
    (h : (handleValidatorAddedBody env edh txn event).valid = true) :
    (handleValidatorAddedBody env edh txn event).out = .returned none := by
  rcases handleValidatorAddedBody_shape env edh txn event with ⟨_, _, h3⟩ | ⟨pks, eks, h3⟩
  · rw [h3] at h; exact absurd h (by simp)
  · rw [h3] at h ⊢; exact registerValidatorShare_valid _ _ _ _ _ _ h

theorem validatorAddedDefer_skip (env : HandlerEnv) (err : Option GoError)
    (event : ContractValidatorAdded) (txn : Txn) (h : errorsAsMalformed err = false) :
    validatorAddedDefer env false err event txn = (txn, err) := by
  simp [validatorAddedDefer, h]

theorem validatorAddedDefer_bookkeeping (env : HandlerEnv) (valid : Bool)
    (err : Option GoError) (event : ContractValidatorAdded) (txn : Txn)
    (h : (valid || errorsAsMalformed err) = true)
    (hsave : env.faults.saveEventData = false) (hbump : env.faults.bumpNonce = false) :
    validatorAddedDefer env valid err event txn =
      ({ txn with events := event.TxHash :: txn.events,
                  nonces := bumpNonceOf txn.nonces event.Owner }, err) := by
  simp [validatorAddedDefer, h, Txn.SaveEventData, Txn.BumpNonce, hsave, hbump]

/-- C2: when the body of `handleValidatorAdded` rejects an event with an
unprocessed tx hash by a malformed-event error and the two storage writes of
the deferred step succeed, the handler returns that same malformed-event
error, the tx hash is marked processed and the owner's nonce is one higher
(bumped exactly once); the nonces of all other owners are as before. -/
theorem handleValidatorAdded_malformed_bookkeeping (env : HandlerEnv)
    (edh : EventDataHandler) (txn : Txn) (event : ContractValidatorAdded) (e : GoError)
    (_hnew : event.TxHash ∉ txn.events)
    (hsave : env.faults.saveEventData = false) (hbump : env.faults.bumpNonce = false)
    (hrej : (handleValidatorAddedBody env edh txn event).out = .returned (some e))
    (hmal : e.isMalformed = true) :
    (handleValidatorAdded env edh txn event).out = .returned (some e) ∧
    e.isMalformed = true ∧
    event.TxHash ∈ (handleValidatorAdded env edh txn event).txn.events ∧
    nonceOf (handleValidatorAdded env edh txn event).txn.nonces event.Owner =
      nonceOf txn.nonces event.Owner + 1 ∧
    ∀ other, other ≠ event.Owner →
      nonceOf (handleValidatorAdded env edh txn event).txn.nonces other =
        nonceOf txn.nonces other := by
  have hen := handleValidatorAddedBody_events_nonces env edh txn event
  have hd := validatorAddedDefer_bookkeeping env
    (handleValidatorAddedBody env edh txn event).valid (some e) event
    (handleValidatorAddedBody env edh txn event).txn
    (by simp [errorsAsMalformed, hmal]) hsave hbump
  have hr : handleValidatorAdded env edh txn event =
      ⟨(handleValidatorAddedBody env edh txn event).edh,
        { (handleValidatorAddedBody env edh txn event).txn with
          events := event.TxHash :: (handleValidatorAddedBody env edh txn event).txn.events,
          nonces := bumpNonceOf (handleValidatorAddedBody env edh txn event).txn.nonces
            event.Owner },
        .returned (some e)⟩ := by
    simp only [handleValidatorAdded, hrej, hd]
  rw [hr, hen.1, hen.2]
  refine ⟨rfl, hmal, List.mem_cons_self _ _, nonceOf_bumpNonceOf_self _ _, ?_⟩
  intro other hne
  exact nonceOf_bumpNonceOf_other _ _ _ hne

set_option maxRecDepth 100000 in
/-- C2 at the sample event with a shares blob one byte short. -/
theorem handleValidatorAdded_malformed_bookkeeping_witness :
    (handleValidatorAdded sampleEnv sampleHandler sampleTxn sampleAddedShort).out =
      .returned (some (.malformed (.plain "event shares length is not correct"))) ∧
    sampleAddedShort.TxHash ∈
      (handleValidatorAdded sampleEnv sampleHandler sampleTxn sampleAddedShort).txn.events ∧
    nonceOf (handleValidatorAdded sampleEnv sampleHandler sampleTxn sampleAddedShort).txn.nonces
      sampleAddedShort.Owner = nonceOf sampleTxn.nonces sampleAddedShort.Owner + 1 := by
  have h := handleValidatorAdded_malformed_bookkeeping sampleEnv sampleHandler sampleTxn
    sampleAddedShort (.malformed (.plain "event shares length is not correct"))
    (by decide) rfl rfl rfl rfl
  exact ⟨h.1, h.2.2.1, h.2.2.2.1⟩

/-- C3: `handleValidatorAdded` does no bookkeeping when the event is neither
valid nor malformed. (a) When the tx hash is already in the processed set (and
the lookup succeeds) it returns nil and leaves the handler, with its shares,
and the whole transaction, with its processed set and nonces, as they were.
(b) When its body fails with an error that is not a malformed-event error,
that error is returned and the processed set and all nonces are unchanged. -/
theorem handleValidatorAdded_no_bookkeeping (env : HandlerEnv) (edh : EventDataHandler)
    (txn : Txn) (event : ContractValidatorAdded) :
    (event.TxHash ∈ txn.events → env.faults.getEventData = false →
      handleValidatorAdded env edh txn event = ⟨edh, txn, .returned none⟩) ∧
    (∀ e, (handleValidatorAddedBody env edh txn event).out = .returned (some e) →
      e.isMalformed = false →
      (handleValidatorAdded env edh txn event).out = .returned (some e) ∧
      (handleValidatorAdded env edh txn event).txn.events = txn.events ∧
      (handleValidatorAdded env edh txn event).txn.nonces = txn.nonces) := by
  constructor
  · intro hmem hf
    have hb : handleValidatorAddedBody env edh txn event = ⟨edh, txn, false, .returned none⟩ := by
      simp [handleValidatorAddedBody, Txn.GetEventData, hf, hmem]
    simp [handleValidatorAdded, hb, validatorAddedDefer, errorsAsMalformed]
  · intro e hout hmal
    have hen := handleValidatorAddedBody_events_nonces env edh txn event
    have hv : (handleValidatorAddedBody env edh txn event).valid = false := by
      cases hval : (handleValidatorAddedBody env edh txn event).valid with
      | false => rfl
      | true =>
        have := handleValidatorAddedBody_valid env edh txn event hval
        rw [hout] at this
        exact absurd this (by simp)
    have hd := validatorAddedDefer_skip env (some e) event
      (handleValidatorAddedBody env edh txn event).txn (by simp [errorsAsMalformed, hmal])
    have hr : handleValidatorAdded env edh txn event =
        ⟨(handleValidatorAddedBody env edh txn event).edh,
          (handleValidatorAddedBody env edh txn event).txn, .returned (some e)⟩ := by
      simp only [handleValidatorAdded, hout, hv, hd]
    rw [hr]
    exact ⟨rfl, hen.1, hen.2⟩

/-- C3 at two sample calls: the sample event replayed on a transaction that
already holds its tx hash, and the sample event when the nonce lookup fails. -/
theorem handleValidatorAdded_no_bookkeeping_witness :
    handleValidatorAdded sampleEnv sampleHandler { sampleTxn with events := [100] } sampleAdded =
      ⟨sampleHandler, { sampleTxn with events := [100] }, .returned none⟩ ∧
    ((handleValidatorAdded (sampleEnvWith { Faults.none with getNextNonce := true })
        sampleHandler sampleTxn sampleAdded).out =
        .returned (some (.wrap "failed to get next nonce" (.plain "get next nonce"))) ∧
      (handleValidatorAdded (sampleEnvWith { Faults.none with getNextNonce := true })
        sampleHandler sampleTxn sampleAdded).txn.events = [] ∧
      (handleValidatorAdded (sampleEnvWith { Faults.none with getNextNonce := true })
        sampleHandler sampleTxn sampleAdded).txn.nonces = []) :=
  ⟨(handleValidatorAdded_no_bookkeeping sampleEnv sampleHandler
      { sampleTxn with events := [100] } sampleAdded).1 (by decide) rfl,
   (handleValidatorAdded_no_bookkeeping (sampleEnvWith { Faults.none with getNextNonce := true })
      sampleHandler sampleTxn sampleAdded).2 _ rfl rfl⟩

/-- C4: a ValidatorRemoved event whose public key has no stored share, or whose
stored share belongs to another owner, is rejected with a malformed-event
error and nothing is mutated: the handler (its in-memory share collection and
its decided-message storage) and the registry transaction are those given. -/
theorem handleValidatorRemoved_rejected_no_mutation (env : HandlerEnv)
    (edh : EventDataHandler) (txn : Txn) (event : ContractValidatorRemoved)
    (h : sharesGet edh.shares event.PublicKey = none ∨
      ∃ share, sharesGet edh.shares event.PublicKey = some share ∧
        share.OwnerAddress ≠ event.Owner) :
    ∃ e, handleValidatorRemoved env edh txn event = ⟨edh, txn, .returned (some e)⟩ ∧
      e.isMalformed = true := by
  rcases h with h | ⟨share, h, hne⟩
  · exact ⟨.malformed (.plain "could not find validator share"),
      by simp [handleValidatorRemoved, h], rfl⟩
  · exact ⟨.malformed (.plain "validator share already exists with different owner address"),
      by simp [handleValidatorRemoved, h, Ne.symm hne], rfl⟩

/-- C4 at the sample handler holding a share of owner 7 and a removal by owner 8. -/
theorem handleValidatorRemoved_rejected_no_mutation_witness :
    ∃ e, handleValidatorRemoved sampleEnv sampleHandlerWithShare sampleTxn
        sampleRemovedByOther = ⟨sampleHandlerWithShare, sampleTxn, .returned (some e)⟩ ∧
      e.isMalformed = true :=
  handleValidatorRemoved_rejected_no_mutation sampleEnv sampleHandlerWithShare sampleTxn
    sampleRemovedByOther (Or.inr ⟨sampleStoredShare, by decide, by decide⟩)

/-! ### Splitting the shares blob -/

/-- On a buffer of exactly `n` chunks of `lim > 0` bytes the loop of
`splitBytes` appends those `n` chunks, in order, and nothing else. -/
theorem splitBytesLoop_exact (lim : Nat) (hlim : 0 < lim) :
    ∀ (n fuel : Nat) (buf : Bytes) (chunks : List Bytes),
      buf.length = n * lim → n ≤ fuel →
      splitBytesLoop lim fuel buf chunks =
        chunks ++ (List.range n).map (fun i => (buf.drop (i * lim)).take lim) := by
  intro n
  induction n with
  | zero =>
    intro fuel buf chunks hlen _
    have hnil : buf = [] := List.length_eq_zero.mp (by simpa using hlen)
    subst hnil
    cases fuel with
    | zero => simp [splitBytesLoop]
    | succ f =>
      have : ¬ lim ≤ 0 := by omega
      simp [splitBytesLoop, this]
  | succ n ih =>
    intro fuel buf chunks hlen hfuel
    cases fuel with
    | zero => omega
    | succ f =>
      have hle : lim ≤ buf.length := by
        rw [hlen]; exact Nat.le_mul_of_pos_left lim (Nat.succ_pos n)
      have hdrop : (buf.drop lim).length = n * lim := by
        rw [List.length_drop, hlen, Nat.succ_mul]; omega
      rw [splitBytesLoop, if_pos hle, ih f (buf.drop lim) _ hdrop (by omega)]
      rw [List.range_succ_eq_map, List.map_cons, List.map_map, List.append_assoc]
      congr 1
      simp only [List.singleton_append, Nat.zero_mul, List.drop_zero, List.cons.injEq, true_and]
      apply List.map_congr_left
      intro i _
      simp only [Function.comp, List.drop_drop, Nat.succ_mul]
      rw [Nat.add_comm lim (i * lim)]

/-- The result of `splitBytes` on a buffer of `n` chunks of `lim > 0` bytes. -/
theorem splitBytes_exact (buf : Bytes) (lim n : Nat) (hlim : 0 < lim)
    (hlen : buf.length = n * lim) :
    splitBytes buf lim = some ((List.range n).map (fun i => (buf.drop (i * lim)).take lim)) := by
  have hn : n ≤ buf.length := by
    rw [hlen]; exact Nat.le_mul_of_pos_right n hlim
  have hne : lim ≠ 0 := by omega
  simp [splitBytes, hne, splitBytesLoop_exact lim hlim n buf.length buf [] hlen hn]

/-! ### Share creation -/

/-- When every index is in range and the local operator's entries decrypt, the
loop of `validatorAddedEventToShare` finishes: it appends the operator ids in
order to the committee, keeps the owner and validator key, and either leaves
the operator id and secret of the share alone or ends with a secret decoded. -/
theorem eventToShareLoop_ok (env : HandlerEnv) (od : OperatorData) (pks eks : List Bytes) :
    ∀ (ids : List OpId) (i : Nat) (st : ShareBuild),
      i + ids.length ≤ pks.length → i + ids.length ≤ eks.length →
      (∀ j pk ek, ids[j]? = some od.ID → pks[i + j]? = some pk → eks[i + j]? = some ek →
        localShareDecrypts env pk ek) →
      ∃ st', eventToShareLoop env od pks eks ids i st = .ok st' ∧
        st'.committee.map (·.OperatorID) = st.committee.map (·.OperatorID) ++ ids ∧
        st'.share.ValidatorPubKey = st.share.ValidatorPubKey ∧
        st'.share.OwnerAddress = st.share.OwnerAddress ∧
        (st'.shareSecret.isSome = true ∨
          (st'.share.OperatorID = st.share.OperatorID ∧ st'.shareSecret = st.shareSecret)) := by
  intro ids
  induction ids with
  | nil =>
    intro i st _ _ _
    exact ⟨st, rfl, by simp, rfl, rfl, Or.inr ⟨rfl, rfl⟩⟩
  | cons id rest ih =>
    intro i st hp he hdec
    have hpi : i < pks.length := by simp at hp; omega
    have hei : i < eks.length := by simp at he; omega
    obtain ⟨pk, hpk⟩ : ∃ pk, pks[i]? = some pk := ⟨pks[i], List.getElem?_eq_getElem hpi⟩
    obtain ⟨ek, hek⟩ : ∃ ek, eks[i]? = some ek := ⟨eks[i], List.getElem?_eq_getElem hei⟩
    have hrest : ∀ j pk ek, rest[j]? = some od.ID → pks[i + 1 + j]? = some pk →
        eks[i + 1 + j]? = some ek → localShareDecrypts env pk ek := by
      intro j pk ek hj hpj hej
      have e1 : i + (j + 1) = i + 1 + j := by omega
      exact hdec (j + 1) pk ek (by simpa using hj) (by rw [e1]; exact hpj) (by rw [e1]; exact hej)
    have hp1 : i + 1 + rest.length ≤ pks.length := by simp at hp; omega
    have he1 : i + 1 + rest.length ≤ eks.length := by simp at he; omega
    by_cases hid : id = od.ID
    · obtain ⟨sk, dec, secret, hsk, hdk, hhex, hpub⟩ :=
        hdec 0 pk ek (by simp [hid]) (by simpa using hpk) (by simpa using hek)
      obtain ⟨st', hst', hc, hv, ho, _⟩ := ih (i + 1)
        { share := { st.share with OperatorID := id, SharePubKey := pk },
          committee := st.committee ++ [⟨id, pk⟩], shareSecret := some secret } hp1 he1 hrest
      refine ⟨st', ?_, ?_, hv, ho, ?_⟩
      · rw [eventToShareLoop]
        simp only [hpk, hek, hid, hsk, hdk, hhex, hpub, if_true, ne_eq, not_true_eq_false,
          if_false]
        rw [← hst', hid]
      · rw [hc]; simp
      · rename_i hsec
        rcases hsec with h | ⟨_, h⟩
        · exact Or.inl h
        · exact Or.inl (by rw [h]; rfl)
    · obtain ⟨st', hst', hc, hv, ho, hsec⟩ := ih (i + 1)
        { st with committee := st.committee ++ [⟨id, pk⟩] } hp1 he1 hrest
      refine ⟨st', ?_, ?_, hv, ho, hsec⟩
      · rw [eventToShareLoop]
        simp only [hpk, hid, if_false]
        exact hst'
      · rw [hc]; simp

theorem sharesGet_sharesSave_self (l : List SSVShare) (s : SSVShare) :
    sharesGet (sharesSave l s) s.ValidatorPubKey = some s := by
  induction l with
  | nil => simp [sharesSave, sharesGet]
  | cons x rest ih =>
    by_cases h : x.ValidatorPubKey = s.ValidatorPubKey
    · simp [sharesSave, sharesGet, h]
    · simp [sharesSave, sharesGet, h, ih]

theorem updateShareMetadata_fields (env : HandlerEnv) (share : SSVShare) :
    (updateShareMetadata env share).ValidatorPubKey = share.ValidatorPubKey ∧
    (updateShareMetadata env share).OwnerAddress = share.OwnerAddress ∧
    (updateShareMetadata env share).Committee = share.Committee := by
  unfold updateShareMetadata
  split <;> exact ⟨rfl, rfl, rfl⟩

/-- With all indices in range, a validator key that deserialises to itself
and decryptable entries for the local operator, `validatorAddedEventToShare`
returns a share of the event's owner under the event's key whose committee
carries the event's operator ids in order, with a secret whenever the share
belongs to the local operator. -/
theorem validatorAddedEventToShare_ok (env : HandlerEnv) (event : ContractValidatorAdded)
    (od : OperatorData) (pks eks : List Bytes)
    (hp : event.OperatorIds.length ≤ pks.length) (he : event.OperatorIds.length ≤ eks.length)
    (hpk : ∃ k, env.DeserializeBLSPublicKey event.PublicKey = some k ∧
      env.pkSerialize k = event.PublicKey)
    (hdec : ∀ (i : Nat) pk ek, event.OperatorIds[i]? = some od.ID → pks[i]? = some pk →
      eks[i]? = some ek → localShareDecrypts env pk ek) :
    ∃ share secret, validatorAddedEventToShare env event od pks eks = .ok (share, secret) ∧
      share.ValidatorPubKey = event.PublicKey ∧ share.OwnerAddress = event.Owner ∧
      share.Committee.map (·.OperatorID) = event.OperatorIds ∧
      (share.BelongsToOperator od.ID = true → secret.isSome = true) := by
  obtain ⟨k, hk, hser⟩ := hpk
  obtain ⟨st, hst, hc, hv, ho, hsec⟩ := eventToShareLoop_ok env od pks eks event.OperatorIds 0
    ⟨{ SSVShare.zero with ValidatorPubKey := env.pkSerialize k, OwnerAddress := event.Owner },
      [], none⟩ (by simpa using hp) (by simpa using he)
    (by intro j pk ek h1 h2 h3; exact hdec j pk ek h1 (by simpa using h2) (by simpa using h3))
  refine ⟨finishShare env st, st.shareSecret, ?_, ?_, ?_, ?_, ?_⟩
  · simp only [validatorAddedEventToShare, hk, hst]
  · simpa [finishShare, hser] using hv
  · simpa [finishShare] using ho
  · simpa [finishShare] using hc
  · intro hb
    rcases hsec with h | ⟨h1, _⟩
    · exact h
    · simp only [SSVShare.BelongsToOperator, Bool.and_eq_true, bne_iff_ne, ne_eq,
        beq_iff_eq] at hb
      simp only [finishShare] at hb
      simp only [SSVShare.zero] at h1
      exact absurd (h1.symm.trans hb.2).symm hb.1

/-- Under the same conditions, with no storage or key-manager failure,
`handleShareCreation` stores the share in memory and in the registry. -/
theorem handleShareCreation_ok (env : HandlerEnv) (edh : EventDataHandler) (txn : Txn)
    (event : ContractValidatorAdded) (pks eks : List Bytes)
    (hfaults : env.faults = Faults.none)
    (hp : event.OperatorIds.length ≤ pks.length) (he : event.OperatorIds.length ≤ eks.length)
    (hpk : ∃ k, env.DeserializeBLSPublicKey event.PublicKey = some k ∧
      env.pkSerialize k = event.PublicKey)
    (hdec : ∀ (i : Nat) pk ek, event.OperatorIds[i]? = some edh.operatorData.ID → pks[i]? = some pk →
      eks[i]? = some ek → localShareDecrypts env pk ek) :
    ∃ edh1 txn1 share, handleShareCreation env edh txn event pks eks = (edh1, txn1, .ok share) ∧
      sharesGet edh1.shares event.PublicKey = some share ∧
      sharesGet txn1.shares event.PublicKey = some share ∧
      share.OwnerAddress = event.Owner ∧
      share.Committee.map (·.OperatorID) = event.OperatorIds := by
  obtain ⟨share, secret, hok, hv, ho, hc, hsec⟩ :=
    validatorAddedEventToShare_ok env event edh.operatorData pks eks hp he hpk hdec
  have hsave : ∀ (e : EventDataHandler) (sh : SSVShare), sh.ValidatorPubKey = event.PublicKey →
      ∃ edh1 txn1, saveCreatedShare env e txn sh = (edh1, txn1, .ok sh) ∧
        sharesGet edh1.shares event.PublicKey = some sh ∧
        sharesGet txn1.shares event.PublicKey = some sh := by
    intro e sh hsh
    refine ⟨{ e with shares := sharesSave e.shares sh },
      { txn with shares := sharesSave txn.shares sh }, ?_, ?_, ?_⟩
    · simp [saveCreatedShare, Txn.SaveShares, hfaults, Faults.none]
    · simpa [hsh] using sharesGet_sharesSave_self e.shares sh
    · simpa [hsh] using sharesGet_sharesSave_self txn.shares sh
  by_cases hb : share.BelongsToOperator edh.operatorData.ID = true
  · obtain ⟨sec, hsome⟩ := Option.isSome_iff_exists.mp (hsec hb)
    have hm := updateShareMetadata_fields env share
    obtain ⟨edh1, txn1, h1, h2, h3⟩ :=
      hsave { edh with keyManager := edh.keyManager ++ [sec] } (updateShareMetadata env share)
        (hm.1.trans hv)
    refine ⟨edh1, txn1, _, ?_, h2, h3, hm.2.1.trans ho, by rw [hm.2.2]; exact hc⟩
    simp only [handleShareCreation, hok, hb, hsome, hfaults, Faults.none, if_true]
    exact h1
  · obtain ⟨edh1, txn1, h1, h2, h3⟩ := hsave edh share hv
    refine ⟨edh1, txn1, _, ?_, h2, h3, ho, hc⟩
    simp only [handleShareCreation, hok, hb]
    exact h1

theorem getElem?_map_range {α : Type} (f : Nat → α) (n i : Nat) (h : i < n) :
    ((List.range n).map f)[i]? = some (f i) := by
  rw [List.getElem?_map, List.getElem?_range h]
  rfl

/-- On a blob of the expected length the first `splitBytes` call of
`handleValidatorAdded` returns the share public keys, one per operator. -/
theorem sharePublicKeys_split (env : HandlerEnv) (event : ContractValidatorAdded)
    (hlen : encryptedKeyLength * event.OperatorIds.length +
      (PublicKeyLength * event.OperatorIds.length + env.SignatureLength) = event.Shares.length) :
    ∃ pks, splitBytes ((event.Shares.drop env.SignatureLength).take
        (PublicKeyLength * event.OperatorIds.length + env.SignatureLength - env.SignatureLength))
        PublicKeyLength = some pks ∧
      pks.length = event.OperatorIds.length ∧
      ∀ i, i < event.OperatorIds.length → pks[i]? = some (sharePublicKeyAt env event i) := by
  simp only [PublicKeyLength, encryptedKeyLength] at hlen
  have hbuf : ((event.Shares.drop env.SignatureLength).take
      (PublicKeyLength * event.OperatorIds.length + env.SignatureLength -
        env.SignatureLength)).length = event.OperatorIds.length * PublicKeyLength := by
    simp only [List.length_take, List.length_drop, PublicKeyLength]
    omega
  refine ⟨_, splitBytes_exact _ PublicKeyLength _ (by decide) hbuf, by simp, ?_⟩
  intro i hi
  rw [getElem?_map_range _ _ _ hi]
  simp only [sharePublicKeyAt, List.drop_take, List.drop_drop, List.take_take, PublicKeyLength]
  congr 2
  · omega
  · congr 1
    omega

/-- On a blob of the expected length, with at least one operator, the second
`splitBytes` call of `handleValidatorAdded` returns the encrypted keys. -/
theorem encryptedKeys_split (env : HandlerEnv) (event : ContractValidatorAdded)
    (hops : event.OperatorIds.length ≠ 0)
    (hlen : encryptedKeyLength * event.OperatorIds.length +
      (PublicKeyLength * event.OperatorIds.length + env.SignatureLength) = event.Shares.length) :
    ∃ eks, splitBytes
        (event.Shares.drop (PublicKeyLength * event.OperatorIds.length + env.SignatureLength))
        ((event.Shares.drop (PublicKeyLength * event.OperatorIds.length +
          env.SignatureLength)).length / event.OperatorIds.length) = some eks ∧
      eks.length = event.OperatorIds.length ∧
      ∀ i, i < event.OperatorIds.length → eks[i]? = some (encryptedKeyAt env event i) := by
  simp only [PublicKeyLength, encryptedKeyLength] at hlen
  have hbuf : (event.Shares.drop (PublicKeyLength * event.OperatorIds.length +
      env.SignatureLength)).length = event.OperatorIds.length * encryptedKeyLength := by
    simp only [List.length_drop, PublicKeyLength, encryptedKeyLength]
    omega
  have hlim : (event.Shares.drop (PublicKeyLength * event.OperatorIds.length +
      env.SignatureLength)).length / event.OperatorIds.length = encryptedKeyLength := by
    rw [hbuf]
    exact Nat.mul_div_cancel_left _ (Nat.pos_of_ne_zero hops)
  rw [hlim]
  refine ⟨_, splitBytes_exact _ encryptedKeyLength _ (by decide) hbuf, by simp, ?_⟩
  intro i hi
  rw [getElem?_map_range _ _ _ hi]
  simp only [encryptedKeyAt, List.drop_drop, PublicKeyLength, encryptedKeyLength]
  congr 3
  omega

/-- For a new validator key the body of `handleValidatorAdded` creates the
share and sets `valid`. -/
theorem handleValidatorAddedBody_new_validator (env : HandlerEnv) (edh : EventDataHandler)
    (txn : Txn) (event : ContractValidatorAdded)
    (hnew : event.TxHash ∉ txn.events)
    (hfaults : env.faults = Faults.none)
    (hops : event.OperatorIds ≠ [])
    (hlen : event.Shares.length = env.SignatureLength +
      PublicKeyLength * event.OperatorIds.length + encryptedKeyLength * event.OperatorIds.length)
    (hsig : verifySignature env (event.Shares.take env.SignatureLength) event.Owner
      event.PublicKey (nonceOf txn.nonces event.Owner) = none)
    (habsent : sharesGet edh.shares event.PublicKey = none)
    (hpk : ∃ k, env.DeserializeBLSPublicKey event.PublicKey = some k ∧
      env.pkSerialize k = event.PublicKey)
    (hdec : ∀ (i : Nat), event.OperatorIds[i]? = some edh.operatorData.ID →
      localShareDecrypts env (sharePublicKeyAt env event i) (encryptedKeyAt env event i)) :
    ∃ edh1 txn1 share,
      handleValidatorAddedBody env edh txn event = ⟨edh1, txn1, true, .returned none⟩ ∧
      sharesGet edh1.shares event.PublicKey = some share ∧
      sharesGet txn1.shares event.PublicKey = some share ∧
      share.OwnerAddress = event.Owner ∧
      share.Committee.map (·.OperatorID) = event.OperatorIds := by
  have hN : event.OperatorIds.length ≠ 0 := by
    intro h; exact hops (List.length_eq_zero.mp h)
  have hlen1 : encryptedKeyLength * event.OperatorIds.length +
      (PublicKeyLength * event.OperatorIds.length + env.SignatureLength) =
      event.Shares.length := by omega
  obtain ⟨pks, hpks, hpl, hpi⟩ := sharePublicKeys_split env event hlen1
  obtain ⟨eks, heks, hel, hei⟩ := encryptedKeys_split env event hN hlen1
  have hdec1 : ∀ (i : Nat) pk ek, event.OperatorIds[i]? = some edh.operatorData.ID →
      pks[i]? = some pk → eks[i]? = some ek → localShareDecrypts env pk ek := by
    intro i pk ek hid h1 h2
    have hi : i < event.OperatorIds.length := by
      obtain ⟨h, _⟩ := List.getElem?_eq_some.mp hid
      exact h
    rw [hpi i hi] at h1
    rw [hei i hi] at h2
    cases h1
    cases h2
    exact hdec i hid
  obtain ⟨edh1, txn1, share, hcreate, h1, h2, h3, h4⟩ :=
    handleShareCreation_ok env edh txn event pks eks hfaults (by omega) (by omega) hpk hdec1
  refine ⟨edh1, txn1, share, ?_, h1, h2, h3, h4⟩
  have hGet : txn.GetEventData env.faults event.TxHash = .ok none := by
    simp [Txn.GetEventData, hfaults, Faults.none, hnew]
  have hNonce : txn.GetNextNonce env.faults event.Owner =
      .ok (nonceOf txn.nonces event.Owner) := by
    simp [Txn.GetNextNonce, hfaults, Faults.none]
  have hreg : registerValidatorShare env edh txn event pks eks =
      ⟨edh1, txn1, true, .returned none⟩ := by
    simp only [registerValidatorShare, habsent, hcreate]
  unfold handleValidatorAddedBody
  simp only [hGet, hNonce, hlen1, hpks, heks, hN, hsig, hreg, ne_eq, not_true_eq_false,
    if_false]

/-- C1 (amended): for every ValidatorAdded event with an unprocessed tx hash, at
least one operator id, a shares blob of the expected length and a verifying
owner:nonce signature, for whose public key no share is stored yet, whose
public key deserialises (to itself) and whose entries for the local operator
decrypt to a secret matching the share public key, all storage and
key-manager calls succeeding: `handleValidatorAdded` returns nil, a share for
the event's public key exists in memory and in the registry with the event's
owner and with committee operator ids equal to the event's operator ids in
order, the tx hash is marked processed and the owner's nonce is exactly one
higher than before. -/
theorem handleValidatorAdded_new_validator (env : HandlerEnv) (edh : EventDataHandler)
    (txn : Txn) (event : ContractValidatorAdded)
    (hnew : event.TxHash ∉ txn.events)
    (hfaults : env.faults = Faults.none)
    (hops : event.OperatorIds ≠ [])
    (hlen : event.Shares.length = env.SignatureLength +
      PublicKeyLength * event.OperatorIds.length + encryptedKeyLength * event.OperatorIds.length)
    (hsig : verifySignature env (event.Shares.take env.SignatureLength) event.Owner
      event.PublicKey (nonceOf txn.nonces event.Owner) = none)
    (habsent : sharesGet edh.shares event.PublicKey = none)
    (hpk : ∃ k, env.DeserializeBLSPublicKey event.PublicKey = some k ∧
      env.pkSerialize k = event.PublicKey)
    (hdec : ∀ (i : Nat), event.OperatorIds[i]? = some edh.operatorData.ID →
      localShareDecrypts env (sharePublicKeyAt env event i) (encryptedKeyAt env event i)) :
    (handleValidatorAdded env edh txn event).out = .returned none ∧
    (∃ share,
      sharesGet (handleValidatorAdded env edh txn event).edh.shares event.PublicKey =
        some share ∧
      sharesGet (handleValidatorAdded env edh txn event).txn.shares event.PublicKey =
        some share ∧
      share.OwnerAddress = event.Owner ∧
      share.Committee.map (·.OperatorID) = event.OperatorIds) ∧
    event.TxHash ∈ (handleValidatorAdded env edh txn event).txn.events ∧
    nonceOf (handleValidatorAdded env edh txn event).txn.nonces event.Owner =
      nonceOf txn.nonces event.Owner + 1 := by
  obtain ⟨edh1, txn1, share, hbody, h1, h2, h3, h4⟩ :=
    handleValidatorAddedBody_new_validator env edh txn event hnew hfaults hops hlen hsig
      habsent hpk hdec
  have hen := handleValidatorAddedBody_events_nonces env edh txn event
  rw [hbody] at hen
  have hd := validatorAddedDefer_bookkeeping env true none event txn1 (by simp)
    (by rw [hfaults]; rfl) (by rw [hfaults]; rfl)
  have hr : handleValidatorAdded env edh txn event =
      ⟨edh1, { txn1 with events := event.TxHash :: txn1.events,
                         nonces := bumpNonceOf txn1.nonces event.Owner },
        .returned none⟩ := by
    simp only [handleValidatorAdded, hbody, hd]
  rw [hr]
  refine ⟨rfl, ⟨share, h1, h2, h3, h4⟩, List.mem_cons_self _ _, ?_⟩
  show nonceOf (bumpNonceOf txn1.nonces event.Owner) event.Owner = _
  rw [nonceOf_bumpNonceOf_self]
  have : txn1.nonces = txn.nonces := hen.2
  rw [this]

set_option maxRecDepth 100000 in
/-- C1 (amended) at the sample event on the empty sample handler: operator 2 is
the local operator and its encrypted key decrypts to the secret 5. -/
theorem handleValidatorAdded_new_validator_witness :
    (handleValidatorAdded sampleEnv sampleHandler sampleTxn sampleAdded).out = .returned none ∧
    (∃ share,
      sharesGet (handleValidatorAdded sampleEnv sampleHandler sampleTxn sampleAdded).edh.shares
        sampleAdded.PublicKey = some share ∧
      sharesGet (handleValidatorAdded sampleEnv sampleHandler sampleTxn sampleAdded).txn.shares
        sampleAdded.PublicKey = some share ∧
      share.OwnerAddress = sampleAdded.Owner ∧
      share.Committee.map (·.OperatorID) = sampleAdded.OperatorIds) ∧
    sampleAdded.TxHash ∈
      (handleValidatorAdded sampleEnv sampleHandler sampleTxn sampleAdded).txn.events ∧
    nonceOf (handleValidatorAdded sampleEnv sampleHandler sampleTxn sampleAdded).txn.nonces
      sampleAdded.Owner = nonceOf sampleTxn.nonces sampleAdded.Owner + 1 :=
  handleValidatorAdded_new_validator sampleEnv sampleHandler sampleTxn sampleAdded
    (by decide) rfl (by decide) (by decide) (by decide) rfl
    ⟨sampleValidatorKey, by decide, rfl⟩
    (fun i hi =>
      match i, hi with
      | 0, h => absurd h (by decide)
      | 1, _ => ⟨5, [5], 5, rfl, by decide, rfl, by decide⟩
      | n + 2, h => absurd h (by simp [sampleAdded]))

set_option maxRecDepth 100000 in
/-- C1 as stated fails when a share for the event's public key already exists
for the same owner: the sample event has an unprocessed tx hash, a blob of the
expected length and a verifying signature, and no call fails, yet the handler
returns nil without marking the tx hash, without bumping the nonce and
without touching the stored share, whose committee is not the event's. -/
theorem handleValidatorAdded_existing_share_counterexample :
    sampleAdded.TxHash ∉ sampleTxn.events ∧
    sampleAdded.Shares.length = sampleEnv.SignatureLength +
      PublicKeyLength * sampleAdded.OperatorIds.length +
      encryptedKeyLength * sampleAdded.OperatorIds.length ∧
    verifySignature sampleEnv (sampleAdded.Shares.take sampleEnv.SignatureLength)
      sampleAdded.Owner sampleAdded.PublicKey (nonceOf sampleTxn.nonces sampleAdded.Owner) =
      none ∧
    sampleEnv.faults = Faults.none ∧
    sharesGet sampleHandlerWithShare.shares sampleAdded.PublicKey = some sampleStoredShare ∧
    sampleStoredShare.OwnerAddress = sampleAdded.Owner ∧
    handleValidatorAdded sampleEnv sampleHandlerWithShare sampleTxn sampleAdded =
      ⟨sampleHandlerWithShare, sampleTxn, .returned none⟩ ∧
    sampleAdded.TxHash ∉
      (handleValidatorAdded sampleEnv sampleHandlerWithShare sampleTxn sampleAdded).txn.events ∧
    nonceOf
      (handleValidatorAdded sampleEnv sampleHandlerWithShare sampleTxn sampleAdded).txn.nonces
      sampleAdded.Owner ≠ nonceOf sampleTxn.nonces sampleAdded.Owner + 1 ∧
    sampleStoredShare.Committee.map (·.OperatorID) ≠ sampleAdded.OperatorIds := by
  decide

/-! ## Theorems: message counts -/

theorem MessageCounts.Bounded_step (c c1 : MessageCounts) (msg : DecodedSSVMessage)
    (hb : c.Bounded) (hv : c.Validate msg = none) (hr : c.Record msg = some c1) :
    c1.Bounded := by
  obtain ⟨h1, h2, h3, h4, h5, h6, h7⟩ := hb
  unfold MessageCounts.Validate at hv
  unfold MessageCounts.Record at hr
  unfold MessageCounts.Bounded
  cases hbody : msg.Body with
  | signedMessage m =>
    rw [hbody] at hv hr
    cases ht : m.Message.MsgType <;> simp only [ht] at hv hr
    all_goals (try split at hr) <;> (try split at hr) <;> simp at hv hr <;> subst hr <;>
      (refine ⟨?_, ?_, ?_, ?_, ?_, ?_, ?_⟩ <;> (try dsimp only) <;> omega)
  | partialSignatureMessage m =>
    rw [hbody] at hv hr
    cases ht : m.PartialSigType <;> simp only [ht] at hv hr <;> simp at hv hr <;> subst hr <;>
      (refine ⟨?_, ?_, ?_, ?_, ?_, ?_, ?_⟩ <;> (try dsimp only) <;> omega)
  | other =>
    rw [hbody] at hv
    simp at hv

theorem recordValidated_bounded (msgs : List DecodedSSVMessage) :
    ∀ c : MessageCounts, c.Bounded → (recordValidated c msgs).Bounded := by
  induction msgs with
  | nil => intro c hc; exact hc
  | cons msg rest ih =>
    intro c hc
    unfold recordValidated
    cases hv : c.Validate msg with
    | some e => exact ih c hc
    | none =>
      cases hr : c.Record msg with
      | none => exact hc
      | some c1 => exact ih c1 (MessageCounts.Bounded_step c c1 msg hc hv hr)

/-- C6: starting from all-zero counts, along every sequence of messages in
which a message is recorded only when `Validate` on the current counts
returned nil, the counters satisfy Proposal ≤ 1, Prepare ≤ 1, Commit ≤ 1,
RoundChange ≤ 1, PreConsensus ≤ 1, PostConsensus ≤ 1 and
Decided ≤ committee_size + 1, for every committee size. -/
theorem recordValidated_counts_within_limits (committeeSize : Nat)
    (msgs : List DecodedSSVMessage) :
    (recordValidated MessageCounts.zero msgs).Proposal ≤ 1 ∧
    (recordValidated MessageCounts.zero msgs).Prepare ≤ 1 ∧
    (recordValidated MessageCounts.zero msgs).Commit ≤ 1 ∧
    (recordValidated MessageCounts.zero msgs).RoundChange ≤ 1 ∧
    (recordValidated MessageCounts.zero msgs).PreConsensus ≤ 1 ∧
    (recordValidated MessageCounts.zero msgs).PostConsensus ≤ 1 ∧
    (recordValidated MessageCounts.zero msgs).Decided ≤ committeeSize + 1 := by
  have h0 : MessageCounts.zero.Bounded := by
    simp [MessageCounts.Bounded, MessageCounts.zero]
  obtain ⟨h1, h2, h3, h4, h5, h6, h7⟩ := recordValidated_bounded msgs MessageCounts.zero h0
  exact ⟨h1, h2, h3, h4, h5, h6, by omega⟩

/-! ## Theorems: consensus message validation -/

theorem subUint64_self (a : Nat) : subUint64 a a = 0 := by
  unfold subUint64
  omega

theorem subUint64_add_of_ne (a b : Nat) (ha : a < 2 ^ 64) (hb : b < 2 ^ 64) (h : a ≠ b) :
    subUint64 a b + subUint64 b a = 2 ^ 64 := by
  unfold subUint64
  omega

/-- On unsigned 64-bit rounds, with allowed distances that do not add up to
2^64, the round-estimation check lets a message through exactly when its
round equals the estimated round: one of the two differences wraps around. -/
theorem roundTooFarFromEstimated_iff (env : ValidationEnv) (estimatedRound msgRound : Nat)
    (he : estimatedRound < 2 ^ 64) (hm : msgRound < 2 ^ 64)
    (hallowed : env.allowedRoundsInFuture + env.allowedRoundsInPast < 2 ^ 64) :
    roundTooFarFromEstimated env estimatedRound msgRound = false ↔ msgRound = estimatedRound := by
  unfold roundTooFarFromEstimated
  constructor
  · intro h
    by_contra hne
    have hsum := subUint64_add_of_ne estimatedRound msgRound he hm (Ne.symm hne)
    simp only [Bool.or_eq_false_iff, decide_eq_false_iff_not, not_lt] at h
    omega
  · intro h
    subst h
    simp [subUint64_self]

set_option maxRecDepth 100000 in
/-- C5 (evaluation at the failing input): with one round allowed in the future
and two in the past, a Proposer message of slot 5 received 3 seconds into
the slot is estimated to be in round 2; the message with round 2 is accepted,
while the same message with round 3 (estimated + 1) and with round 1
(estimated - 1) are both rejected as too far from the estimated round. -/
theorem validateConsensusMessage_adjacent_rounds_rejected :
    sampleValidationEnv.allowedRoundsInFuture = 1 ∧
    sampleValidationEnv.allowedRoundsInPast = 2 ∧
    currentEstimatedRound sampleValidationEnv .BNRoleProposer 5 63000000000 = some 2 ∧
    (validateConsensusMessage sampleValidationEnv [] sampleCommitteeShare
      (sampleMessage .BNRoleProposer .PrepareMsgType 2 [1] none) 63000000000).2 =
      .returned none ∧
    (validateConsensusMessage sampleValidationEnv [] sampleCommitteeShare
      (sampleMessage .BNRoleProposer .PrepareMsgType 3 [1] none) 63000000000).2 =
      .returned (some (.plain "message round is too far from estimated")) ∧
    (validateConsensusMessage sampleValidationEnv [] sampleCommitteeShare
      (sampleMessage .BNRoleProposer .PrepareMsgType 1 [1] none) 63000000000).2 =
      .returned (some (.plain "message round is too far from estimated")) := by
  decide

/-- C7 (evaluation at the failing input): a fresh signer sends a Proposal of
slot 5, round 1 with nil full data, which `validateSignerBehavior` accepts
and which is not recorded; the recorded proposal data is still nil, and a
second Proposal of the same slot and round with different full data is
accepted too. Had the first Proposal carried non-empty data, the second would
have been rejected as a duplicated proposal with different data. -/
theorem validateSignerBehavior_second_proposal_accepted :
    (validateSignerBehavior sampleValidationEnv [] 1
      (sampleMessage .BNRoleProposer .ProposalMsgType 1 [1] none)).2 = none ∧
    ((validateSignerBehavior sampleValidationEnv [] 1
      (sampleMessage .BNRoleProposer .ProposalMsgType 1 [1] none)).1.SignerState 1).ProposalData =
      none ∧
    (validateSignerBehavior sampleValidationEnv
      (validateSignerBehavior sampleValidationEnv [] 1
        (sampleMessage .BNRoleProposer .ProposalMsgType 1 [1] none)).1 1
      (sampleMessage .BNRoleProposer .ProposalMsgType 1 [1] (some [1]))).2 = none ∧
    (validateSignerBehavior sampleValidationEnv
      (validateSignerBehavior sampleValidationEnv [] 1
        (sampleMessage .BNRoleProposer .ProposalMsgType 1 [1] (some [2]))).1 1
      (sampleMessage .BNRoleProposer .ProposalMsgType 1 [1] (some [1]))).2 =
      some (.plain "duplicated proposal with different data") := by
  decide

/-- C8 (evaluation at the failing input): a signer's decided message with four
signers is processed, then a Prepare of the same slot and round, then a
decided message with three signers. The Prepare overwrites the recorded
last-decided quorum size with 1, so the decided message with three signers
passes the quorum check and is accepted; without the Prepare in between it is
rejected for not having more signers than the previous decided message. -/
theorem validateSignerBehavior_smaller_decided_accepted :
    (validateSignerBehavior sampleValidationEnv [] 1
      (sampleMessage .BNRoleAttester .CommitMsgType 1 [1, 2, 3, 4] (some [7]))).2 = none ∧
    (validateSignerBehavior sampleValidationEnv
      (validateSignerBehavior sampleValidationEnv [] 1
        (sampleMessage .BNRoleAttester .CommitMsgType 1 [1, 2, 3, 4] (some [7]))).1 1
      (sampleMessage .BNRoleAttester .CommitMsgType 1 [1, 2, 3] (some [7]))).2 =
      some (.plain "decided must have more signers than previous decided") ∧
    ((validateSignerBehavior sampleValidationEnv
      (validateSignerBehavior sampleValidationEnv [] 1
        (sampleMessage .BNRoleAttester .CommitMsgType 1 [1, 2, 3, 4] (some [7]))).1 1
      (sampleMessage .BNRoleAttester .PrepareMsgType 1 [1] none)).1.SignerState
        1).LastDecidedQuorumSize = 1 ∧
    (validateSignerBehavior sampleValidationEnv
      (validateSignerBehavior sampleValidationEnv
        (validateSignerBehavior sampleValidationEnv [] 1
          (sampleMessage .BNRoleAttester .CommitMsgType 1 [1, 2, 3, 4] (some [7]))).1 1
        (sampleMessage .BNRoleAttester .PrepareMsgType 1 [1] none)).1 1
      (sampleMessage .BNRoleAttester .CommitMsgType 1 [1, 2, 3] (some [7]))).2 = none := by
  decide

theorem IsSorted_pairwise (l : List OpId) (h : IsSorted l = true) :
    List.Pairwise (· ≤ ·) l := by
  induction l with
  | nil => exact List.Pairwise.nil
  | cons a rest ih =>
    cases rest with
    | nil => simp
    | cons b tail =>
      have hab : ¬ b < a := by
        intro hlt
        simp [IsSorted, hlt] at h
      have hrest : IsSorted (b :: tail) = true := by
        simpa [IsSorted, hab] using h
      have ihp := ih hrest
      refine List.Pairwise.cons ?_ ihp
      intro x hx
      rcases List.mem_cons.mp hx with hxb | hxt
      · subst hxb; exact Nat.le_of_not_lt hab
      · have hbx : b ≤ x := (List.pairwise_cons.mp ihp).1 x hxt
        exact Nat.le_trans (Nat.le_of_not_lt hab) hbx

theorem signersLoop_none (env : ValidationEnv) (share : SSVShare) :
    ∀ (l seen : List OpId), signersLoop env share l seen = none →
      l.Nodup ∧ (∀ x ∈ l, x ∉ seen) ∧ ∀ x ∈ l, env.commonSignerValidation x share = none := by
  intro l
  induction l with
  | nil => intro seen _; simp
  | cons a rest ih =>
    intro seen h
    unfold signersLoop at h
    cases hc : env.commonSignerValidation a share with
    | some e => simp [hc] at h
    | none =>
      simp only [hc] at h
      by_cases hmem : a ∈ seen
      · simp [hmem] at h
      · simp only [hmem, if_false] at h
        obtain ⟨hnd, hseen, hall⟩ := ih (a :: seen) h
        refine ⟨List.nodup_cons.mpr ⟨?_, hnd⟩, ?_, ?_⟩
        · intro ha
          exact hseen a ha (List.mem_cons_self _ _)
        · intro x hx
          rcases List.mem_cons.mp hx with hxa | hxr
          · subst hxa; exact hmem
          · intro hxs
            exact hseen x hxr (List.mem_cons_of_mem _ hxs)
        · intro x hx
          rcases List.mem_cons.mp hx with hxa | hxr
          · subst hxa; exact hc
          · exact hall x hxr

/-- C9: whenever `validConsensusSigners` returns nil, the signer list is
non-empty and strictly increasing (hence duplicate-free), every signer passed
`commonSignerValidation`, and a list of more than one signer comes with a
Commit message and a length between the share's quorum and its committee
size; and an empty signer list always yields `ErrNoSigners`. -/
theorem validConsensusSigners_nil (env : ValidationEnv) (share : SSVShare)
    (m : SignedMessage) (h : validConsensusSigners env share m = none) :
    m.Signers ≠ [] ∧
    List.Pairwise (· < ·) m.Signers ∧
    m.Signers.Nodup ∧
    (∀ signer ∈ m.Signers, env.commonSignerValidation signer share = none) ∧
    (m.Signers.length > 1 →
      m.Message.MsgType = .CommitMsgType ∧ share.Quorum ≤ m.Signers.length ∧
      m.Signers.length ≤ share.Committee.length) ∧
    (∀ m0 : SignedMessage, m0.Signers = [] →
      validConsensusSigners env share m0 = some ErrNoSigners) := by
  have hempty : ∀ m0 : SignedMessage, m0.Signers = [] →
      validConsensusSigners env share m0 = some ErrNoSigners := by
    intro m0 h0
    simp [validConsensusSigners, h0]
  unfold validConsensusSigners at h
  by_cases hlen : m.Signers.length = 0
  · simp [hlen] at h
  · simp only [hlen, if_false] at h
    split at h
    · exact absurd h (by simp)
    · rename_i hsize
      by_cases hs : IsSorted m.Signers = true
      · simp only [hs, Bool.not_true, Bool.false_eq_true, if_false] at h
        obtain ⟨hnd, _, hall⟩ := signersLoop_none env share m.Signers [] h
        have hle := IsSorted_pairwise m.Signers hs
        have hlt : List.Pairwise (· < ·) m.Signers :=
          (hle.and hnd).imp (fun hab => Nat.lt_of_le_of_ne hab.1 hab.2)
        refine ⟨fun hnil => hlen (by simp [hnil]), hlt, hnd, hall, ?_, hempty⟩
        intro hgt
        have h1 : m.Signers.length ≠ 1 := by omega
        simp only [h1, if_false] at hsize
        by_cases ht : m.Message.MsgType = .CommitMsgType
        · simp only [ht, ne_eq, not_true_eq_false, if_false] at hsize
          by_cases hq : m.Signers.length < share.Quorum ∨
              m.Signers.length > share.Committee.length
          · simp [hq] at hsize
          · exact ⟨ht, by omega, by omega⟩
        · simp [ht] at hsize
      · simp [hs] at h

/-- C9 at a decided message of the sample committee signed by operators 1, 2 and 4. -/
theorem validConsensusSigners_nil_witness :
    [1, 2, 4] ≠ ([] : List OpId) ∧
    List.Pairwise (· < ·) ([1, 2, 4] : List OpId) ∧
    sampleCommitteeShare.Quorum ≤ 3 ∧ 3 ≤ sampleCommitteeShare.Committee.length := by
  have h := validConsensusSigners_nil sampleValidationEnv sampleCommitteeShare
    { Signature := [], Signers := [1, 2, 4],
      Message := { MsgType := .CommitMsgType, Height := 5, Round := 1, Root := [] },
      FullData := none } (by decide)
  exact ⟨h.1, h.2.1, (h.2.2.2.2.1 (by decide)).2.1, (h.2.2.2.2.1 (by decide)).2.2⟩

/-- C10 (amended): `maxRound` is 12 for Attester and Aggregator, 6 for Proposer,
SyncCommittee and SyncCommitteeContribution, and 0 for ValidatorRegistration;
and a Proposer-role consensus message with round 7 that passes the size,
signature-format, signer-set and slot-time checks is rejected by
`validateConsensusMessage` with the error "round too high", the consensus
state being left as it was. -/
theorem validateConsensusMessage_round_too_high (env : ValidationEnv)
    (state : ConsensusState) (share : SSVShare) (msg : DecodedSSVMessage)
    (signedMsg : SignedMessage) (receivedAt : Int)
    (hbody : msg.Body = .signedMessage signedMsg)
    (hrole : msg.MsgID.Role = .BNRoleProposer)
    (hround : signedMsg.Message.Round = 7)
    (hsize : msg.Data.length ≤ env.maxConsensusMsgSize)
    (hformat : env.validateSignatureFormat signedMsg.Signature = none)
    (hsigners : validConsensusSigners env share signedMsg = none)
    (htime : env.validateSlotTime signedMsg.Message.Height .BNRoleProposer receivedAt = none) :
    (maxRound .BNRoleAttester = some 12 ∧ maxRound .BNRoleAggregator = some 12 ∧
      maxRound .BNRoleProposer = some 6 ∧ maxRound .BNRoleSyncCommittee = some 6 ∧
      maxRound .BNRoleSyncCommitteeContribution = some 6 ∧
      maxRound .BNRoleValidatorRegistration = some 0) ∧
    validateConsensusMessage env state share msg receivedAt =
      (state, .returned (some (.plain "round too high"))) := by
  refine ⟨⟨rfl, rfl, rfl, rfl, rfl, rfl⟩, ?_⟩
  have hsz : ¬ msg.Data.length > env.maxConsensusMsgSize := by omega
  unfold validateConsensusMessage
  simp only [hbody, hsz, hformat, hsigners, hrole, htime, maxRound, hround, if_false]
  rfl

/-- C10 (amended) at the sample Proposer message with round 7, received 3
seconds into its slot. -/
theorem validateConsensusMessage_round_too_high_witness :
    validateConsensusMessage sampleValidationEnv [] sampleCommitteeShare
      (sampleMessage .BNRoleProposer .PrepareMsgType 7 [1] none) 63000000000 =
      ([], .returned (some (.plain "round too high"))) :=
  (validateConsensusMessage_round_too_high sampleValidationEnv [] sampleCommitteeShare
    (sampleMessage .BNRoleProposer .PrepareMsgType 7 [1] none) _ 63000000000
    rfl rfl rfl (by decide) (by decide) (by decide) (by decide)).2

/-- C10 as stated fails for a time of receipt outside the slot window: the
sample Proposer message with round 7 passes the size, signature-format and
signer-set checks, yet when it is received before its slot starts the
slot-time check, which comes before the round bound, rejects it with its own
error and not with "round too high". -/
theorem validateConsensusMessage_round_too_high_counterexample :
    (sampleMessage .BNRoleProposer .PrepareMsgType 7 [1] none).Data.length ≤
      sampleValidationEnv.maxConsensusMsgSize ∧
    sampleValidationEnv.validateSignatureFormat (List.replicate 96 0) = none ∧
    validConsensusSigners sampleValidationEnv sampleCommitteeShare
      { Signature := List.replicate 96 0, Signers := [1],
        Message := { MsgType := .PrepareMsgType, Height := 5, Round := 7, Root := [] },
        FullData := none } = none ∧
    validateConsensusMessage sampleValidationEnv [] sampleCommitteeShare
      (sampleMessage .BNRoleProposer .PrepareMsgType 7 [1] none) 0 =
      ([], .returned (some (.plain "early message"))) ∧
    validateConsensusMessage sampleValidationEnv [] sampleCommitteeShare
      (sampleMessage .BNRoleProposer .PrepareMsgType 7 [1] none) 0 ≠
      ([], .returned (some (.plain "round too high"))) := by
  decide

/-! ## Theorems: decided messages and limits -/

/-- Once a decided message is counted, `Validate` rejects every further
Commit-type message, decided or not. -/
theorem MessageCounts.Validate_commit_after_decided (c : MessageCounts)
    (msg : DecodedSSVMessage) (m : SignedMessage) (hbody : msg.Body = .signedMessage m)
    (htype : m.Message.MsgType = .CommitMsgType) (hdec : 1 ≤ c.Decided) :
    c.Validate msg = some (.plain "commit is not expected") := by
  have h : c.Commit > 0 ∨ c.Decided > 0 ∨ c.PostConsensus > 0 := Or.inr (Or.inl hdec)
  simp only [MessageCounts.Validate, hbody, htype, h, if_true]

/-- C17 (evaluation at the failing input): recording one decided message with
signers 1, 2, 3 on all-zero counts gives Commit = 0, PostConsensus = 0 and
Decided = 1, within 1 ≤ Decided ≤ 4 for the committee of size 4, and the
limits of `maxMessageCounts 4` allow five decided messages; yet `Validate`
of a further decided message returns the error "commit is not expected". -/
theorem MessageCounts.Validate_second_decided_rejected :
    MessageCounts.zero.Record (sampleDecided [1, 2, 3]) =
      some { MessageCounts.zero with Decided := 1 } ∧
    (maxMessageCounts 4).Decided = 5 ∧
    ({ MessageCounts.zero with Decided := 1 } : MessageCounts).Validate
      (sampleDecided [1, 2, 3, 4]) = some (.plain "commit is not expected") ∧
    recordValidated MessageCounts.zero [sampleDecided [1, 2, 3], sampleDecided [1, 2, 3, 4]] =
      { MessageCounts.zero with Decided := 1 } := by
  decide

/-! ## Theorems: length of the shares blob -/

theorem saveCreatedShare_err_not_malformed (env : HandlerEnv) (edh : EventDataHandler)
    (txn : Txn) (share : SSVShare) (e : GoError)
    (h : (saveCreatedShare env edh txn share).2.2 = .err e) : ∀ inner, e ≠ .malformed inner := by
  unfold saveCreatedShare at h
  split at h
  · simp only [Res.err.injEq] at h
    subst h
    intro inner hc
    cases hc
  · exact absurd h (by simp)

/-- An error returned by `handleShareCreation` is a wrapped or a plain error,
never a malformed-event error itself. -/
theorem handleShareCreation_err_not_malformed (env : HandlerEnv) (edh : EventDataHandler)
    (txn : Txn) (event : ContractValidatorAdded) (pks eks : List Bytes) (e : GoError)
    (h : (handleShareCreation env edh txn event pks eks).2.2 = .err e) :
    ∀ inner, e ≠ .malformed inner := by
  unfold handleShareCreation at h
  split at h
  · exact absurd h (by simp)
  · simp only [Res.err.injEq] at h
    subst h
    intro inner hc
    cases hc
  · split at h
    · split at h
      · simp only [Res.err.injEq] at h
        subst h
        intro inner hc
        cases hc
      · split at h
        · simp only [Res.err.injEq] at h
          subst h
          intro inner hc
          cases hc
        · exact saveCreatedShare_err_not_malformed _ _ _ _ _ h
    · exact saveCreatedShare_err_not_malformed _ _ _ _ _ h

/-- The last part of the body never returns the shares-length error. -/
theorem registerValidatorShare_not_length_error (env : HandlerEnv) (edh : EventDataHandler)
    (txn : Txn) (event : ContractValidatorAdded) (pks eks : List Bytes) :
    (registerValidatorShare env edh txn event pks eks).out ≠
      .returned (some (.malformed (.plain "event shares length is not correct"))) := by
  have hsc := handleShareCreation_err_not_malformed env edh txn event pks eks
  unfold registerValidatorShare
  split
  · split
    · simp
    · rename_i e heq
      rw [heq] at hsc
      intro hc
      simp only [Outcome.returned.injEq, Option.some.injEq] at hc
      exact hsc e rfl _ hc
    · simp
  · split
    · intro hc
      simp only [Outcome.returned.injEq, Option.some.injEq, GoError.malformed.injEq,
        GoError.plain.injEq] at hc
      exact absurd hc (by decide)
    · simp

/-- When the tx hash is unprocessed and both lookups succeed, the body of
`handleValidatorAdded` returns the shares-length error exactly when the
length of the blob is not `SignatureLength + 48 * N + 256 * N`. -/
theorem handleValidatorAddedBody_length_error_iff (env : HandlerEnv) (edh : EventDataHandler)
    (txn : Txn) (event : ContractValidatorAdded)
    (hnew : event.TxHash ∉ txn.events)
    (hget : env.faults.getEventData = false) (hnonce : env.faults.getNextNonce = false) :
    ((handleValidatorAddedBody env edh txn event).out =
        .returned (some (.malformed (.plain "event shares length is not correct"))) ↔
      event.Shares.length ≠ env.SignatureLength + PublicKeyLength * event.OperatorIds.length +
        encryptedKeyLength * event.OperatorIds.length) ∧
    (event.Shares.length ≠ env.SignatureLength + PublicKeyLength * event.OperatorIds.length +
        encryptedKeyLength * event.OperatorIds.length →
      handleValidatorAddedBody env edh txn event =
        ⟨edh, txn, false,
          .returned (some (.malformed (.plain "event shares length is not correct")))⟩) := by
  have hGet : txn.GetEventData env.faults event.TxHash = .ok none := by
    simp [Txn.GetEventData, hget, hnew]
  have hNonce : txn.GetNextNonce env.faults event.Owner =
      .ok (nonceOf txn.nonces event.Owner) := by
    simp [Txn.GetNextNonce, hnonce]
  by_cases hlen : encryptedKeyLength * event.OperatorIds.length +
      (PublicKeyLength * event.OperatorIds.length + env.SignatureLength) = event.Shares.length
  · have hne : ¬ event.Shares.length ≠ env.SignatureLength +
        PublicKeyLength * event.OperatorIds.length +
        encryptedKeyLength * event.OperatorIds.length := by omega
    refine ⟨⟨?_, fun h => absurd h hne⟩, fun h => absurd h hne⟩
    unfold handleValidatorAddedBody
    simp only [hGet, hNonce, hlen, ne_eq, not_true_eq_false, if_false]
    have hreg := registerValidatorShare_not_length_error env edh txn event
    repeat' (first | split | dsimp only)
    all_goals first
      | exact fun h => absurd h (by simp)
      | exact fun h => absurd h (hreg _ _)
  · have hne : event.Shares.length ≠ env.SignatureLength +
        PublicKeyLength * event.OperatorIds.length +
        encryptedKeyLength * event.OperatorIds.length := by omega
    have hbody : handleValidatorAddedBody env edh txn event =
        ⟨edh, txn, false,
          .returned (some (.malformed (.plain "event shares length is not correct")))⟩ := by
      unfold handleValidatorAddedBody
      simp only [hGet, hNonce, hlen, ne_eq, not_false_eq_true, if_true]
    exact ⟨⟨fun _ => hne, fun _ => by rw [hbody]⟩, fun _ => hbody⟩

/-- The deferred step never turns another result into the bare shares-length
error: what it returns is the error it was given, or a wrapped or joined one. -/
theorem validatorAddedDefer_length_error (env : HandlerEnv) (valid : Bool)
    (err : Option GoError) (event : ContractValidatorAdded) (txn : Txn)
    (h : (validatorAddedDefer env valid err event txn).2 =
      some (.malformed (.plain "event shares length is not correct"))) :
    err = some (.malformed (.plain "event shares length is not correct")) := by
  unfold validatorAddedDefer at h
  repeat' (first | split at h | dsimp only at h)
  all_goals first
    | exact h
    | exact absurd h (by simp)

/-- C15 (amended): for a ValidatorAdded event with N operator ids whose tx hash
is unprocessed, when the event-data and nonce lookups and the two deferred
storage writes succeed, `handleValidatorAdded` returns the malformed-event
error "shares length is not correct" if and only if the length of the shares
blob differs from `SignatureLength + 48 * N + 256 * N`, where
`SignatureLength` is the library constant `phase0.SignatureLength`. -/
theorem handleValidatorAdded_length_error_iff (env : HandlerEnv) (edh : EventDataHandler)
    (txn : Txn) (event : ContractValidatorAdded)
    (hnew : event.TxHash ∉ txn.events)
    (hget : env.faults.getEventData = false) (hnonce : env.faults.getNextNonce = false)
    (hsave : env.faults.saveEventData = false) (hbump : env.faults.bumpNonce = false) :
    (handleValidatorAdded env edh txn event).out =
        .returned (some (.malformed (.plain "event shares length is not correct"))) ↔
      event.Shares.length ≠ env.SignatureLength + 48 * event.OperatorIds.length +
        256 * event.OperatorIds.length := by
  obtain ⟨hiff, hbody⟩ := handleValidatorAddedBody_length_error_iff env edh txn event hnew hget
    hnonce
  simp only [PublicKeyLength, encryptedKeyLength] at hiff hbody
  constructor
  · intro h
    apply hiff.mp
    cases hout : (handleValidatorAddedBody env edh txn event).out with
    | returned err =>
      simp only [handleValidatorAdded, hout, Outcome.returned.injEq] at h
      rw [validatorAddedDefer_length_error env _ err event _ h]
    | panicked =>
      simp [handleValidatorAdded, hout] at h
  · intro hne
    have hb := hbody hne
    have hd := validatorAddedDefer_bookkeeping env false
      (some (.malformed (.plain "event shares length is not correct"))) event txn
      (by simp [errorsAsMalformed, GoError.isMalformed]) hsave hbump
    simp only [handleValidatorAdded, hb, hd]

set_option maxRecDepth 100000 in
/-- C15 (amended) at the sample event, whose library signature length is 96:
with a blob of 96 + 48 * 2 + 256 * 2 - 1 bytes the length error is returned. -/
theorem handleValidatorAdded_length_error_iff_witness :
    (handleValidatorAdded sampleEnv sampleHandler sampleTxn sampleAddedShort).out =
      .returned (some (.malformed (.plain "event shares length is not correct"))) :=
  (handleValidatorAdded_length_error_iff sampleEnv sampleHandler sampleTxn sampleAddedShort
    (by decide) rfl rfl rfl rfl).mpr (by decide)

set_option maxRecDepth 100000 in
/-- C15 as stated fails with the signature length of the BLS library, which is
96 bytes: the sample event with a blob of exactly 64 + 48 * 2 + 256 * 2 bytes
(tx hash unprocessed, nonce read, no storage failure) is rejected with the
shares-length error, and the sample event with a blob of 96 + 48 * 2 + 256 * 2
bytes, which is not 64 + 48 * 2 + 256 * 2, is not. -/
theorem handleValidatorAdded_length_error_counterexample :
    sampleEnv.SignatureLength = 96 ∧
    sampleAdded64.TxHash ∉ sampleTxn.events ∧
    sampleAdded64.Shares.length = 64 + 48 * sampleAdded64.OperatorIds.length +
      256 * sampleAdded64.OperatorIds.length ∧
    (handleValidatorAdded sampleEnv sampleHandler sampleTxn sampleAdded64).out =
      .returned (some (.malformed (.plain "event shares length is not correct"))) ∧
    sampleAdded.Shares.length ≠ 64 + 48 * sampleAdded.OperatorIds.length +
      256 * sampleAdded.OperatorIds.length ∧
    (handleValidatorAdded sampleEnv sampleHandler sampleTxn sampleAdded).out =
      .returned none := by
  decide

/-! ## Theorems: round trip of the shares blob -/

theorem length_flatten_of_chunks (l : List Bytes) (lim : Nat)
    (h : ∀ c ∈ l, c.length = lim) : l.flatten.length = l.length * lim := by
  induction l with
  | nil => simp
  | cons c rest ih =>
    have hc : c.length = lim := h c (List.mem_cons_self _ _)
    have hr := ih (fun x hx => h x (List.mem_cons_of_mem _ hx))
    simp only [List.flatten_cons, List.length_append, List.length_cons, hc, hr, Nat.succ_mul]
    omega

/-- Cutting the concatenation of chunks of `lim` bytes at the multiples of
`lim` gives the chunks back. -/
theorem chunks_of_flatten (lim : Nat) (l : List Bytes) (h : ∀ c ∈ l, c.length = lim) :
    (List.range l.length).map (fun i => (l.flatten.drop (i * lim)).take lim) = l := by
  induction l with
  | nil => simp
  | cons c rest ih =>
    have hc : c.length = lim := h c (List.mem_cons_self _ _)
    have hr := ih (fun x hx => h x (List.mem_cons_of_mem _ hx))
    rw [List.length_cons, List.range_succ_eq_map, List.map_cons, List.map_map]
    congr 1
    · simp only [Nat.zero_mul, List.drop_zero, List.flatten_cons]
      exact List.take_left' hc
    · conv_rhs => rw [← hr]
      apply List.map_congr_left
      intro i _
      simp only [Function.comp, List.flatten_cons, Nat.succ_mul]
      rw [Nat.add_comm (i * lim) lim, ← List.drop_drop, List.drop_left' hc]

theorem mem_dropLast_cons {α : Type} (a : α) (l : List α) (x : α)
    (h : x ∈ (a :: l).dropLast) : x = a ∨ x ∈ l.dropLast := by
  cases l with
  | nil => simp at h
  | cons b t =>
    rw [List.dropLast_cons_of_ne_nil (List.cons_ne_nil b t)] at h
    exact List.mem_cons.mp h

/-- For a positive chunk size and enough fuel the loop of `splitBytes` appends
chunks whose concatenation is the buffer and of which all but possibly the
last have the chunk size. -/
theorem splitBytesLoop_flatten (lim : Nat) (hlim : 0 < lim) :
    ∀ (fuel : Nat) (buf : Bytes) (chunks : List Bytes), buf.length ≤ fuel →
      ∃ cs, splitBytesLoop lim fuel buf chunks = chunks ++ cs ∧ cs.flatten = buf ∧
        ∀ c ∈ cs.dropLast, c.length = lim := by
  intro fuel
  induction fuel with
  | zero =>
    intro buf chunks hle
    have hnil : buf = [] := List.length_eq_zero.mp (by omega)
    subst hnil
    exact ⟨[], by simp [splitBytesLoop], rfl, by simp⟩
  | succ f ih =>
    intro buf chunks hle
    by_cases hge : lim ≤ buf.length
    · have hdrop : (buf.drop lim).length ≤ f := by
        rw [List.length_drop]; omega
      obtain ⟨cs, hcs, hflat, hall⟩ := ih (buf.drop lim) (chunks ++ [buf.take lim]) hdrop
      refine ⟨buf.take lim :: cs, ?_, ?_, ?_⟩
      · rw [splitBytesLoop, if_pos hge, hcs, List.append_assoc]
        rfl
      · rw [List.flatten_cons, hflat, List.take_append_drop]
      · intro c hc
        rcases mem_dropLast_cons _ _ _ hc with h1 | h2
        · rw [h1, List.length_take]
          omega
        · exact hall c h2
    · by_cases hpos : 0 < buf.length
      · exact ⟨[buf], by rw [splitBytesLoop, if_neg hge, if_pos hpos], by simp, by simp⟩
      · have hnil : buf = [] := List.length_eq_zero.mp (by omega)
        subst hnil
        exact ⟨[], by rw [splitBytesLoop, if_neg hge, if_neg hpos]; simp, rfl, by simp⟩

/-- C16: for N ≥ 1, a signature of the signature length, N share public keys of
48 bytes and N encrypted keys of 256 bytes, splitting the blob
sig ‖ pk_1 ‖ … ‖ pk_N ‖ ek_1 ‖ … ‖ ek_N the way `handleValidatorAdded` does
(the signature prefix, `splitBytes` of the middle part with chunk size 48,
`splitBytes` of the tail with chunk size len(tail)/N) returns exactly the
signature, the share public keys and the encrypted keys; and for every chunk
size lim ≥ 1 `splitBytes` returns chunks whose concatenation is the buffer
and of which every one but possibly the last has length lim. -/
theorem splitShares_round_trip (env : HandlerEnv) (sig : Bytes) (pks eks : List Bytes)
    (N : Nat) (hN : 1 ≤ N) (hsig : sig.length = env.SignatureLength)
    (hpl : pks.length = N) (hel : eks.length = N)
    (hpk : ∀ pk ∈ pks, pk.length = PublicKeyLength)
    (hek : ∀ ek ∈ eks, ek.length = encryptedKeyLength) :
    (sig ++ pks.flatten ++ eks.flatten).take env.SignatureLength = sig ∧
    splitBytes (((sig ++ pks.flatten ++ eks.flatten).drop env.SignatureLength).take
      (PublicKeyLength * N + env.SignatureLength - env.SignatureLength)) PublicKeyLength =
      some pks ∧
    splitBytes ((sig ++ pks.flatten ++ eks.flatten).drop
        (PublicKeyLength * N + env.SignatureLength))
      (((sig ++ pks.flatten ++ eks.flatten).drop
        (PublicKeyLength * N + env.SignatureLength)).length / N) = some eks ∧
    ∀ (buf : Bytes) (lim : Nat), 1 ≤ lim →
      ∃ chunks, splitBytes buf lim = some chunks ∧ chunks.flatten = buf ∧
        ∀ c ∈ chunks.dropLast, c.length = lim := by
  have hpf : pks.flatten.length = N * PublicKeyLength := by
    rw [length_flatten_of_chunks pks PublicKeyLength hpk, hpl]
  have hef : eks.flatten.length = N * encryptedKeyLength := by
    rw [length_flatten_of_chunks eks encryptedKeyLength hek, hel]
  have hmid : ((sig ++ pks.flatten ++ eks.flatten).drop env.SignatureLength).take
      (PublicKeyLength * N + env.SignatureLength - env.SignatureLength) = pks.flatten := by
    rw [List.append_assoc, List.drop_left' hsig, Nat.add_sub_cancel]
    exact List.take_left' (by rw [hpf, Nat.mul_comm])
  have htail : (sig ++ pks.flatten ++ eks.flatten).drop
      (PublicKeyLength * N + env.SignatureLength) = eks.flatten := by
    apply List.drop_left'
    rw [List.length_append, hsig, hpf, Nat.mul_comm]
    omega
  refine ⟨?_, ?_, ?_, ?_⟩
  · rw [List.append_assoc]
    exact List.take_left' hsig
  · rw [hmid, splitBytes_exact pks.flatten PublicKeyLength N (by decide) hpf, ← hpl,
      chunks_of_flatten PublicKeyLength pks hpk]
  · rw [htail, hef, Nat.mul_div_cancel_left _ (by omega : 0 < N),
      splitBytes_exact eks.flatten encryptedKeyLength N (by decide) hef, ← hel,
      chunks_of_flatten encryptedKeyLength eks hek]
  · intro buf lim hlim
    obtain ⟨cs, hcs, hflat, hall⟩ := splitBytesLoop_flatten lim hlim buf.length buf []
      (Nat.le_refl _)
    have hne : lim ≠ 0 := by omega
    exact ⟨cs, by simp [splitBytes, hne, hcs], hflat, hall⟩

set_option maxRecDepth 100000 in
/-- C16 at the parts of the sample blob: a signature of 96 bytes, the share
public keys of operators 1 and 2 and their encrypted keys. -/
theorem splitShares_round_trip_witness :
    sampleAdded.Shares.take 96 = 55 :: List.replicate 95 0 ∧
    splitBytes ((sampleAdded.Shares.drop 96).take (48 * 2 + 96 - 96)) 48 =
      some [List.replicate 48 4, List.replicate 48 5] ∧
    splitBytes (sampleAdded.Shares.drop (48 * 2 + 96))
      ((sampleAdded.Shares.drop (48 * 2 + 96)).length / 2) =
      some [List.replicate 256 0, 5 :: List.replicate 255 0] := by
  have h := splitShares_round_trip sampleEnv (55 :: List.replicate 95 0)
    [List.replicate 48 4, List.replicate 48 5]
    [List.replicate 256 0, 5 :: List.replicate 255 0] 2 (by decide) (by decide) rfl rfl
    (by decide) (by decide)
  exact ⟨h.1, h.2.1, h.2.2.1⟩

/-! ## Theorems: operator registration -/

/-- An `OperatorAdded` event whose public key is not the local node's key is
never rejected as malformed: with a working store it returns nil, whatever
operators the registry already holds under that key. -/
theorem handleOperatorAdded_other_key (env : HandlerEnv) (edh : EventDataHandler) (txn : Txn)
    (event : ContractOperatorAdded) (hkey : event.PublicKey ≠ edh.operatorData.PublicKey)
    (hsave : env.faults.saveOperatorData = false) :
    (handleOperatorAdded env edh txn event).out = .returned none := by
  have hk : ¬ edh.operatorData.PublicKey = event.PublicKey := fun h => hkey h.symm
  unfold handleOperatorAdded Txn.SaveOperatorData
  cases hget : operatorsGet txn.operators event.OperatorId <;>
    simp [hk, hsave, hkey, hget]

/-- C14 (evaluation at the failing input): on a node whose own operator key is
`[9]`, `OperatorAdded(1, [7])` followed by `OperatorAdded(3, [7])` are both
accepted and both persisted, so the registry holds two ids for the public key
`[7]`; for the node's own key `[9]` the second event is rejected with a
malformed-event error and nothing more is persisted. -/
theorem handleOperatorAdded_duplicate_key_accepted :
    (handleOperatorAdded sampleEnv sampleFreshHandler sampleTxn
      (sampleOperatorAdded 1 [7])).out = .returned none ∧
    (handleOperatorAdded sampleEnv
      (handleOperatorAdded sampleEnv sampleFreshHandler sampleTxn
        (sampleOperatorAdded 1 [7])).edh
      (handleOperatorAdded sampleEnv sampleFreshHandler sampleTxn
        (sampleOperatorAdded 1 [7])).txn
      (sampleOperatorAdded 3 [7])).out = .returned none ∧
    (handleOperatorAdded sampleEnv
      (handleOperatorAdded sampleEnv sampleFreshHandler sampleTxn
        (sampleOperatorAdded 1 [7])).edh
      (handleOperatorAdded sampleEnv sampleFreshHandler sampleTxn
        (sampleOperatorAdded 1 [7])).txn
      (sampleOperatorAdded 3 [7])).txn.operators =
      [⟨[7], 3, 1⟩, ⟨[7], 3, 3⟩] ∧
    (handleOperatorAdded sampleEnv sampleFreshHandler sampleTxn
      (sampleOperatorAdded 1 [9])).out = .returned none ∧
    handleOperatorAdded sampleEnv
      (handleOperatorAdded sampleEnv sampleFreshHandler sampleTxn
        (sampleOperatorAdded 1 [9])).edh
      (handleOperatorAdded sampleEnv sampleFreshHandler sampleTxn
        (sampleOperatorAdded 1 [9])).txn
      (sampleOperatorAdded 3 [9]) =
      ⟨(handleOperatorAdded sampleEnv sampleFreshHandler sampleTxn
          (sampleOperatorAdded 1 [9])).edh,
        (handleOperatorAdded sampleEnv sampleFreshHandler sampleTxn
          (sampleOperatorAdded 1 [9])).txn,
        .returned (some (.malformed
          (.plain "operator registered with the same operator public key")))⟩ := by
  decide

/-! ## Theorems: execution client -/

/-- After a head is processed without error, the next query of
`streamLogsToChan` starts at the block number of that head itself. -/
theorem streamLoop_head_then_head (ec : ExecutionClient) (st : StreamState) (h1 h2 : Nat)
    (rest : List StreamEvent) (logs1 : List Log)
    (hq1 : ec.client.FilterLogs ⟨st.fromBlock, h1⟩ = .ok logs1) :
    streamLoop ec (.head h1 :: .head h2 :: rest) st =
      streamLoop ec (.head h2 :: rest)
        { fromBlock := h1 % 2 ^ 64, queries := st.queries ++ [⟨st.fromBlock, h1⟩],
          forwarded := st.forwarded ++ logs1 } ∧
    ∀ logs2, ec.client.FilterLogs ⟨h1 % 2 ^ 64, h2⟩ = .ok logs2 →
      streamLoop ec (.head h1 :: .head h2 :: rest) st =
        streamLoop ec rest
          { fromBlock := h2 % 2 ^ 64,
            queries := st.queries ++ [⟨st.fromBlock, h1⟩] ++ [⟨h1 % 2 ^ 64, h2⟩],
            forwarded := st.forwarded ++ logs1 ++ logs2 } := by
  constructor
  · rw [streamLoop]
    simp only [hq1]
  · intro logs2 hq2
    rw [streamLoop]
    simp only [hq1]
    rw [streamLoop]
    simp only [hq2]

/-- C11 (evaluation at the failing input): streaming from block 5 on the sample
chain, the heads 10 and 12 are processed without error; the query for the
second head is [10, 12] and not [11, 12], so block 10 is queried twice and its
log is sent to the channel twice. -/
theorem streamLogsToChan_overlapping_ranges :
    (streamLogsToChan (sampleExecutionClient 12 0) none [.head 10, .head 12]
      ⟨5, [], []⟩).2 = none ∧
    (streamLogsToChan (sampleExecutionClient 12 0) none [.head 10, .head 12]
      ⟨5, [], []⟩).1.queries = [⟨5, 10⟩, ⟨10, 12⟩] ∧
    (streamLogsToChan (sampleExecutionClient 12 0) none [.head 10, .head 12]
      ⟨5, [], []⟩).1.forwarded = [⟨5, 0⟩, ⟨10, 0⟩, ⟨10, 0⟩, ⟨12, 0⟩] := by
  decide

/-- When `streamLogsToChan` fails before any head is processed, it returns its
own from-block as the last block, and `StreamLogs` starts the next attempt
one block later. -/
theorem StreamLogsLoop_failed_subscription (ec : ExecutionClient) (e : GoError)
    (events : List StreamEvent) (rest : List StreamAttempt) (tr : StreamTrace) :
    StreamLogsLoop ec (⟨some e, events, true⟩ :: rest) tr =
      StreamLogsLoop ec rest
        { tr with starts := tr.starts ++ [tr.state.fromBlock],
                  state := { tr.state with fromBlock := (tr.state.fromBlock + 1) % 2 ^ 64 } } := by
  rw [StreamLogsLoop]
  simp [streamLogsToChan]

/-- C12 (evaluation at the failing input): `StreamLogs` from block 5 on the
sample chain, whose first attempt fails at the head subscription and whose
second attempt receives the head 10. The second attempt starts from block 6
and not from block 5, its query is [6, 10], and the log of block 5, never
fetched, is never sent to the channel. After an attempt that did process the
head 10, the next attempt starts from block 11. -/
theorem StreamLogs_skips_block_after_failed_subscription :
    (StreamLogs (sampleExecutionClient 12 0) 5
      [⟨some (.plain "dial"), [], true⟩, ⟨none, [.head 10], true⟩]).starts = [5, 6] ∧
    (StreamLogs (sampleExecutionClient 12 0) 5
      [⟨some (.plain "dial"), [], true⟩, ⟨none, [.head 10], true⟩]).state.queries =
      [⟨6, 10⟩] ∧
    (StreamLogs (sampleExecutionClient 12 0) 5
      [⟨some (.plain "dial"), [], true⟩, ⟨none, [.head 10], true⟩]).state.forwarded =
      [⟨10, 0⟩] ∧
    (⟨5, 0⟩ : Log) ∈ sampleChainLogs ∧
    (StreamLogs (sampleExecutionClient 12 0) 5
      [⟨none, [.head 10, .subscriptionErr (.plain "closed")], true⟩,
       ⟨none, [], true⟩]).starts = [5, 11] := by
  decide

/-- When the finalization offset does not exceed the current head, a successful
`FetchHistoricalLogs` queries up to, and returns as last block, the head minus
the offset, which does not exceed the head. -/
theorem FetchHistoricalLogs_no_underflow (ec : ExecutionClient) (fromBlock currentBlock : Nat)
    (logs : List Log) (hcur : ec.client.BlockNumber = .ok currentBlock)
    (hlt : currentBlock < 2 ^ 64) (hoff : ec.finalizationOffset ≤ currentBlock)
    (hq : ec.client.FilterLogs ⟨fromBlock, currentBlock - ec.finalizationOffset⟩ = .ok logs) :
    FetchHistoricalLogs ec fromBlock = .ok (logs, currentBlock - ec.finalizationOffset) ∧
    currentBlock - ec.finalizationOffset ≤ currentBlock := by
  have hsub : subUint64 currentBlock ec.finalizationOffset =
      currentBlock - ec.finalizationOffset := by
    unfold subUint64
    omega
  have hmod : (currentBlock - ec.finalizationOffset) % 2 ^ 64 =
      currentBlock - ec.finalizationOffset := by omega
  refine ⟨?_, by omega⟩
  simp only [FetchHistoricalLogs, hcur, historicalQuery, hsub, hq, hmod]

/-- C13 (evaluation at the failing input): with the current head at block 10 and
a finalization offset of 64, `FetchHistoricalLogs` succeeds, queries the range
from block 0 up to 2^64 - 54 and returns 2^64 - 54 as the last block, which
exceeds the current head: the subtraction wraps around instead of being
clamped. -/
theorem FetchHistoricalLogs_wraps_around :
    FetchHistoricalLogs (sampleExecutionClient 10 64) 0 =
      .ok ([⟨5, 0⟩, ⟨10, 0⟩, ⟨12, 0⟩], 2 ^ 64 - 54) ∧
    historicalQuery (sampleExecutionClient 10 64) 10 0 = ⟨0, 2 ^ 64 - 54⟩ ∧
    ¬ (2 ^ 64 - 54 ≤ 10) :=
  ⟨rfl, rfl, by decide⟩

/-! ## Theorems: reorg detection on head events -/

/-- C19: for a head event for the estimated current slot that falls in the epoch
of the last recorded head (a non-zero epoch), while both stored dependent
roots are non-zero, `HandleHeadEvent` sends `Reorg{slot, Previous}` exactly
when the event's previous dependent root differs from the stored one, then
`Reorg{slot, Current}` exactly when the event's current dependent root
differs from the stored one, and nothing else; an unchanged previous root
with a changed current root gives exactly the one event
`Reorg{slot, Current=true, Previous=false}`; afterwards the stored roots are
the event's roots. -/
theorem HandleHeadEvent_same_epoch (net : BeaconNetwork) (s : Scheduler) (data : HeadEvent)
    (hslot : data.Slot = net.EstimatedCurrentSlot)
    (hepoch : net.EstimatedEpochAtSlot data.Slot = s.lastBlockEpoch)
    (hlast : s.lastBlockEpoch ≠ 0)
    (hprev : s.previousDutyDependentRoot ≠ zeroRoot)
    (hcur : s.currentDutyDependentRoot ≠ zeroRoot) :
    (HandleHeadEvent net s (some data)).2 =
      (if s.previousDutyDependentRoot ≠ data.PreviousDutyDependentRoot then
        [{ Slot := data.Slot, Previous := true, Current := false }] else []) ++
      (if s.currentDutyDependentRoot ≠ data.CurrentDutyDependentRoot then
        [{ Slot := data.Slot, Previous := false, Current := true }] else []) ∧
    (s.previousDutyDependentRoot = data.PreviousDutyDependentRoot →
      s.currentDutyDependentRoot ≠ data.CurrentDutyDependentRoot →
      (HandleHeadEvent net s (some data)).2 =
        [{ Slot := data.Slot, Previous := false, Current := true }]) ∧
    (HandleHeadEvent net s (some data)).1.previousDutyDependentRoot =
      data.PreviousDutyDependentRoot ∧
    (HandleHeadEvent net s (some data)).1.currentDutyDependentRoot =
      data.CurrentDutyDependentRoot := by
  have hsent : (HandleHeadEvent net s (some data)).2 =
      reorgEvents s (net.EstimatedEpochAtSlot data.Slot) data := by
    simp only [HandleHeadEvent, hslot, ne_eq, not_true_eq_false, if_false]
    split <;> rfl
  have hnot : ¬ s.lastBlockEpoch > s.lastBlockEpoch := Nat.lt_irrefl _
  have hre : reorgEvents s (net.EstimatedEpochAtSlot data.Slot) data =
      (if s.previousDutyDependentRoot ≠ data.PreviousDutyDependentRoot then
        [{ Slot := data.Slot, Previous := true, Current := false }] else []) ++
      (if s.currentDutyDependentRoot ≠ data.CurrentDutyDependentRoot then
        [{ Slot := data.Slot, Previous := false, Current := true }] else []) := by
    simp only [reorgEvents, hepoch, hlast, hnot, hprev, hcur, ne_eq, not_false_eq_true,
      true_and, if_true, if_false]
  refine ⟨by rw [hsent, hre], ?_, ?_, ?_⟩
  · intro h1 h2
    rw [hsent, hre]
    simp [h1, h2]
  · simp only [HandleHeadEvent, hslot, ne_eq, not_true_eq_false, if_false]
    split <;> rfl
  · simp only [HandleHeadEvent, hslot, ne_eq, not_true_eq_false, if_false]
    split <;> rfl

/-- C19 at the sample network: the stored roots are `0xPP…` and `0xCC…`, the
head event for the current slot 128 (epoch 4, as the last head) carries the
same previous root and the current root `0xDD…`. -/
theorem HandleHeadEvent_same_epoch_witness :
    (HandleHeadEvent sampleNetwork
      { sampleScheduler (sampleRoot 0xAA) (sampleRoot 0xCC) with lastBlockEpoch := 4 }
      (some ⟨128, sampleRoot 0xAA, sampleRoot 0xDD⟩)).2 = [⟨128, false, true⟩] :=
  (HandleHeadEvent_same_epoch sampleNetwork
    { sampleScheduler (sampleRoot 0xAA) (sampleRoot 0xCC) with lastBlockEpoch := 4 }
    ⟨128, sampleRoot 0xAA, sampleRoot 0xDD⟩ rfl rfl (by decide) (by decide) (by decide)).2.1
    rfl (by decide)

/-- On a change of epoch `HandleHeadEvent` sends one event
`Reorg{slot, Previous=true}` when the stored previous dependent root is
non-zero and the stored current dependent root differs from the event's
previous dependent root, and nothing otherwise: the zero-root guard reads the
stored previous root. -/
theorem HandleHeadEvent_epoch_change_sent (net : BeaconNetwork) (s : Scheduler)
    (data : HeadEvent) (hslot : data.Slot = net.EstimatedCurrentSlot)
    (hepoch : net.EstimatedEpochAtSlot data.Slot > s.lastBlockEpoch)
    (hlast : s.lastBlockEpoch ≠ 0) :
    (HandleHeadEvent net s (some data)).2 =
      if s.previousDutyDependentRoot ≠ zeroRoot ∧
          s.currentDutyDependentRoot ≠ data.PreviousDutyDependentRoot then
        [{ Slot := data.Slot, Previous := true, Current := false }]
      else [] := by
  have hsent : (HandleHeadEvent net s (some data)).2 =
      reorgEvents s (net.EstimatedEpochAtSlot data.Slot) data := by
    simp only [HandleHeadEvent, hslot, ne_eq, not_true_eq_false, if_false]
    split <;> rfl
  rw [hsent]
  simp only [reorgEvents, hlast, hepoch, ne_eq, not_false_eq_true, if_true]

/-- C20 (amended): for a head event for the estimated current slot whose epoch is
greater than the last recorded, non-zero epoch, when the stored previous and
current dependent roots are both zero or both non-zero, `HandleHeadEvent`
sends exactly one event `Reorg{slot, Previous=true}` when the stored current
dependent root is non-zero and differs from the event's previous dependent
root, and sends no reorg event when those two roots are equal or when the
stored current dependent root is the zero root. -/
theorem HandleHeadEvent_epoch_change (net : BeaconNetwork) (s : Scheduler) (data : HeadEvent)
    (hslot : data.Slot = net.EstimatedCurrentSlot)
    (hepoch : net.EstimatedEpochAtSlot data.Slot > s.lastBlockEpoch)
    (hlast : s.lastBlockEpoch ≠ 0)
    (hboth : s.previousDutyDependentRoot = zeroRoot ↔ s.currentDutyDependentRoot = zeroRoot) :
    (HandleHeadEvent net s (some data)).2 =
      if s.currentDutyDependentRoot ≠ zeroRoot ∧
          s.currentDutyDependentRoot ≠ data.PreviousDutyDependentRoot then
        [{ Slot := data.Slot, Previous := true, Current := false }]
      else [] := by
  rw [HandleHeadEvent_epoch_change_sent net s data hslot hepoch hlast]
  by_cases hz : s.currentDutyDependentRoot = zeroRoot
  · simp [hz, hboth.mpr hz]
  · have hp : ¬ s.previousDutyDependentRoot = zeroRoot := fun h => hz (hboth.mp h)
    simp [hz, hp]

/-- C20 (amended) at the sample network: the last head was in epoch 3, the head
event for slot 128 is in epoch 4, both stored roots are non-zero and the
stored current root `0xCC…` differs from the event's previous root `0xDD…`. -/
theorem HandleHeadEvent_epoch_change_witness :
    (HandleHeadEvent sampleNetwork (sampleScheduler (sampleRoot 0xAA) (sampleRoot 0xCC))
      (some ⟨128, sampleRoot 0xDD, sampleRoot 0xEE⟩)).2 = [⟨128, true, false⟩] :=
  (HandleHeadEvent_epoch_change sampleNetwork
    (sampleScheduler (sampleRoot 0xAA) (sampleRoot 0xCC))
    ⟨128, sampleRoot 0xDD, sampleRoot 0xEE⟩ rfl (by decide) (by decide)
    (by decide)).trans (by decide)

/-- C20 as stated fails when exactly one of the stored roots is the zero root,
because the zero-root guard is on the stored previous root. With the stored
previous root zero and the stored current root `0xCC…` (non-zero, different
from the event's previous root `0xDD…`) no reorg event is sent, where the
claim asks for one; with the stored previous root `0xAA…` and the stored
current root zero, one reorg event is sent, where the claim asks for none. -/
theorem HandleHeadEvent_epoch_change_counterexample :
    sampleNetwork.EstimatedEpochAtSlot 128 >
      (sampleScheduler zeroRoot (sampleRoot 0xCC)).lastBlockEpoch ∧
    sampleRoot 0xCC ≠ zeroRoot ∧ sampleRoot 0xCC ≠ sampleRoot 0xDD ∧
    (HandleHeadEvent sampleNetwork (sampleScheduler zeroRoot (sampleRoot 0xCC))
      (some ⟨128, sampleRoot 0xDD, sampleRoot 0xEE⟩)).2 = [] ∧
    (HandleHeadEvent sampleNetwork (sampleScheduler (sampleRoot 0xAA) zeroRoot)
      (some ⟨128, sampleRoot 0xDD, sampleRoot 0xEE⟩)).2 = [⟨128, true, false⟩] := by
  decide

/-! ## Theorems: failures of the deferred bookkeeping -/

/-- When the body failed with an error `e` and marking the transaction hash
fails, the deferred call returns the join of the storage error and `e`, which
`errors.As` classifies exactly as it classifies `e`. -/
theorem validatorAddedDefer_save_failure (env : HandlerEnv) (valid : Bool) (e : GoError)
    (event : ContractValidatorAdded) (txn : Txn)
    (hrun : valid = true ∨ e.isMalformed = true) (hf : env.faults.saveEventData = true) :
    validatorAddedDefer env valid (some e) event txn =
      (txn, some (.join (.wrap "could not save event data" (.plain "save event data")) e)) ∧
    errorsAsMalformed (validatorAddedDefer env valid (some e) event txn).2 = e.isMalformed := by
  have h : (valid || errorsAsMalformed (some e)) = true := by
    rcases hrun with h | h <;> simp [errorsAsMalformed, h]
  have heq : validatorAddedDefer env valid (some e) event txn =
      (txn, some (.join (.wrap "could not save event data" (.plain "save event data")) e)) := by
    unfold validatorAddedDefer
    rw [if_pos h]
    simp [Txn.SaveEventData, hf]
  refine ⟨heq, ?_⟩
  rw [heq]
  simp [errorsAsMalformed, GoError.isMalformed]

/-- When the body failed with an error `e`, the hash is marked and bumping the
nonce fails, the deferred call returns the join of the storage error and `e`,
which `errors.As` classifies exactly as it classifies `e`. -/
theorem validatorAddedDefer_bump_failure (env : HandlerEnv) (valid : Bool) (e : GoError)
    (event : ContractValidatorAdded) (txn : Txn)
    (hrun : valid = true ∨ e.isMalformed = true) (hs : env.faults.saveEventData = false)
    (hf : env.faults.bumpNonce = true) :
    validatorAddedDefer env valid (some e) event txn =
      ({ txn with events := event.TxHash :: txn.events },
        some (.join (.wrap "failed to bump the nonce" (.plain "bump nonce")) e)) ∧
    errorsAsMalformed (validatorAddedDefer env valid (some e) event txn).2 = e.isMalformed := by
  have h : (valid || errorsAsMalformed (some e)) = true := by
    rcases hrun with h | h <;> simp [errorsAsMalformed, h]
  have heq : validatorAddedDefer env valid (some e) event txn =
      ({ txn with events := event.TxHash :: txn.events },
        some (.join (.wrap "failed to bump the nonce" (.plain "bump nonce")) e)) := by
    unfold validatorAddedDefer
    rw [if_pos h]
    simp [Txn.SaveEventData, Txn.BumpNonce, hs, hf]
  refine ⟨heq, ?_⟩
  rw [heq]
  simp [errorsAsMalformed, GoError.isMalformed]

/-- When the body succeeded, a storage failure of the deferred call is returned
alone and is not a malformed-event error. -/
theorem validatorAddedDefer_failure_after_success (env : HandlerEnv)
    (event : ContractValidatorAdded) (txn : Txn)
    (hf : env.faults.saveEventData = true ∨ env.faults.bumpNonce = true) :
    errorsAsMalformed (validatorAddedDefer env true none event txn).2 = false ∧
    (validatorAddedDefer env true none event txn).2 ≠ none := by
  rcases hf with hf | hf
  · simp [validatorAddedDefer, Txn.SaveEventData, hf, errorsAsMalformed, GoError.isMalformed]
  · cases hs : env.faults.saveEventData <;>
      simp [validatorAddedDefer, Txn.SaveEventData, Txn.BumpNonce, hs, hf, errorsAsMalformed,
        GoError.isMalformed]

set_option maxRecDepth 100000 in
/-- C27 (evaluation at the failing input): for the sample event whose shares
blob is one byte short, the body fails with a malformed-event error; when
marking the transaction hash fails, `handleValidatorAdded` returns the join of
the storage error and the malformed-event error, in which `errors.As` still
finds the malformed-event error, while the hash is not marked and the nonce is
not bumped; the same holds when bumping the nonce fails, with the hash marked
and the nonce not bumped. -/
theorem handleValidatorAdded_storage_failure_classified_malformed :
    (handleValidatorAdded (sampleEnvWith faultsSaveEventData) sampleHandler sampleTxn
      sampleAddedShort).out =
      .returned (some (.join (.wrap "could not save event data" (.plain "save event data"))
        (.malformed (.plain "event shares length is not correct")))) ∧
    errorsAsMalformed (some (.join (.wrap "could not save event data" (.plain "save event data"))
        (.malformed (.plain "event shares length is not correct")))) = true ∧
    (handleValidatorAdded (sampleEnvWith faultsSaveEventData) sampleHandler sampleTxn
      sampleAddedShort).txn = sampleTxn ∧
    (handleValidatorAdded (sampleEnvWith faultsBumpNonce) sampleHandler sampleTxn
      sampleAddedShort).out =
      .returned (some (.join (.wrap "failed to bump the nonce" (.plain "bump nonce"))
        (.malformed (.plain "event shares length is not correct")))) ∧
    errorsAsMalformed (some (.join (.wrap "failed to bump the nonce" (.plain "bump nonce"))
        (.malformed (.plain "event shares length is not correct")))) = true ∧
    (handleValidatorAdded (sampleEnvWith faultsBumpNonce) sampleHandler sampleTxn
      sampleAddedShort).txn = { sampleTxn with events := [100] } := by
  refine ⟨?_, ?_, ?_, ?_, ?_, ?_⟩ <;> decide

/-! ## Theorems: panics of the ValidatorAdded handler -/

/-- The loop of `validatorAddedEventToShare` does not index out of range when
both lists have an entry for every operator id still to visit. -/
theorem eventToShareLoop_no_panic (env : HandlerEnv) (od : OperatorData)
    (pks eks : List Bytes) :
    ∀ (ids : List OpId) (i : Nat) (st : ShareBuild),
      i + ids.length ≤ pks.length → i + ids.length ≤ eks.length →
      eventToShareLoop env od pks eks ids i st ≠ .panic := by
  intro ids
  induction ids with
  | nil => intro i st _ _; simp [eventToShareLoop]
  | cons id rest ih =>
    intro i st hp he
    simp only [List.length_cons] at hp he
    have hip : i < pks.length := by omega
    have hie : i < eks.length := by omega
    have ih1 := fun st1 => ih (i + 1) st1 (by omega) (by omega)
    unfold eventToShareLoop
    rw [List.getElem?_eq_getElem hip, List.getElem?_eq_getElem hie]
    dsimp only
    repeat' (first | split | dsimp only)
    all_goals first
      | exact ih1 _
      | exact fun h => Res.noConfusion h

/-- The function `validatorAddedEventToShare` does not panic when both lists
have an entry for every operator id of the event. -/
theorem validatorAddedEventToShare_no_panic (env : HandlerEnv) (event : ContractValidatorAdded)
    (od : OperatorData) (pks eks : List Bytes)
    (hp : event.OperatorIds.length ≤ pks.length) (he : event.OperatorIds.length ≤ eks.length) :
    validatorAddedEventToShare env event od pks eks ≠ .panic := by
  unfold validatorAddedEventToShare
  cases env.DeserializeBLSPublicKey event.PublicKey with
  | none => simp
  | some k =>
    dsimp only
    have h := eventToShareLoop_no_panic env od pks eks event.OperatorIds 0
      ⟨{ SSVShare.zero with ValidatorPubKey := env.pkSerialize k, OwnerAddress := event.Owner },
        [], none⟩ (by omega) (by omega)
    cases hl : eventToShareLoop env od pks eks event.OperatorIds 0
      ⟨{ SSVShare.zero with ValidatorPubKey := env.pkSerialize k, OwnerAddress := event.Owner },
        [], none⟩ with
    | panic => exact absurd hl h
    | err e => simp
    | ok st => simp

/-- Saving a created share does not panic. -/
theorem saveCreatedShare_no_panic (env : HandlerEnv) (edh : EventDataHandler) (txn : Txn)
    (share : SSVShare) : (saveCreatedShare env edh txn share).2.2 ≠ .panic := by
  unfold saveCreatedShare Txn.SaveShares
  split <;> simp

/-- The method `handleShareCreation` does not panic when both lists have an
entry for every operator id of the event. -/
theorem handleShareCreation_no_panic (env : HandlerEnv) (edh : EventDataHandler) (txn : Txn)
    (event : ContractValidatorAdded) (pks eks : List Bytes)
    (hp : event.OperatorIds.length ≤ pks.length) (he : event.OperatorIds.length ≤ eks.length) :
    (handleShareCreation env edh txn event pks eks).2.2 ≠ .panic := by
  have h := validatorAddedEventToShare_no_panic env event edh.operatorData pks eks hp he
  unfold handleShareCreation
  cases hv : validatorAddedEventToShare env event edh.operatorData pks eks with
  | panic => exact absurd hv h
  | err e => simp
  | ok r =>
    obtain ⟨share, secret⟩ := r
    dsimp only
    repeat' (first | split | dsimp only)
    all_goals first
      | exact saveCreatedShare_no_panic _ _ _ _
      | exact fun h => Res.noConfusion h

/-- The last part of the body of `handleValidatorAdded` does not panic when
both lists have an entry for every operator id of the event. -/
theorem registerValidatorShare_no_panic (env : HandlerEnv) (edh : EventDataHandler) (txn : Txn)
    (event : ContractValidatorAdded) (pks eks : List Bytes)
    (hp : event.OperatorIds.length ≤ pks.length) (he : event.OperatorIds.length ≤ eks.length) :
    (registerValidatorShare env edh txn event pks eks).out ≠ .panicked := by
  have h := handleShareCreation_no_panic env edh txn event pks eks hp he
  unfold registerValidatorShare
  cases sharesGet edh.shares event.PublicKey with
  | some s => dsimp only; split <;> simp
  | none =>
    dsimp only
    rcases hc : handleShareCreation env edh txn event pks eks with ⟨edh1, txn1, r⟩
    rw [hc] at h
    cases r with
    | panic => exact absurd rfl h
    | err e => simp
    | ok s => simp

/-- With at least one operator id, the body of `handleValidatorAdded` neither
divides by zero nor indexes out of range: it returns. -/
theorem handleValidatorAddedBody_no_panic (env : HandlerEnv) (edh : EventDataHandler)
    (txn : Txn) (event : ContractValidatorAdded) (hops : event.OperatorIds ≠ []) :
    (handleValidatorAddedBody env edh txn event).out ≠ .panicked := by
  have hN : event.OperatorIds.length ≠ 0 := by
    intro h; exact hops (List.length_eq_zero.mp h)
  unfold handleValidatorAddedBody
  cases txn.GetEventData env.faults event.TxHash with
  | error e => simp
  | ok o =>
    cases o with
    | some u => simp
    | none =>
      cases txn.GetNextNonce env.faults event.Owner with
      | error e => simp
      | ok nonce =>
        dsimp only
        by_cases hlen1 : encryptedKeyLength * event.OperatorIds.length +
            (PublicKeyLength * event.OperatorIds.length + env.SignatureLength) =
            event.Shares.length
        · obtain ⟨pks, hpks, hpl, _⟩ := sharePublicKeys_split env event hlen1
          obtain ⟨eks, heks, hel, _⟩ := encryptedKeys_split env event hN hlen1
          have hreg := registerValidatorShare_no_panic env edh txn event pks eks
            (by omega) (by omega)
          simp only [hlen1, hpks, heks, hN, ne_eq, not_true_eq_false, if_false]
          cases verifySignature env (event.Shares.take env.SignatureLength) event.Owner
            event.PublicKey nonce with
          | some e => simp
          | none => exact hreg
        · simp [hlen1]

/-- With at least one operator id `handleValidatorAdded` returns. -/
theorem handleValidatorAdded_no_panic (env : HandlerEnv) (edh : EventDataHandler)
    (txn : Txn) (event : ContractValidatorAdded) (hops : event.OperatorIds ≠ []) :
    (handleValidatorAdded env edh txn event).out ≠ .panicked := by
  have h := handleValidatorAddedBody_no_panic env edh txn event hops
  cases hout : (handleValidatorAddedBody env edh txn event).out with
  | returned err => simp [handleValidatorAdded, hout]
  | panicked => exact absurd hout h

/-- With no operator ids and a shares blob that holds exactly the signature,
an event whose transaction hash and nonce can be read reaches the division
`len(event.Shares[pubKeysOffset:])/operatorCount` with `operatorCount = 0`:
the handler panics. -/
theorem handleValidatorAdded_panics_without_operators (env : HandlerEnv)
    (edh : EventDataHandler) (txn : Txn) (event : ContractValidatorAdded)
    (hops : event.OperatorIds = []) (hlen : event.Shares.length = env.SignatureLength)
    (hnew : event.TxHash ∉ txn.events) (hget : env.faults.getEventData = false)
    (hnonce : env.faults.getNextNonce = false) :
    (handleValidatorAdded env edh txn event).out = .panicked := by
  have hbody : (handleValidatorAddedBody env edh txn event).out = .panicked := by
    unfold handleValidatorAddedBody
    simp [Txn.GetEventData, Txn.GetNextNonce, hget, hnonce, hnew, hops, hlen, splitBytes,
      PublicKeyLength]
  simp [handleValidatorAdded, hbody]

set_option maxRecDepth 100000 in
/-- C28 (evaluation at the failing input): for the sample event with an empty
list of operator ids and a shares blob of exactly the 96 signature bytes, the
length check passes and `handleValidatorAdded` reaches the chunk-size division
with `operatorCount = 0` and panics; the transaction is left as it was. -/
theorem handleValidatorAdded_zero_operators_panics :
    sampleAddedNoOperators.OperatorIds.length = 0 ∧
    encryptedKeyLength * sampleAddedNoOperators.OperatorIds.length +
      (PublicKeyLength * sampleAddedNoOperators.OperatorIds.length + sampleEnv.SignatureLength) =
      sampleAddedNoOperators.Shares.length ∧
    (handleValidatorAddedBody sampleEnv sampleHandler sampleTxn sampleAddedNoOperators).out =
      .panicked ∧
    (handleValidatorAdded sampleEnv sampleHandler sampleTxn sampleAddedNoOperators).out =
      .panicked ∧
    (handleValidatorAdded sampleEnv sampleHandler sampleTxn sampleAddedNoOperators).txn =
      sampleTxn := by
  refine ⟨?_, ?_, ?_, ?_, ?_⟩ <;> decide


/-! ## Theorems: the estimated round -/

/-- The difference of two times that fits a duration is not saturated. -/
theorem timeSub_of_range (t u : Int) (h1 : -(2 ^ 63) ≤ t - u) (h2 : t - u ≤ 2 ^ 63 - 1) :
    timeSub t u = t - u := by
  unfold timeSub
  omega

/-- A value in the range of `int64` is not changed by wrapping. -/
theorem wrapInt64_of_range (x : Int) (h1 : -(2 ^ 63) ≤ x) (h2 : x < 2 ^ 63) :
    wrapInt64 x = x := by
  unfold wrapInt64
  omega

/-- A non-negative duration below `2 ^ 64` converts to the same number of rounds. -/
theorem toRound_natCast (n : Nat) (h : n < 2 ^ 64) : toRound (n : Int) = n := by
  unfold toRound
  omega

/-- Truncating division of non-negative durations is the division of naturals. -/
theorem tdiv_natCast (a b : Nat) : Int.tdiv (a : Int) (b : Int) = ((a / b : Nat) : Int) := by
  rw [Int.tdiv_eq_ediv (Int.ofNat_nonneg a) (Int.ofNat_nonneg b)]
  norm_cast

/-- From the start of the first round on, `e` nanoseconds after it, the
estimated round is `1 + e / QuickTimeout` while that is at most the quick
timeout threshold, and `QuickTimeoutThreshold + 1 +
(e - QuickTimeoutThreshold * QuickTimeout) / SlowTimeout` afterwards. -/
theorem currentEstimatedRound_after_start (env : ValidationEnv) (role : BeaconRole)
    (slot : Nat) (receivedAt wait : Int) (e q s : Nat)
    (hw : waitAfterSlotStart env role = some wait)
    (hq : env.QuickTimeout = q) (hs : env.SlowTimeout = s) (hq0 : 0 < q)
    (he : receivedAt = env.GetSlotStartTime slot + wait + e) (hlt : e < 2 ^ 63)
    (hthr : env.QuickTimeoutThreshold * q < 2 ^ 63) :
    currentEstimatedRound env role slot receivedAt =
      some (if 1 + e / q ≤ env.QuickTimeoutThreshold then 1 + e / q
        else env.QuickTimeoutThreshold + 1 + (e - env.QuickTimeoutThreshold * q) / s) := by
  have hdiv : e / q < 2 ^ 63 := lt_of_le_of_lt (Nat.div_le_self e q) hlt
  have hT : env.QuickTimeoutThreshold < 2 ^ 63 :=
    lt_of_le_of_lt (Nat.le_mul_of_pos_right _ hq0) hthr
  have h1 : timeSub receivedAt (env.GetSlotStartTime slot + wait) = (e : Int) := by
    rw [timeSub_of_range _ _ (by omega) (by omega)]
    omega
  have hquick : (1 + toRound (Int.tdiv (e : Int) (q : Int))) % 2 ^ 64 = 1 + e / q := by
    rw [tdiv_natCast, toRound_natCast _ (by omega)]
    exact Nat.mod_eq_of_lt (by omega)
  unfold currentEstimatedRound
  simp only [hw, h1, hq, hs, hquick]
  by_cases hc : 1 + e / q ≤ env.QuickTimeoutThreshold
  · simp only [hc, if_true]
  · simp only [hc, if_false]
    have hge : env.QuickTimeoutThreshold * q ≤ e := by
      have h2 : env.QuickTimeoutThreshold ≤ e / q := by omega
      exact (Nat.le_div_iff_mul_le hq0).mp h2
    have hw1 : wrapInt64 ((env.QuickTimeoutThreshold : Nat) : Int) =
        (env.QuickTimeoutThreshold : Int) := wrapInt64_of_range _ (by omega) (by omega)
    have hTq : (env.QuickTimeoutThreshold : Int) * (q : Int) =
        ((env.QuickTimeoutThreshold * q : Nat) : Int) := by
      push_cast
      rfl
    have hw2 : wrapInt64 ((env.QuickTimeoutThreshold : Int) * (q : Int)) =
        ((env.QuickTimeoutThreshold * q : Nat) : Int) := by
      rw [hTq]
      exact wrapInt64_of_range _ (by omega) (by omega)
    rw [hw1, hw2]
    clear hw1 hw2 hTq hquick h1 hc
    generalize env.QuickTimeoutThreshold * q = p at hge hthr ⊢
    have h3 : timeSub receivedAt (env.GetSlotStartTime slot + wait + (p : Int)) =
        ((e - p : Nat) : Int) := by
      rw [timeSub_of_range _ _ (by omega) (by omega)]
      omega
    have hsdiv : (e - p) / s < 2 ^ 63 :=
      lt_of_le_of_lt (Nat.div_le_self _ s) (by omega)
    rw [h3, tdiv_natCast, toRound_natCast _ (by omega)]
    exact congrArg some (Nat.mod_eq_of_lt (by omega))

/-- C30 (evaluation at the failing input): with slots of 12 s, quick rounds of
2 s up to round 8 and slow rounds of 120 s, the first round of an attester
message of slot 5 starts at 64 s. A message received at 64 s is estimated to
be in round 1; one received at 61 s, before that start, in round 0, which is
below 1; one received still earlier, at 60 s, in round 9, later than the
round of both later messages. -/
theorem currentEstimatedRound_before_first_round :
    waitAfterSlotStart sampleValidationEnv .BNRoleAttester = some 4000000000 ∧
    sampleValidationEnv.GetSlotStartTime 5 = 60000000000 ∧
    currentEstimatedRound sampleValidationEnv .BNRoleAttester 5 64000000000 = some 1 ∧
    currentEstimatedRound sampleValidationEnv .BNRoleAttester 5 61000000000 = some 0 ∧
    currentEstimatedRound sampleValidationEnv .BNRoleAttester 5 60000000000 = some 9 := by
  refine ⟨?_, ?_, ?_, ?_, ?_⟩ <;> decide

/-! ## Theorems: signer state after a rejected message -/

/-- A message with full data that is not a decided message, arriving while
the signer has no proposal data and rejected by the message counts, leaves
the signer state with the full data of the rejected message as proposal data
and with its number of signers as last decided quorum size. -/
theorem validateSignerBehavior_rejected_state (env : ValidationEnv) (state : ConsensusState)
    (signer : OpId) (msg : DecodedSSVMessage) (signedMsg : SignedMessage) (s1 : SignerState)
    (e : GoError)
    (hbody : msg.Body = .signedMessage signedMsg)
    (hslot : env.validateSlotAndRoundState (state.SignerState signer) signedMsg.Message.Height
      signedMsg.Message.Round = (s1, none))
    (hfull : hasFullData signedMsg = true) (hnil : s1.ProposalData = none)
    (hdecided : isDecidedMessage signedMsg = false)
    (hcounts : s1.MessageCounts.Validate msg = some e) :
    validateSignerBehavior env state signer msg =
      (state.set signer { s1 with ProposalData := signedMsg.FullData,
                                  LastDecidedQuorumSize := signedMsg.Signers.length },
        some e) := by
  unfold validateSignerBehavior
  simp only [hbody, hslot, hfull, hnil, hdecided, hcounts, if_true, Bool.false_and,
    Bool.false_eq_true, if_false]

set_option maxRecDepth 100000 in
/-- C26 (evaluation at the failing input): in the sample configuration with a
BLS check that fails on signatures starting with the byte 1, for proposer-duty
messages of slot 5 and round 2 signed by operator 3, the leader of the round,
and received 63 s after genesis: after an accepted commit, a proposal with full data `[9]` is rejected
by `validateSignerBehavior` ("proposal is not expected") and yet the proposal
data of signer 3 has changed from nil to `[9]`; on the empty state, the same
proposal with a signature that does not verify is rejected by
`validateConsensusMessage` ("invalid signature") and yet the proposal data of
signer 3 is `[9]` and its last decided quorum size 1 afterwards; a later,
correctly signed proposal with full data `[8]` is then rejected as a
duplicated proposal with different data, although on the empty state it is
accepted. -/
theorem validateConsensusMessage_rejection_changes_state :
    validateConsensusMessage sampleCheckingEnv [] sampleCommitteeShare
      (sampleSigned 0 .CommitMsgType none) 63000000000 =
      (sampleStateAfterCommit, .returned none) ∧
    validateSignerBehavior sampleCheckingEnv sampleStateAfterCommit 3
      (sampleSigned 0 .ProposalMsgType (some [9])) =
      ([(3, { Slot := 5, Round := 2,
              MessageCounts := { MessageCounts.zero with Commit := 1 },
              ProposalData := some [9], LastDecidedQuorumSize := 1 })],
        some (.plain "proposal is not expected")) ∧
    (sampleStateAfterCommit.SignerState 3).ProposalData = none ∧
    validateConsensusMessage sampleCheckingEnv [] sampleCommitteeShare
      (sampleSigned 1 .ProposalMsgType (some [9])) 63000000000 =
      (sampleStateProposalNine,
        .returned (some (.wrap "invalid signature" (.plain "failed to verify signature")))) ∧
    (ConsensusState.SignerState [] 3).ProposalData = none ∧
    (ConsensusState.SignerState [] 3).LastDecidedQuorumSize = 0 ∧
    (sampleStateProposalNine.SignerState 3).ProposalData = some [9] ∧
    (sampleStateProposalNine.SignerState 3).LastDecidedQuorumSize = 1 ∧
    (validateConsensusMessage sampleCheckingEnv sampleStateProposalNine sampleCommitteeShare
      (sampleSigned 0 .ProposalMsgType (some [8])) 63000000000).2 =
      .returned (some (.wrap "bad signer behavior"
        (.plain "duplicated proposal with different data"))) ∧
    (validateConsensusMessage sampleCheckingEnv [] sampleCommitteeShare
      (sampleSigned 0 .ProposalMsgType (some [8])) 63000000000).2 = .returned none := by
  refine ⟨?_, ?_, ?_, ?_, ?_, ?_, ?_, ?_, ?_, ?_⟩ <;> decide

/-! ## Theorems: the head slot -/

/-- The loop of `processClusterEvent` appends to `toUpdate` the shares of the
operator with the flag set, and to `updatedPubKeys` the keys of the shares of
the operator, or of all the shares on a full node. -/
theorem clusterLoop_eq (operatorID : OpId) (fullNode b : Bool) :
    ∀ (shares toUpdate : List SSVShare) (keys : List Bytes),
      clusterLoop operatorID fullNode b shares toUpdate keys =
        (toUpdate ++ (shares.filter (fun s => s.BelongsToOperator operatorID)).map
            (withLiquidated b),
          keys ++ (shares.filter (fun s => s.BelongsToOperator operatorID || fullNode)).map
            (fun s => s.ValidatorPubKey)) := by
  intro shares
  induction shares with
  | nil => intro toUpdate keys; simp [clusterLoop]
  | cons x xs ih =>
    intro toUpdate keys
    unfold clusterLoop
    cases hx : x.BelongsToOperator operatorID <;> cases fullNode <;>
      simp [hx, ih, withLiquidated]

/-- Saving a share whose key is that of `x` and of no share before `x`
replaces `x`. -/
theorem sharesSave_append_same (pre : List SSVShare) (x : SSVShare) (xs : List SSVShare)
    (y : SSVShare) (hpre : ∀ p ∈ pre, p.ValidatorPubKey ≠ y.ValidatorPubKey)
    (hx : x.ValidatorPubKey = y.ValidatorPubKey) :
    sharesSave (pre ++ x :: xs) y = pre ++ y :: xs := by
  induction pre with
  | nil => simp [sharesSave, hx]
  | cons p ps ih =>
    have hp : p.ValidatorPubKey ≠ y.ValidatorPubKey := hpre p (List.mem_cons_self _ _)
    have hps : ∀ q ∈ ps, q.ValidatorPubKey ≠ y.ValidatorPubKey :=
      fun q hq => hpre q (List.mem_cons_of_mem _ hq)
    simp [sharesSave, hp, ih hps]

/-- Saving the modified copies of the shares that satisfy `P`, in a collection
without duplicate keys, modifies those shares in place. -/
theorem sharesSaveAll_filter_map (P : SSVShare → Bool) (f : SSVShare → SSVShare)
    (hf : ∀ s, (f s).ValidatorPubKey = s.ValidatorPubKey) :
    ∀ (l pre : List SSVShare), (l.map (fun s => s.ValidatorPubKey)).Nodup →
      (∀ p ∈ pre, ∀ x ∈ l, p.ValidatorPubKey ≠ x.ValidatorPubKey) →
      sharesSaveAll (pre ++ l) ((l.filter P).map f) =
        pre ++ l.map (fun s => if P s then f s else s) := by
  intro l
  induction l with
  | nil => intro pre _ _; simp [sharesSaveAll]
  | cons x xs ih =>
    intro pre hnd hpre
    rw [List.map_cons, List.nodup_cons] at hnd
    obtain ⟨hxnot, hxs⟩ := hnd
    have hxkey : ∀ y ∈ xs, x.ValidatorPubKey ≠ y.ValidatorPubKey := by
      intro y hy heq
      exact hxnot (List.mem_map.mpr ⟨y, hy, heq.symm⟩)
    cases hP : P x with
    | true =>
      have hsave : sharesSave (pre ++ x :: xs) (f x) = (pre ++ [f x]) ++ xs := by
        rw [sharesSave_append_same pre x xs (f x)
          (fun p hp => by rw [hf]; exact hpre p hp x (List.mem_cons_self _ _)) (hf x).symm]
        simp
      have hpre1 : ∀ p ∈ pre ++ [f x], ∀ y ∈ xs, p.ValidatorPubKey ≠ y.ValidatorPubKey := by
        intro p hp y hy
        rcases List.mem_append.mp hp with h | h
        · exact hpre p h y (List.mem_cons_of_mem _ hy)
        · rw [List.mem_singleton.mp h, hf]
          exact hxkey y hy
      have h := ih (pre ++ [f x]) hxs hpre1
      simp only [sharesSaveAll, List.filter_cons, hP, if_true, List.map_cons,
        List.foldl_cons] at h ⊢
      rw [hsave, h]
      simp
    | false =>
      have hpre1 : ∀ p ∈ pre ++ [x], ∀ y ∈ xs, p.ValidatorPubKey ≠ y.ValidatorPubKey := by
        intro p hp y hy
        rcases List.mem_append.mp hp with h | h
        · exact hpre p h y (List.mem_cons_of_mem _ hy)
        · rw [List.mem_singleton.mp h]
          exact hxkey y hy
      have h := ih (pre ++ [x]) hxs hpre1
      simp only [sharesSaveAll, List.filter_cons, hP, List.map_cons, Bool.false_eq_true,
        if_false] at h ⊢
      rw [List.append_assoc, List.singleton_append] at h
      rw [h]
      simp

/-- Saving a share that is already stored under its key changes nothing. -/
theorem sharesSave_of_sharesGet (l : List SSVShare) (s : SSVShare)
    (h : sharesGet l s.ValidatorPubKey = some s) : sharesSave l s = l := by
  induction l with
  | nil => simp [sharesGet] at h
  | cons x xs ih =>
    by_cases hx : x.ValidatorPubKey = s.ValidatorPubKey
    · simp only [sharesGet, hx, if_true, Option.some.injEq] at h
      simp [sharesSave, hx, h]
    · simp only [sharesGet, hx, if_false] at h
      simp [sharesSave, hx, ih h]

/-- Saving a share does not change what is stored under another key. -/
theorem sharesGet_sharesSave_other (l : List SSVShare) (s : SSVShare) (pk : Bytes)
    (h : s.ValidatorPubKey ≠ pk) : sharesGet (sharesSave l s) pk = sharesGet l pk := by
  induction l with
  | nil => simp [sharesSave, sharesGet, h]
  | cons x xs ih =>
    by_cases hx : x.ValidatorPubKey = s.ValidatorPubKey
    · have hxpk : x.ValidatorPubKey ≠ pk := by rw [hx]; exact h
      simp [sharesSave, sharesGet, hx, h, hxpk]
    · by_cases hxpk : x.ValidatorPubKey = pk
      · have hs : ¬ pk = s.ValidatorPubKey := fun e => h e.symm
        simp [sharesSave, sharesGet, hxpk, hs]
      · simp [sharesSave, sharesGet, hx, hxpk, ih]

/-- Saving shares does not change what is stored under a key none of them has. -/
theorem sharesGet_sharesSaveAll_other (shares : List SSVShare) (pk : Bytes)
    (h : ∀ s ∈ shares, s.ValidatorPubKey ≠ pk) :
    ∀ l, sharesGet (sharesSaveAll l shares) pk = sharesGet l pk := by
  induction shares with
  | nil => intro l; rfl
  | cons x xs ih =>
    intro l
    show sharesGet (sharesSaveAll (sharesSave l x) xs) pk = sharesGet l pk
    rw [ih (fun s hs => h s (List.mem_cons_of_mem _ hs)),
      sharesGet_sharesSave_other l x pk (h x (List.mem_cons_self _ _))]

/-- After saving shares with distinct keys, each of them is stored under its key. -/
theorem sharesGet_sharesSaveAll_mem (shares : List SSVShare)
    (hnd : (shares.map (fun s => s.ValidatorPubKey)).Nodup) :
    ∀ l, ∀ s ∈ shares, sharesGet (sharesSaveAll l shares) s.ValidatorPubKey = some s := by
  induction shares with
  | nil => intro l s hs; simp at hs
  | cons x xs ih =>
    intro l s hs
    rw [List.map_cons, List.nodup_cons] at hnd
    show sharesGet (sharesSaveAll (sharesSave l x) xs) s.ValidatorPubKey = some s
    rcases List.mem_cons.mp hs with h | h
    · subst h
      rw [sharesGet_sharesSaveAll_other xs s.ValidatorPubKey]
      · exact sharesGet_sharesSave_self l s
      · intro y hy heq
        exact hnd.1 (List.mem_map.mpr ⟨y, hy, heq⟩)
    · exact ih hnd.2 (sharesSave l x) s h

/-- Saving shares that are all stored under their keys changes nothing. -/
theorem sharesSaveAll_of_sharesGet (shares : List SSVShare) :
    ∀ l, (∀ s ∈ shares, sharesGet l s.ValidatorPubKey = some s) → sharesSaveAll l shares = l := by
  induction shares with
  | nil => intro l _; rfl
  | cons x xs ih =>
    intro l h
    show sharesSaveAll (sharesSave l x) xs = l
    rw [sharesSave_of_sharesGet l x (h x (List.mem_cons_self _ _))]
    exact ih l (fun s hs => h s (List.mem_cons_of_mem _ hs))

/-- Saving the same shares, with distinct keys, a second time changes nothing. -/
theorem sharesSaveAll_twice (shares : List SSVShare)
    (hnd : (shares.map (fun s => s.ValidatorPubKey)).Nodup) (l : List SSVShare) :
    sharesSaveAll (sharesSaveAll l shares) shares = sharesSaveAll l shares :=
  sharesSaveAll_of_sharesGet shares _ (sharesGet_sharesSaveAll_mem shares hnd l)

/-- When the cluster hash is computed and the registry saves, the method
`processClusterEvent` saves the shares of `clusterShares` in memory and in the
registry and returns them. -/
theorem processClusterEvent_ok (env : ClusterEnv) (edh : EventDataHandler) (txn : Txn)
    (owner : Address) (ops : List OpId) (b : Bool) (cid : Bytes)
    (hhash : env.ComputeClusterIDHash owner ops = .ok cid)
    (hfault : env.faults.saveShares = false) :
    (processClusterEvent env edh txn owner ops b).edh =
      { edh with shares := sharesSaveAll edh.shares (clusterShares env cid edh b) } ∧
    (processClusterEvent env edh txn owner ops b).txn =
      { txn with shares := sharesSaveAll txn.shares (clusterShares env cid edh b) } ∧
    ∃ keys, (processClusterEvent env edh txn owner ops b).out =
      .ok (clusterShares env cid edh b, keys) := by
  have hU : (clusterLoop edh.operatorData.ID edh.fullNode b
      (edh.shares.filter (ByClusterID env cid)) [] []).1 = clusterShares env cid edh b := by
    rw [clusterLoop_eq]
    simp only [List.nil_append, List.filter_filter, clusterShares]
    rfl
  unfold processClusterEvent
  simp only [hhash]
  rcases hr : clusterLoop edh.operatorData.ID edh.fullNode b
    (edh.shares.filter (ByClusterID env cid)) [] [] with ⟨U, K⟩
  rw [hr] at hU
  simp only at hU
  subst hU
  by_cases hlen : (clusterShares env cid edh b).length > 0
  · simp only [hlen, if_true, Txn.SaveShareList, hfault, Bool.false_eq_true, if_false]
    exact ⟨trivial, trivial, K, rfl⟩
  · have hnil : clusterShares env cid edh b = [] := List.length_eq_zero.mp (by omega)
    simp only [hlen, if_false]
    rw [hnil]
    exact ⟨rfl, rfl, K, rfl⟩

/-- On success `handleClusterLiquidated` saves the shares of `clusterShares`
with the flag set and returns them. -/
theorem handleClusterLiquidated_ok (env : ClusterEnv) (edh : EventDataHandler) (txn : Txn)
    (event : ContractClusterLiquidated) (cid : Bytes)
    (hhash : env.ComputeClusterIDHash event.Owner event.OperatorIds = .ok cid)
    (hfault : env.faults.saveShares = false) :
    handleClusterLiquidated env edh txn event =
      ⟨{ edh with shares := sharesSaveAll edh.shares (clusterShares env cid edh true) },
        { txn with shares := sharesSaveAll txn.shares (clusterShares env cid edh true) },
        .ok (clusterShares env cid edh true)⟩ := by
  obtain ⟨h1, h2, K, h3⟩ :=
    processClusterEvent_ok env edh txn event.Owner event.OperatorIds true cid hhash hfault
  simp only [handleClusterLiquidated, h1, h2, h3]

/-- On success `handleClusterReactivated` saves the shares of `clusterShares`
with the flag cleared and returns them. -/
theorem handleClusterReactivated_ok (env : ClusterEnv) (edh : EventDataHandler) (txn : Txn)
    (event : ContractClusterReactivated) (cid : Bytes)
    (hhash : env.ComputeClusterIDHash event.Owner event.OperatorIds = .ok cid)
    (hfault : env.faults.saveShares = false) :
    handleClusterReactivated env edh txn event =
      ⟨{ edh with shares := sharesSaveAll edh.shares (clusterShares env cid edh false) },
        { txn with shares := sharesSaveAll txn.shares (clusterShares env cid edh false) },
        .ok (clusterShares env cid edh false)⟩ := by
  obtain ⟨h1, h2, K, h3⟩ :=
    processClusterEvent_ok env edh txn event.Owner event.OperatorIds false cid hhash hfault
  simp only [handleClusterReactivated, h1, h2, h3]

/-- In a collection without duplicate keys, saving the shares of
`clusterShares` sets the flag of those shares in place. -/
theorem sharesSaveAll_clusterShares (env : ClusterEnv) (cid : Bytes) (edh : EventDataHandler)
    (b : Bool) (hkeys : (edh.shares.map (fun s => s.ValidatorPubKey)).Nodup) :
    sharesSaveAll edh.shares (clusterShares env cid edh b) =
      edh.shares.map (withClusterFlag env cid edh.operatorData.ID b) := by
  have h := sharesSaveAll_filter_map (inLocalCluster env cid edh.operatorData.ID)
    (withLiquidated b) (fun _ => rfl) edh.shares [] hkeys (by simp)
  simpa [clusterShares, withClusterFlag] using h

/-- Setting the flag of a share changes neither its key nor whether it is in
the cluster and belongs to the operator. -/
theorem withClusterFlag_invariant (env : ClusterEnv) (cid : Bytes) (id : OpId) (b : Bool)
    (s : SSVShare) :
    (withClusterFlag env cid id b s).ValidatorPubKey = s.ValidatorPubKey ∧
    inLocalCluster env cid id (withClusterFlag env cid id b s) = inLocalCluster env cid id s := by
  unfold withClusterFlag
  split <;> exact ⟨rfl, rfl⟩

/-- Setting the flag to `b2` after setting it to `b1` is setting it to `b2`. -/
theorem withClusterFlag_twice (env : ClusterEnv) (cid : Bytes) (id : OpId) (b1 b2 : Bool)
    (s : SSVShare) :
    withClusterFlag env cid id b2 (withClusterFlag env cid id b1 s) =
      withClusterFlag env cid id b2 s := by
  have hinv := (withClusterFlag_invariant env cid id b1 s).2
  cases h : inLocalCluster env cid id s with
  | false => simp [withClusterFlag, h]
  | true =>
    have h1 : withClusterFlag env cid id b1 s = withLiquidated b1 s := by
      simp [withClusterFlag, h]
    rw [h] at hinv
    rw [h1] at hinv ⊢
    simp only [withClusterFlag, hinv, h, if_true]
    rfl

/-- After a cluster event has set the flag, the shares a second cluster event
of the same cluster updates are those the first one updated. -/
theorem clusterShares_after (env : ClusterEnv) (cid : Bytes) (edh : EventDataHandler)
    (b1 b2 : Bool) :
    clusterShares env cid
      { edh with shares := edh.shares.map (withClusterFlag env cid edh.operatorData.ID b1) } b2 =
      clusterShares env cid edh b2 := by
  simp only [clusterShares]
  induction edh.shares with
  | nil => rfl
  | cons x xs ih =>
    have hinv := (withClusterFlag_invariant env cid edh.operatorData.ID b1 x).2
    simp only [List.map_cons, List.filter_cons, hinv]
    cases h : inLocalCluster env cid edh.operatorData.ID x with
    | false => simpa using ih
    | true =>
      have h1 : withClusterFlag env cid edh.operatorData.ID b1 x = withLiquidated b1 x := by
        simp [withClusterFlag, h]
      simp only [if_true, List.map_cons, ih, h1]
      rfl

/-- Setting the flag of shares does not change the keys of the collection. -/
theorem map_withClusterFlag_keys (env : ClusterEnv) (cid : Bytes) (id : OpId) (b : Bool)
    (l : List SSVShare) :
    (l.map (withClusterFlag env cid id b)).map (fun s => s.ValidatorPubKey) =
      l.map (fun s => s.ValidatorPubKey) := by
  rw [List.map_map]
  exact List.map_congr_left (fun s _ => (withClusterFlag_invariant env cid id b s).1)

/-- The shares a cluster event updates have distinct keys when the collection
has. -/
theorem clusterShares_keys_nodup (env : ClusterEnv) (cid : Bytes) (edh : EventDataHandler)
    (b : Bool) (hkeys : (edh.shares.map (fun s => s.ValidatorPubKey)).Nodup) :
    ((clusterShares env cid edh b).map (fun s => s.ValidatorPubKey)).Nodup := by
  have hmap : (clusterShares env cid edh b).map (fun s => s.ValidatorPubKey) =
      (edh.shares.filter (inLocalCluster env cid edh.operatorData.ID)).map
        (fun s => s.ValidatorPubKey) := by
    simp only [clusterShares, List.map_map]
    exact List.map_congr_left (fun s _ => rfl)
  rw [hmap]
  exact List.Nodup.sublist (List.Sublist.map _ (List.filter_sublist _)) hkeys

/-- A second cluster event of the same cluster, after a first one has set the
flag to `b1`, leaves the collection as if it alone had set the flag to `b2`. -/
theorem sharesSaveAll_clusterShares_after (env : ClusterEnv) (cid : Bytes)
    (edh : EventDataHandler) (b1 b2 : Bool)
    (hkeys : (edh.shares.map (fun s => s.ValidatorPubKey)).Nodup) :
    sharesSaveAll (edh.shares.map (withClusterFlag env cid edh.operatorData.ID b1))
      (clusterShares env cid
        { edh with shares := edh.shares.map (withClusterFlag env cid edh.operatorData.ID b1) }
        b2) =
      edh.shares.map (withClusterFlag env cid edh.operatorData.ID b2) := by
  have hkeys1 : ((edh.shares.map (withClusterFlag env cid edh.operatorData.ID b1)).map
      (fun s => s.ValidatorPubKey)).Nodup := by
    rw [map_withClusterFlag_keys]
    exact hkeys
  have h := sharesSaveAll_clusterShares env cid
    { edh with shares := edh.shares.map (withClusterFlag env cid edh.operatorData.ID b1) }
    b2 hkeys1
  simp only at h
  rw [h, List.map_map]
  exact List.map_congr_left
    (fun s _ => withClusterFlag_twice env cid edh.operatorData.ID b1 b2 s)

/-- C21: for every share collection without duplicate keys, owner and operator
id list whose cluster hash is computed, the registry saving without failure:
after `handleClusterLiquidated` the shares in that cluster that belong to the
local operator have `Liquidated = true` and all other shares, and the rest of
the handler, are unchanged; a subsequent `handleClusterReactivated` sets the
flag of exactly those shares to false; each handler returns exactly those
shares, with the flag it has set; and applying a handler a second time gives
the same handler state, the same registry and the same result as applying it
once. -/
theorem handleClusterLiquidated_then_reactivated (env : ClusterEnv) (edh : EventDataHandler)
    (txn : Txn) (owner : Address) (ops : List OpId) (cid : Bytes)
    (hkeys : (edh.shares.map (fun s => s.ValidatorPubKey)).Nodup)
    (hhash : env.ComputeClusterIDHash owner ops = .ok cid)
    (hfault : env.faults.saveShares = false) :
    (handleClusterLiquidated env edh txn ⟨owner, ops⟩).edh =
      { edh with shares := edh.shares.map (withClusterFlag env cid edh.operatorData.ID true) } ∧
    (handleClusterLiquidated env edh txn ⟨owner, ops⟩).out =
      .ok ((edh.shares.filter (inLocalCluster env cid edh.operatorData.ID)).map
        (withLiquidated true)) ∧
    (handleClusterReactivated env (handleClusterLiquidated env edh txn ⟨owner, ops⟩).edh
      (handleClusterLiquidated env edh txn ⟨owner, ops⟩).txn ⟨owner, ops⟩).edh =
      { edh with shares := edh.shares.map (withClusterFlag env cid edh.operatorData.ID false) } ∧
    (handleClusterReactivated env (handleClusterLiquidated env edh txn ⟨owner, ops⟩).edh
      (handleClusterLiquidated env edh txn ⟨owner, ops⟩).txn ⟨owner, ops⟩).out =
      .ok ((edh.shares.filter (inLocalCluster env cid edh.operatorData.ID)).map
        (withLiquidated false)) ∧
    handleClusterLiquidated env (handleClusterLiquidated env edh txn ⟨owner, ops⟩).edh
      (handleClusterLiquidated env edh txn ⟨owner, ops⟩).txn ⟨owner, ops⟩ =
      handleClusterLiquidated env edh txn ⟨owner, ops⟩ ∧
    handleClusterReactivated env (handleClusterReactivated env edh txn ⟨owner, ops⟩).edh
      (handleClusterReactivated env edh txn ⟨owner, ops⟩).txn ⟨owner, ops⟩ =
      handleClusterReactivated env edh txn ⟨owner, ops⟩ := by
  have hL := handleClusterLiquidated_ok env edh txn ⟨owner, ops⟩ cid hhash hfault
  rw [sharesSaveAll_clusterShares env cid edh true hkeys] at hL
  have hR := handleClusterReactivated_ok env edh txn ⟨owner, ops⟩ cid hhash hfault
  rw [sharesSaveAll_clusterShares env cid edh false hkeys] at hR
  have hLR := handleClusterReactivated_ok env
    { edh with shares := edh.shares.map (withClusterFlag env cid edh.operatorData.ID true) }
    { txn with shares := sharesSaveAll txn.shares (clusterShares env cid edh true) }
    ⟨owner, ops⟩ cid hhash hfault
  have hLL := handleClusterLiquidated_ok env
    { edh with shares := edh.shares.map (withClusterFlag env cid edh.operatorData.ID true) }
    { txn with shares := sharesSaveAll txn.shares (clusterShares env cid edh true) }
    ⟨owner, ops⟩ cid hhash hfault
  have hRR := handleClusterReactivated_ok env
    { edh with shares := edh.shares.map (withClusterFlag env cid edh.operatorData.ID false) }
    { txn with shares := sharesSaveAll txn.shares (clusterShares env cid edh false) }
    ⟨owner, ops⟩ cid hhash hfault
  dsimp only at hLR hLL hRR
  rw [sharesSaveAll_clusterShares_after env cid edh true false hkeys,
    clusterShares_after env cid edh true false] at hLR
  rw [sharesSaveAll_clusterShares_after env cid edh true true hkeys,
    clusterShares_after env cid edh true true,
    sharesSaveAll_twice _ (clusterShares_keys_nodup env cid edh true hkeys)] at hLL
  rw [sharesSaveAll_clusterShares_after env cid edh false false hkeys,
    clusterShares_after env cid edh false false,
    sharesSaveAll_twice _ (clusterShares_keys_nodup env cid edh false hkeys)] at hRR
  rw [hL, hR]
  dsimp only
  rw [hLR, hLL, hRR]
  exact ⟨rfl, rfl, rfl, rfl, rfl, rfl⟩

/-- C21 (witness): on the node of operator 2 with four shares, for owner 7 and
the operator ids 4, 2, 1, 3, whose cluster hash is `[7, 1, 2, 3, 4]`: after the
liquidation only the first share is liquidated, and after the reactivation
none is. -/
theorem handleClusterLiquidated_then_reactivated_witness :
    (sampleClusterHandler.shares.map (fun s => s.ValidatorPubKey)).Nodup ∧
    sampleClusterEnv.ComputeClusterIDHash 7 [4, 2, 1, 3] = .ok [7, 1, 2, 3, 4] ∧
    sampleClusterEnv.faults.saveShares = false ∧
    (handleClusterLiquidated sampleClusterEnv sampleClusterHandler sampleTxn
      ⟨7, [4, 2, 1, 3]⟩).edh.shares.map (fun s => s.Liquidated) = [true, false, false, false] ∧
    (handleClusterReactivated sampleClusterEnv
      (handleClusterLiquidated sampleClusterEnv sampleClusterHandler sampleTxn
        ⟨7, [4, 2, 1, 3]⟩).edh
      (handleClusterLiquidated sampleClusterEnv sampleClusterHandler sampleTxn
        ⟨7, [4, 2, 1, 3]⟩).txn ⟨7, [4, 2, 1, 3]⟩).edh.shares.map (fun s => s.Liquidated) =
      [false, false, false, false] := by
  have h := handleClusterLiquidated_then_reactivated sampleClusterEnv sampleClusterHandler
    sampleTxn 7 [4, 2, 1, 3] [7, 1, 2, 3, 4] (by decide) rfl rfl
  refine ⟨by decide, rfl, rfl, ?_, ?_⟩
  · rw [h.1]
    decide
  · rw [h.2.2.1]
    decide

/-! ## Theorems: the batch verifier -/

/-- A digest is found in the pending map exactly when a pending request has it. -/
theorem pendingExists_iff (pending : List SignatureRequest) (message : Bytes) :
    pendingExists pending message = true ↔ message ∈ pending.map (fun r => r.Message) := by
  simp only [pendingExists, List.any_eq_true, beq_iff_eq, List.mem_map]

/-- The method `adaptiveTimeout` changes nothing in the verifier but `started`. -/
theorem adaptiveTimeout_fst (round : ℚ → ℚ) (now : Int) (b : BatchVerifier) (pending : Int) :
    (adaptiveTimeout round now b pending).1 = { b with started := some (b.started.getD now) } := by
  unfold adaptiveTimeout
  dsimp only
  split <;> rfl

/-- A call of `AggregateVerify` keeps the digests of the pending requests and
of every queued batch distinct. -/
theorem AggregateVerify_distinct (lib : BlsLib) (round : ℚ → ℚ) (now : Int)
    (b : BatchVerifier) (signature : BlsSign) (pks : List BlsPublicKey) (message : Bytes)
    (h : b.Distinct) : (AggregateVerify lib round now b signature pks message).1.Distinct := by
  obtain ⟨hp, hb⟩ := h
  unfold AggregateVerify
  dsimp only
  cases hex : pendingExists b.pending message with
  | true => simpa using ⟨hp, hb⟩
  | false =>
    have hnot : message ∉ b.pending.map (fun r => r.Message) := by
      intro hmem
      rw [← pendingExists_iff, hex] at hmem
      exact Bool.noConfusion hmem
    have hnew : ((b.pending ++ [(⟨signature, pks, message⟩ : SignatureRequest)]).map
        (fun r => r.Message)).Nodup := by
      rw [List.map_append, List.map_singleton]
      exact List.Nodup.append hp (List.nodup_singleton _)
        (by simpa [List.Disjoint] using hnot)
    simp only [Bool.false_eq_true, if_false]
    split
    · refine ⟨List.nodup_nil, ?_⟩
      intro batch hbatch
      rcases List.mem_append.mp hbatch with hm | hm
      · exact hb batch hm
      · rw [List.mem_singleton.mp hm]
        exact hnew
    · rw [adaptiveTimeout_fst]
      exact ⟨hnew, hb⟩

/-- The ticker branch of a worker keeps the digests distinct, and so are the
digests of the batch it takes out. -/
theorem workerTick_distinct (b : BatchVerifier) (h : b.Distinct) :
    (workerTick b).1.Distinct ∧
    ∀ batch ∈ (workerTick b).2.toList, (batch.map (fun r => r.Message)).Nodup := by
  obtain ⟨hp, hb⟩ := h
  refine ⟨⟨List.nodup_nil, hb⟩, ?_⟩
  intro batch hbatch
  unfold workerTick at hbatch
  dsimp only at hbatch
  split at hbatch
  · rw [Option.toList_some, List.mem_singleton] at hbatch
    rw [hbatch]
    exact hp
  · simp at hbatch

/-- A worker receiving a batch keeps the digests distinct, and so are the
digests of the batch it receives. -/
theorem workerReceive_distinct (b : BatchVerifier) (h : b.Distinct) :
    (workerReceive b).1.Distinct ∧
    ∀ batch ∈ (workerReceive b).2.toList, (batch.map (fun r => r.Message)).Nodup := by
  obtain ⟨hp, hb⟩ := h
  unfold workerReceive
  cases hq : b.batches with
  | nil =>
    refine ⟨⟨hp, by rw [hq]; simp⟩, ?_⟩
    simp
  | cons first rest =>
    rw [hq] at hb
    refine ⟨⟨hp, fun batch hm => hb batch (List.mem_cons_of_mem _ hm)⟩, ?_⟩
    intro batch hbatch
    rw [Option.toList_some, List.mem_singleton] at hbatch
    rw [hbatch]
    exact hb first (List.mem_cons_self _ _)

/-- Every step keeps the digests distinct, and every batch a step hands to
`verify` has distinct digests. -/
theorem verifierStep_distinct (lib : BlsLib) (round : ℚ → ℚ) (b : BatchVerifier)
    (step : VerifierStep) (h : b.Distinct) :
    (verifierStep lib round b step).1.Distinct ∧
    ∀ batch ∈ (verifierStep lib round b step).2.toList,
      (batch.map (fun r => r.Message)).Nodup := by
  cases step with
  | call now signature pks message =>
    refine ⟨AggregateVerify_distinct lib round now b signature pks message h, ?_⟩
    intro batch hbatch
    simp [verifierStep] at hbatch
  | tick => exact workerTick_distinct b h
  | receive => exact workerReceive_distinct b h

/-- Along every sequence of steps the digests stay distinct, and every batch
handed to `verify` has distinct digests. -/
theorem verifierRun_distinct (lib : BlsLib) (round : ℚ → ℚ) (steps : List VerifierStep) :
    ∀ b : BatchVerifier, b.Distinct →
      (verifierRun lib round b steps).1.Distinct ∧
      ∀ batch ∈ (verifierRun lib round b steps).2, (batch.map (fun r => r.Message)).Nodup := by
  induction steps with
  | nil =>
    intro b h
    exact ⟨h, by simp [verifierRun]⟩
  | cons step rest ih =>
    intro b h
    obtain ⟨h1, h2⟩ := verifierStep_distinct lib round b step h
    obtain ⟨h3, h4⟩ := ih (verifierStep lib round b step).1 h1
    refine ⟨h3, ?_⟩
    intro batch hbatch
    simp only [verifierRun, List.mem_append] at hbatch
    rcases hbatch with hm | hm
    · exact h2 batch hm
    · exact h4 batch hm

/-- C22: when `AggregateVerify` is called with a digest that is already a key
of the pending map, it returns `FastAggregateVerify(pks, message)` of that
request and leaves the verifier, with its pending map and its queued batches,
as it was; and along every sequence of calls of `AggregateVerify`, ticks and
batch receptions of the workers, starting from a new verifier, no two pending
requests have the same digest, no two requests of a queued batch have, and no
two requests of a batch handed to `verify` have. -/
theorem AggregateVerify_pending_digest (lib : BlsLib) (round : ℚ → ℚ) (now : Int)
    (b : BatchVerifier) (signature : BlsSign) (pks : List BlsPublicKey) (message : Bytes)
    (concurrency batchSize timeout : Int) (steps : List VerifierStep) :
    (pendingExists b.pending message = true →
      AggregateVerify lib round now b signature pks message =
        (b, .verdict (lib.FastAggregateVerify signature pks message))) ∧
    (verifierRun lib round (NewBatchVerifier concurrency batchSize timeout) steps).1.Distinct ∧
    ∀ batch ∈ (verifierRun lib round (NewBatchVerifier concurrency batchSize timeout) steps).2,
      (batch.map (fun r => r.Message)).Nodup := by
  refine ⟨?_, verifierRun_distinct lib round steps _ ⟨List.nodup_nil, by simp [NewBatchVerifier]⟩⟩
  intro hex
  simp only [AggregateVerify, hex, if_true]

/-- C22 (witness): while the request for the digest 3 is pending, a second
request for the digest 3, with a signature that does not verify, is answered
at once with the verdict false and the verifier stays as it was. -/
theorem AggregateVerify_pending_digest_witness :
    pendingExists samplePendingVerifier.pending (sampleDigest 3) = true ∧
    AggregateVerify sampleBls id 1000 samplePendingVerifier 16 [[5]] (sampleDigest 3) =
      (samplePendingVerifier, .verdict false) :=
  ⟨by decide,
    (AggregateVerify_pending_digest sampleBls id 1000 samplePendingVerifier 16 [[5]]
      (sampleDigest 3) 4 3 50000000 []).1 (by decide)⟩

/-- The loop of `verify` panics exactly when a request of the batch has no
public key. -/
theorem verifyLoop_eq_none_iff (lib : BlsLib) :
    ∀ (batch : List SignatureRequest) (i : Nat) (sig : BlsSign) (pks : List BlsPublicKey)
      (msgs : Bytes),
      verifyLoop lib batch i sig pks msgs = none ↔ ∃ r ∈ batch, r.PubKeys = [] := by
  intro batch
  induction batch with
  | nil => intro i sig pks msgs; simp [verifyLoop]
  | cons req rest ih =>
    intro i sig pks msgs
    unfold verifyLoop
    dsimp only
    cases hk : req.PubKeys with
    | nil => simp [sumPubKeys, hk]
    | cons pk others => simp [sumPubKeys, hk, ih]

/-- A batch of one request is verified alone: the verdict sent to its sink is
`FastAggregateVerify` of that request, whatever its public keys. -/
theorem verify_single (lib : BlsLib) (req : SignatureRequest) :
    verify lib [req] = some [lib.FastAggregateVerify req.Signature req.PubKeys req.Message] :=
  rfl

/-- A batch of two or more requests, each with at least one public key, gets
one verdict for each request: all true when the aggregate check of the summed
signature succeeds, and the verdict of each request alone when it fails. -/
theorem verify_many (lib : BlsLib) (batch : List SignatureRequest) (first : SignatureRequest)
    (hlen : 2 ≤ batch.length) (hfirst : batch.head? = some first)
    (hkeys : ∀ r ∈ batch, r.PubKeys ≠ []) :
    ∃ sig pks msgs, verifyLoop lib batch 0 first.Signature [] [] = some (sig, pks, msgs) ∧
      verify lib batch =
        some (if lib.AggregateVerifyNoCheck sig pks msgs then batch.map (fun _ => true)
          else batch.map (verifySingle lib)) ∧
      (verify lib batch).map List.length = some batch.length := by
  have hsome : verifyLoop lib batch 0 first.Signature [] [] ≠ none := by
    rw [Ne, verifyLoop_eq_none_iff]
    rintro ⟨r, hr, hnil⟩
    exact hkeys r hr hnil
  match batch, hlen, hfirst with
  | a :: c :: rest, _, hfirst =>
    simp only [List.head?_cons, Option.some.injEq] at hfirst
    subst hfirst
    cases hl : verifyLoop lib (a :: c :: rest) 0 a.Signature [] [] with
    | none => exact absurd hl hsome
    | some res =>
      obtain ⟨sig, pks, msgs⟩ := res
      refine ⟨sig, pks, msgs, rfl, ?_, ?_⟩
      · simp only [verify, hl]
        split <;> rfl
      · simp only [verify, hl]
        split <;> simp

/-- A batch of two or more requests one of which has no public key makes
`verify` panic: no verdict is sent. -/
theorem verify_panics (lib : BlsLib) (batch : List SignatureRequest) (hlen : 2 ≤ batch.length)
    (r : SignatureRequest) (hr : r ∈ batch) (hnil : r.PubKeys = []) :
    verify lib batch = none := by
  match batch, hlen, hr with
  | a :: c :: rest, _, hr =>
    have hl : verifyLoop lib (a :: c :: rest) 0 a.Signature [] [] = none :=
      (verifyLoop_eq_none_iff lib _ 0 a.Signature [] []).mpr ⟨r, hr, hnil⟩
    simp only [verify, hl]

/-- The inner loop of `VerifyByOperators` does not drop a public key, and it
sets `found` only together with adding one. -/
theorem findOperatorKeys_length (deserialize : Bytes → Option BlsPublicKey) (id : OpId) :
    ∀ (operators : List Operator) (pks : List BlsPublicKey) (found : Bool)
      (out : List BlsPublicKey) (f : Bool),
      findOperatorKeys deserialize id operators pks found = .ok (out, f) →
      pks.length ≤ out.length ∧ (f = true → found = true ∨ pks.length < out.length) := by
  intro operators
  induction operators with
  | nil =>
    intro pks found out f h
    simp only [findOperatorKeys, Except.ok.injEq, Prod.mk.injEq] at h
    obtain ⟨h1, h2⟩ := h
    subst h1 h2
    exact ⟨Nat.le_refl _, fun hf => Or.inl hf⟩
  | cons n rest ih =>
    intro pks found out f h
    unfold findOperatorKeys at h
    split at h
    · cases hd : deserialize n.PubKey with
      | none => simp [hd] at h
      | some pk =>
        simp only [hd] at h
        obtain ⟨h1, _⟩ := ih (pks ++ [pk]) true out f h
        simp only [List.length_append, List.length_singleton] at h1
        exact ⟨by omega, fun _ => Or.inr (by omega)⟩
    · exact ih pks found out f h

/-- The loop of `VerifyByOperators` over the signers collects at least one
public key for each signer. -/
theorem signerPublicKeys_length (deserialize : Bytes → Option BlsPublicKey)
    (operators : List Operator) :
    ∀ (signers : List OpId) (pks out : List BlsPublicKey),
      signerPublicKeys deserialize operators signers pks = .ok out →
      pks.length + signers.length ≤ out.length := by
  intro signers
  induction signers with
  | nil =>
    intro pks out h
    simp only [signerPublicKeys, Except.ok.injEq] at h
    subst h
    simp
  | cons id rest ih =>
    intro pks out h
    unfold signerPublicKeys at h
    cases hf : findOperatorKeys deserialize id operators pks false with
    | error e => simp [hf] at h
    | ok r =>
      obtain ⟨pks1, found⟩ := r
      simp only [hf] at h
      cases found with
      | false => simp at h
      | true =>
        simp only [Bool.not_true, Bool.false_eq_true, if_false] at h
        have h1 := ih pks1 out h
        obtain ⟨_, h3⟩ := findOperatorKeys_length deserialize id operators pks false pks1 true hf
        have h4 : pks.length < pks1.length := by
          rcases h3 rfl with h5 | h5
          · exact Bool.noConfusion h5
          · exact h5
        simp only [List.length_cons]
        omega

/-- For a message with at least one signer `VerifyByOperators` passes at least
one public key to the verifier. -/
theorem VerifyByOperatorsCall_keys (venv : VerifyEnv) (s : Bytes) (data : SignedMessage)
    (operators : List Operator) (sig : BlsSign) (pks : List BlsPublicKey) (root : Bytes)
    (hsigners : data.Signers ≠ [])
    (h : VerifyByOperatorsCall venv s data operators = .ok (sig, pks, root)) : pks ≠ [] := by
  unfold VerifyByOperatorsCall at h
  cases hs : venv.signDeserialize s with
  | none => simp [hs] at h
  | some sign =>
    simp only [hs] at h
    cases hk : signerPublicKeys venv.DeserializeBLSPublicKey operators data.Signers [] with
    | error e => simp [hk] at h
    | ok out =>
      simp only [hk] at h
      have hlen := signerPublicKeys_length _ _ _ _ _ hk
      have hpos : 0 < data.Signers.length := List.length_pos.mpr hsigners
      cases hr : venv.ComputeSigningRoot data with
      | error e => simp [hr] at h
      | ok computedRoot =>
        simp only [hr, Except.ok.injEq, Prod.mk.injEq] at h
        obtain ⟨_, h2, _⟩ := h
        subst h2
        intro hnil
        rw [hnil] at hlen
        simp only [List.length_nil] at hlen
        omega

/-- The function `VerifyReconstructedSignature` passes one public key to the
verifier. -/
theorem VerifyReconstructedSignatureCall_keys (venv : VerifyEnv) (sig0 : BlsSign)
    (validatorPubKey root0 : Bytes) (sig : BlsSign) (pks : List BlsPublicKey) (root : Bytes)
    (h : VerifyReconstructedSignatureCall venv sig0 validatorPubKey root0 = .ok (sig, pks, root)) :
    pks ≠ [] := by
  unfold VerifyReconstructedSignatureCall at h
  cases hd : venv.DeserializeBLSPublicKey validatorPubKey with
  | none => simp [hd] at h
  | some pk =>
    simp only [hd, Except.ok.injEq, Prod.mk.injEq] at h
    obtain ⟨_, h2, _⟩ := h
    subst h2
    exact List.cons_ne_nil _ _

/-- A message with no signers is rejected by `validConsensusSigners`, which
`validateConsensusMessage` calls before `VerifyByOperators`. -/
theorem validConsensusSigners_no_signers (env : ValidationEnv) (share : SSVShare)
    (m : SignedMessage) (h : m.Signers = []) :
    validConsensusSigners env share m = some ErrNoSigners := by
  simp [validConsensusSigners, h]

/-- On a non-empty batch whose requests all have a public key, `verify` sends
one verdict to each request: for one request its own check, for two or more
all true when the aggregate check succeeds and each request's own check when
it fails. -/
theorem verify_verdicts (lib : BlsLib) (batch : List SignatureRequest) (hne : batch ≠ [])
    (hkeys : ∀ r ∈ batch, r.PubKeys ≠ []) :
    ∃ verdicts, verify lib batch = some verdicts ∧ verdicts.length = batch.length ∧
      (batch.length = 1 → verdicts = batch.map (verifySingle lib)) ∧
      (2 ≤ batch.length → ∃ sig pks msgs, aggregateOf lib batch = some (sig, pks, msgs) ∧
        verdicts = if lib.AggregateVerifyNoCheck sig pks msgs then batch.map (fun _ => true)
          else batch.map (verifySingle lib)) := by
  match batch, hne with
  | [req], _ =>
    refine ⟨[verifySingle lib req], rfl, rfl, fun _ => rfl, ?_⟩
    intro h2
    simp at h2
  | a :: c :: rest, _ =>
    obtain ⟨sig, pks, msgs, hloop, hv, hl⟩ :=
      verify_many lib (a :: c :: rest) a (by simp) rfl hkeys
    refine ⟨_, hv, ?_, ?_, ?_⟩
    · split <;> simp
    · intro h1
      simp at h1
    · intro _
      exact ⟨sig, pks, msgs, hloop, rfl⟩

/-- C29 (amended): for every batch of two or more requests, `verify` completes
and delivers a verdict to every request of the batch exactly when every request
has at least one public key; and every request that the callers of the verifier
queue has one: `VerifyByOperators` collects at least one key for a message
that `validConsensusSigners` has accepted, which rejects a message with no
signers, and `VerifyReconstructedSignature` passes one key. -/
theorem verify_completes_iff (lib : BlsLib) (batch : List SignatureRequest)
    (hlen : 2 ≤ batch.length) (venv : VerifyEnv) (env : ValidationEnv) (share : SSVShare)
    (s : Bytes) (data : SignedMessage) (operators : List Operator) (sig0 : BlsSign)
    (validatorPubKey root0 : Bytes) :
    ((∃ verdicts, verify lib batch = some verdicts ∧ verdicts.length = batch.length) ↔
      ∀ r ∈ batch, r.PubKeys ≠ []) ∧
    (validConsensusSigners env share data = none →
      ∀ sig pks root, VerifyByOperatorsCall venv s data operators = .ok (sig, pks, root) →
        pks ≠ []) ∧
    (∀ sig pks root,
      VerifyReconstructedSignatureCall venv sig0 validatorPubKey root0 = .ok (sig, pks, root) →
        pks ≠ []) := by
  refine ⟨⟨?_, ?_⟩, ?_, ?_⟩
  · rintro ⟨verdicts, hv, _⟩ r hr hnil
    rw [verify_panics lib batch hlen r hr hnil] at hv
    exact Option.noConfusion hv
  · intro hk
    have hne : batch ≠ [] := by
      intro h
      rw [h] at hlen
      simp at hlen
    obtain ⟨verdicts, hv, hl, _⟩ := verify_verdicts lib batch hne hk
    exact ⟨verdicts, hv, hl⟩
  · intro hvalid sig pks root hcall
    have hsigners : data.Signers ≠ [] := by
      intro h
      rw [validConsensusSigners_no_signers env share data h] at hvalid
      exact Option.noConfusion hvalid
    exact VerifyByOperatorsCall_keys venv s data operators sig pks root hsigners hcall
  · intro sig pks root hcall
    exact VerifyReconstructedSignatureCall_keys venv sig0 validatorPubKey root0 sig pks root hcall

/-- C29 (witness): the batch of the requests for the digests 3 and 6, each with
a public key, is verified and gets two verdicts. -/
theorem verify_completes_iff_witness :
    2 ≤ sampleBatch.length ∧
    ∃ verdicts, verify sampleBls sampleBatch = some verdicts ∧
      verdicts.length = sampleBatch.length :=
  ⟨by decide,
    (verify_completes_iff sampleBls sampleBatch (by decide) sampleVerifyEnv sampleValidationEnv
      sampleCommitteeShare [] ⟨[], [1], ⟨.CommitMsgType, 5, 1, []⟩, none⟩
      sampleCommitteeShare.Committee 0 [] []).1.mpr (by decide)⟩

/-- C29 (counterexample): with the toy BLS library, the batch of the request
for the digest 3 with the key 5 and of the request for the digest 4 with an
empty list of public keys, which is what the loop of `VerifyByOperators`
collects for a message with no signers, makes `verify` panic at
`req.PubKeys[0]`: no request of the batch gets a verdict. -/
theorem verify_empty_public_keys_counterexample :
    signerPublicKeys sampleVerifyEnv.DeserializeBLSPublicKey sampleCommitteeShare.Committee
      [] [] = .ok [] ∧
    (sampleRequest 4 [] 0).PubKeys = [] ∧
    verify sampleBls [sampleRequest 3 [5] 0, sampleRequest 4 [] 0] = none := by
  refine ⟨rfl, ?_, ?_⟩ <;> decide

/-! ## Theorems: the adaptive timeout -/

/-- Rounding keeps a non-negative number non-negative. -/
theorem round_nonneg (round : ℚ → ℚ) (h : Float64Rounding round) (q : ℚ) (hq : 0 ≤ q) :
    0 ≤ round q := by
  have h0 := h.2 0 (by norm_num)
  simp only [Int.cast_zero] at h0
  calc (0 : ℚ) = round 0 := h0.symm
    _ ≤ round q := h.1 0 q hq

/-- Rounding a positive integer gives a positive number. -/
theorem round_pos (round : ℚ → ℚ) (h : Float64Rounding round) (c : Int) (hc : 0 < c) :
    0 < round (c : ℚ) := by
  have h1 := h.2 1 (by norm_num)
  simp only [Int.cast_one] at h1
  have hle : (1 : ℚ) ≤ (c : ℚ) := by exact_mod_cast hc
  have := h.1 1 (c : ℚ) hle
  linarith

/-- The busyness does not decrease when the workload grows. -/
theorem busyness_mono (round : ℚ → ℚ) (h : Float64Rounding round) (c w1 w2 : Int)
    (hc : 0 < c) (hw : w1 ≤ w2) : busyness round c w1 ≤ busyness round c w2 := by
  have hrc := round_pos round h c hc
  have hcast : (((w1 + 1 : Int) : ℚ)) ≤ ((w2 + 1 : Int) : ℚ) := by exact_mod_cast (by omega)
  have h1 := h.1 _ _ hcast
  have h2 : round ((w1 + 1 : Int) : ℚ) / round (c : ℚ) ≤
      round ((w2 + 1 : Int) : ℚ) / round (c : ℚ) :=
    div_le_div_of_nonneg_right h1 (le_of_lt hrc)
  have h3 := h.1 _ _ h2
  have h4 : round (round ((w1 + 1 : Int) : ℚ) / round (c : ℚ)) * 2 ≤
      round (round ((w2 + 1 : Int) : ℚ) / round (c : ℚ)) * 2 := by linarith
  have h5 := h.1 _ _ h4
  unfold busyness
  dsimp only
  split_ifs <;> linarith

/-- The busyness is at most one. -/
theorem busyness_le_one (round : ℚ → ℚ) (c w : Int) : busyness round c w ≤ 1 := by
  unfold busyness
  dsimp only
  split_ifs <;> linarith

/-- The busyness of a non-negative workload is not negative. -/
theorem busyness_nonneg (round : ℚ → ℚ) (h : Float64Rounding round) (c w : Int)
    (hc : 0 < c) (hw : 0 ≤ w) : 0 ≤ busyness round c w := by
  have hrc := round_pos round h c hc
  have hcast : (0 : ℚ) ≤ ((w + 1 : Int) : ℚ) := by exact_mod_cast (by omega)
  have h1 := round_nonneg round h _ hcast
  have h2 := round_nonneg round h _ (div_nonneg h1 (le_of_lt hrc))
  have h3 := round_nonneg round h (round (round ((w + 1 : Int) : ℚ) / round (c : ℚ)) * 2)
    (by linarith)
  unfold busyness
  dsimp only
  split_ifs <;> linarith

/-- The truncation of a non-negative number is its floor. -/
theorem truncate_of_nonneg (q : ℚ) (hq : 0 ≤ q) : truncate q = ⌊q⌋ := by
  simp only [truncate, hq, if_true, Rat.floor_def]

/-- With a positive time left `adaptiveTimeout` returns the truncated product
of the busyness and the time left. -/
theorem adaptiveTimeout_snd (round : ℚ → ℚ) (now : Int) (b : BatchVerifier) (pending : Int)
    (hleft : 0 < wrapInt64 (b.timeout - timeSub now (b.started.getD now))) :
    (adaptiveTimeout round now b pending).2 =
      truncate (round (busyness round b.concurrency (workload round b pending) *
        round ((wrapInt64 (b.timeout - timeSub now (b.started.getD now)) : Int) : ℚ))) := by
  unfold adaptiveTimeout
  dsimp only
  rw [if_neg (not_le.mpr hleft)]

/-- C24 (amended): for a fixed positive concurrency, timeout and start of the
batch, and a positive time left of at most `2 ^ 53` ns, the timeout returned by
`adaptiveTimeout` is monotonically non-decreasing in the workload: a verifier
with the larger workload never gets a shorter window than one with the smaller
workload, so that an idle verifier gets the shortest window; and the result
lies between 0 and the time left. -/
theorem adaptiveTimeout_monotone (round : ℚ → ℚ) (hround : Float64Rounding round) (now : Int)
    (b1 b2 : BatchVerifier) (p1 p2 : Int)
    (hc : 0 < b1.concurrency) (hsc : b2.concurrency = b1.concurrency)
    (hst : b2.timeout = b1.timeout) (hss : b2.started = b1.started)
    (hleft : 0 < wrapInt64 (b1.timeout - timeSub now (b1.started.getD now)))
    (hbound : wrapInt64 (b1.timeout - timeSub now (b1.started.getD now)) ≤ 2 ^ 53)
    (hw0 : 0 ≤ workload round b1 p1)
    (hw : workload round b1 p1 ≤ workload round b2 p2) :
    (adaptiveTimeout round now b1 p1).2 ≤ (adaptiveTimeout round now b2 p2).2 ∧
    0 ≤ (adaptiveTimeout round now b1 p1).2 ∧
    (adaptiveTimeout round now b1 p1).2 ≤
      wrapInt64 (b1.timeout - timeSub now (b1.started.getD now)) := by
  have hleft2 : 0 < wrapInt64 (b2.timeout - timeSub now (b2.started.getD now)) := by
    rw [hst, hss]
    exact hleft
  rw [adaptiveTimeout_snd round now b1 p1 hleft, adaptiveTimeout_snd round now b2 p2 hleft2,
    hsc, hst, hss]
  generalize wrapInt64 (b1.timeout - timeSub now (b1.started.getD now)) = tl at hleft hbound ⊢
  generalize workload round b1 p1 = w1 at hw0 hw ⊢
  generalize workload round b2 p2 = w2 at hw ⊢
  have hrtl : round (tl : ℚ) = (tl : ℚ) :=
    hround.2 tl (abs_le.mpr ⟨by linarith, hbound⟩)
  rw [hrtl]
  have htl : (0 : ℚ) ≤ (tl : ℚ) := by exact_mod_cast le_of_lt hleft
  have hB := busyness_mono round hround b1.concurrency w1 w2 hc hw
  have hB0 := busyness_nonneg round hround b1.concurrency w1 hc hw0
  have hB1 := busyness_le_one round b1.concurrency w1
  have hz : round (busyness round b1.concurrency w1 * (tl : ℚ)) ≤
      round (busyness round b1.concurrency w2 * (tl : ℚ)) :=
    hround.1 _ _ (mul_le_mul_of_nonneg_right hB htl)
  have hz0 : 0 ≤ round (busyness round b1.concurrency w1 * (tl : ℚ)) :=
    round_nonneg round hround _ (mul_nonneg hB0 htl)
  have hz1 : round (busyness round b1.concurrency w1 * (tl : ℚ)) ≤ (tl : ℚ) := by
    have hle : busyness round b1.concurrency w1 * (tl : ℚ) ≤ (tl : ℚ) := by
      calc busyness round b1.concurrency w1 * (tl : ℚ) ≤ 1 * (tl : ℚ) :=
            mul_le_mul_of_nonneg_right hB1 htl
        _ = (tl : ℚ) := one_mul _
    have := hround.1 _ _ hle
    rw [hrtl] at this
    exact this
  rw [truncate_of_nonneg _ hz0, truncate_of_nonneg _ (le_trans hz0 hz)]
  refine ⟨Int.floor_mono hz, Int.floor_nonneg.mpr hz0, ?_⟩
  have := Int.floor_mono hz1
  rw [Int.floor_intCast] at this
  exact this

/-- C24 (witness): with exact rounding, eight workers and 50 ms left, the
verifier with one busy worker gets at most the window of the verifier with
three busy workers, and a window between 0 and 50 ms. -/
theorem adaptiveTimeout_monotone_witness :
    (adaptiveTimeout id 0 (sampleBusyVerifier 1) 1).2 ≤
      (adaptiveTimeout id 0 (sampleBusyVerifier 3) 1).2 ∧
    0 ≤ (adaptiveTimeout id 0 (sampleBusyVerifier 1) 1).2 ∧
    (adaptiveTimeout id 0 (sampleBusyVerifier 1) 1).2 ≤
      wrapInt64 ((sampleBusyVerifier 1).timeout -
        timeSub 0 ((sampleBusyVerifier 1).started.getD 0)) :=
  adaptiveTimeout_monotone id ⟨fun _ _ h => h, fun _ _ => rfl⟩ 0 (sampleBusyVerifier 1)
    (sampleBusyVerifier 3) 1 1 (by decide) rfl rfl rfl (by decide) (by decide)
    (by norm_num [workload, truncate, sampleBusyVerifier, NewBatchVerifier])
    (by norm_num [workload, truncate, sampleBusyVerifier, NewBatchVerifier])

/-- C24 (counterexample): with exact rounding, eight workers, batches of
fourteen, one pending request and 50 ms left, the idle verifier, of workload
0, gets a window of 12.5 ms and the verifier with three busy workers, of
workload 3, gets the whole 50 ms: the busier verifier gets the longer window. -/
theorem adaptiveTimeout_longer_when_busy :
    workload id (sampleBusyVerifier 0) 1 = 0 ∧
    workload id (sampleBusyVerifier 3) 1 = 3 ∧
    (adaptiveTimeout id 0 (sampleBusyVerifier 0) 1).2 = 12500000 ∧
    (adaptiveTimeout id 0 (sampleBusyVerifier 3) 1).2 = 50000000 ∧
    ¬ ((adaptiveTimeout id 0 (sampleBusyVerifier 3) 1).2 ≤
      (adaptiveTimeout id 0 (sampleBusyVerifier 0) 1).2) := by
  have h0 : (adaptiveTimeout id 0 (sampleBusyVerifier 0) 1).2 = 12500000 := by
    norm_num [adaptiveTimeout, workload, busyness, truncate, sampleBusyVerifier,
      NewBatchVerifier, wrapInt64, timeSub]
  have h3 : (adaptiveTimeout id 0 (sampleBusyVerifier 3) 1).2 = 50000000 := by
    norm_num [adaptiveTimeout, workload, busyness, truncate, sampleBusyVerifier,
      NewBatchVerifier, wrapInt64, timeSub]
  refine ⟨?_, ?_, h0, h3, ?_⟩
  · norm_num [workload, truncate, sampleBusyVerifier, NewBatchVerifier]
  · norm_num [workload, truncate, sampleBusyVerifier, NewBatchVerifier]
  · rw [h0, h3]
    decide


/-! ## Theorems: the limits of the message counts -/

end Ssv
